import Mathlib

/-!
Memory snapshot core of the AFL snapshot kernel module (`src/memory.c`)

A shallow embedding of the page divergence tracker, the snapshot capture, the
dirty-page restore and the VMA reconciliation sweep, followed by the theorems
that settle the specification's claims against it.

Conventions of the embedding.

* `unsigned long` values are natural numbers; `ULONG_MAX` is `2 ^ 64 - 1`.
* Kernel services whose outcome the module cannot determine (allocation,
  `vm_munmap`, `vm_mmap`, `copy_to_user`, the page-table walk done at restore
  time) are fields of a `kernel` record that every function receives.
* The calls the module makes into the kernel and the messages it logs are
  collected, in program order, in a list of `event`s.
* A kernel `list_head` list that is only ever appended to and deleted from is
  the Lean list of its entries in traversal order.  The allow and block lists,
  whose insertion call is unusual, are modelled at pointer level.
* The list of current mappings is a kernel structure that `vm_munmap` and
  `vm_mmap` change while `restore_vmas` walks it.  What a call leaves behind a
  pointer into that list is a field of the `kernel` record as well; the kernel
  of the worked examples cuts mappings the way the Linux kernel does.
-/

namespace Snappy

/-! ## Constants -/

def PAGE_SIZE : Nat := 4096

def ULONG_MAX : Nat := 2 ^ 64 - 1

def VM_READ : Nat := 1
def VM_WRITE : Nat := 2
def VM_EXEC : Nat := 4
def VM_SHARED : Nat := 8

def PROT_READ : Nat := 1
def PROT_WRITE : Nat := 2
def PROT_EXEC : Nat := 4

def MAP_PRIVATE : Nat := 2
def MAP_FIXED_NOREPLACE : Nat := 1048576

def ENOMEM : Int := 12

/-- The test `IS_ERR`: the top 4095 values of the address space are error codes
(`addr >= (unsigned long)-MAX_ERRNO` with `MAX_ERRNO` 4095). -/
def IS_ERR (addr : Nat) : Bool := decide (ULONG_MAX < addr + 4095)

/-! ## Data model -/

/-- Modelled from the spec: the configuration word of `task_data` and the flag
constants `AFL_SNAPSHOT_MMAP`, `AFL_SNAPSHOT_BLOCK`, `AFL_SNAPSHOT_NOSTACK` are
declared in `snapshot.h`, which is not part of the sources; each field is the
truth value of `config & FLAG`. -/
structure snapshot_config where
  mmap : Bool
  block : Bool
  nostack : Bool
deriving DecidableEq, Repr

/-- Modelled from the spec: the kind stored in `page_prot`.  The helpers
`set_snapshot_page_*` and `is_snapshot_page_*` live in `snapshot.h`, which is not
part of the sources; a page record has one kind, `unset` standing for
`page_prot = 0` as left by `add_snapshot_page`. -/
inductive page_kind where
  | unset
  | priv
  | cow
  | none_pte
deriving DecidableEq, Repr

/-- One page of bytes, indexed by the offset in the page. -/
abbrev page_bytes := Nat → Nat

/-- The record `struct snapshot_page`. -/
structure snapshot_page where
  page_base : Nat
  page_prot : page_kind
  page_data : Option page_bytes
  has_been_copied : Bool
  has_had_pte : Bool
  dirty : Bool
  in_dirty_list : Bool

/-- The record `struct snapshot_vma`. -/
structure snapshot_vma where
  vm_start : Nat
  vm_end : Nat
  prot : Nat
  is_anonymous_private : Bool
deriving DecidableEq, Repr

/-- The record `struct vmrange`. -/
structure vmrange where
  start : Nat
  end_ : Nat
deriving DecidableEq, Repr

/-- The fields of the kernel `struct vm_area_struct` the module reads. -/
structure vm_area_struct where
  vm_start : Nat
  vm_end : Nat
  vm_flags : Nat
  anonymous : Bool
deriving DecidableEq, Repr

/-- The field `ss` of `task_data`.  `ss_pages` is the hash table, newest record
first; `dirty_pages` lists the `page_base` of every linked record, in list
order. -/
structure snapshot where
  all_vmas : List snapshot_vma
  snapshotted_vmas : List snapshot_vma
  ss_pages : List snapshot_page
  dirty_pages : List Nat

/-- The record `struct task_data`.  `allowlist` and `blocklist` hold the entries
a `list_for_each_entry` walk from the list head visits, in that order. -/
structure task_data where
  config : snapshot_config
  allowlist : List vmrange
  blocklist : List vmrange
  ss : snapshot

/-- User memory of the tracked process: one page of bytes per page base. -/
abbrev user_memory := Nat → page_bytes

/-- Calls into the kernel and log messages, in program order. -/
inductive event where
  | munmap (start len : Nat)
  | mmap (addr len prot flags : Nat)
  | fatal_munmap (start stop : Nat)
  | fatal_mmap (start stop res : Nat)
  | fatal_missing (start stop : Nat)
  | copy_to_user (dst : Nat)
  | set_wrprotect (addr : Nat)
  | flush_tlb (start stop : Nat)
  | zap_page_range (addr size : Nat)
  | warn_not_in_dirty_list (page_base : Nat)
  | warn_already_in_dirty_list (page_base : Nat)
  | fatal_alloc
  | dbg_making_snapshot (addr : Nat)
deriving DecidableEq, Repr

/-- Outcomes of the kernel services the module calls. -/
structure kernel where
  /-- Result of `kmalloc(sizeof(struct snapshot_vma))` for the mapping starting at
  the given address: `none` when it fails, otherwise the value the
  uninitialised `prot` field happens to hold. -/
  kmalloc_snapshot_vma : Nat → Option Nat
  /-- Whether `kmalloc(sizeof(struct snapshot_page))` succeeds for a page. -/
  kmalloc_snapshot_page : Nat → Bool
  /-- Whether `kmalloc(PAGE_SIZE)` succeeds for the content buffer of a page. -/
  kmalloc_page_data : Nat → Bool
  /-- Whether `walk_page_table` finds a page-table entry for an address. -/
  walk_page_table : Nat → Bool
  /-- Number of bytes `copy_to_user` could not copy to the page at an address. -/
  copy_to_user : Nat → Nat
  /-- Result of `vm_munmap start len`, given the calls made so far. -/
  vm_munmap : List event → Nat → Nat → Int
  /-- Result of `vm_mmap` at `addr len prot flags`, given the calls made so far. -/
  vm_mmap : List event → Nat → Nat → Nat → Nat → Nat
  /-- What a successful `vm_munmap start len` does to the mapping list of the
  process, as seen through a pointer to a `vm_area_struct`: given the mappings
  reachable from the pointer before the call (the struct it points to, then its
  `vm_next` successors), those read through the same pointer after the call. -/
  vm_munmap_vmas : List event → Nat → Nat → List vm_area_struct → List vm_area_struct
  /-- The same for a successful `vm_mmap` at `addr len prot flags`. -/
  vm_mmap_vmas :
    List event → Nat → Nat → Nat → Nat → List vm_area_struct → List vm_area_struct

/-! ## Kernel list primitives on the traversal-order view -/

/-- The call `list_add_tail(new, head)` for a node that is not linked, on the
traversal-order view of the list.  On a node that is linked already the kernel
call rewires the list around the node, and the result is no list this view can
describe; the theorems below that go through such a call say for which node. -/
def list_add_tail {α : Type} (new : α) (head : List α) : List α := head ++ [new]

/-- The call `list_del(entry)`. -/
def list_del {α : Type} [DecidableEq α] (entry : α) (head : List α) : List α :=
  head.erase entry

/-! ## Page record store -/

def set_snapshot_page_none_pte (sp : snapshot_page) : snapshot_page :=
  { sp with page_prot := page_kind.none_pte }

def set_snapshot_page_private (sp : snapshot_page) : snapshot_page :=
  { sp with page_prot := page_kind.priv }

def set_snapshot_page_cow (sp : snapshot_page) : snapshot_page :=
  { sp with page_prot := page_kind.cow }

def is_snapshot_page_none_pte (sp : snapshot_page) : Bool :=
  decide (sp.page_prot = page_kind.none_pte)

def is_snapshot_page_private (sp : snapshot_page) : Bool :=
  decide (sp.page_prot = page_kind.priv)

/-- The lookup `get_snapshot_page`: the first record of the bucket with the
given base. -/
def get_snapshot_page (data : task_data) (page_base : Nat) : Option snapshot_page :=
  data.ss.ss_pages.find? (fun sp => sp.page_base == page_base)

/-- Write through a `struct snapshot_page *` obtained from `get_snapshot_page`:
the first record with that base is replaced. -/
def write_page : List snapshot_page → snapshot_page → List snapshot_page
  | [], _ => []
  | q :: qs, sp =>
    if q.page_base == sp.page_base then sp :: qs else q :: write_page qs sp

/-- The state after the fields of the record behind a pointer were assigned. -/
def put_snapshot_page (data : task_data) (sp : snapshot_page) : task_data :=
  { data with ss := { data.ss with ss_pages := write_page data.ss.ss_pages sp } }

/-- The function `add_snapshot_page`.  Returns the state and the record, `none`
for the `NULL` result.  A fresh record is added at the head of its bucket; its
`has_had_pte`, left uninitialised by the source, is set by every caller. -/
def add_snapshot_page (k : kernel) (data : task_data) (page_base : Nat)
    (attempt_reuse : Bool) : task_data × Option snapshot_page :=
  let found := if attempt_reuse then get_snapshot_page data page_base else none
  match found with
  | some sp =>
    let sp := { sp with page_prot := page_kind.unset, has_been_copied := false,
                        dirty := false, in_dirty_list := false }
    (put_snapshot_page data sp, some sp)
  | none =>
    if k.kmalloc_snapshot_page page_base then
      let sp : snapshot_page :=
        { page_base := page_base, page_prot := page_kind.unset, page_data := none,
          has_been_copied := false, has_had_pte := false, dirty := false,
          in_dirty_list := false }
      ({ data with ss := { data.ss with ss_pages := sp :: data.ss.ss_pages } }, some sp)
    else (data, none)

/-- The bits of a page-table entry the module looks at. -/
structure pte_t where
  pte_none : Bool
  pte_write : Bool
deriving DecidableEq, Repr

/-- The function `make_snapshot_page`.  Returns the result code, the state and
the page-table entry as the function leaves it, with the calls made; the trace
starts with the debug message `making snapshot` for the address. -/
def make_snapshot_page (k : kernel) (data : task_data) (addr : Nat) (pte : pte_t) :
    Int × task_data × pte_t × List event :=
  match add_snapshot_page k data addr true with
  | (data, none) => (-ENOMEM, data, pte, [event.dbg_making_snapshot addr, event.fatal_alloc])
  | (data, some sp) =>
    if pte.pte_none then
      let sp := set_snapshot_page_none_pte { sp with has_had_pte := false }
      (0, put_snapshot_page data sp, pte, [event.dbg_making_snapshot addr])
    else
      let sp := { sp with has_had_pte := true }
      if pte.pte_write then
        let sp := set_snapshot_page_private sp
        (0, put_snapshot_page data sp, { pte with pte_write := false },
          [event.dbg_making_snapshot addr, event.set_wrprotect addr,
           event.flush_tlb (addr - addr % PAGE_SIZE) (addr - addr % PAGE_SIZE + PAGE_SIZE)])
      else
        let sp := set_snapshot_page_cow sp
        (0, put_snapshot_page data sp, pte, [event.dbg_making_snapshot addr])

/-! ## Divergence tracker -/

/-- The function `record_dirty_page`.  `mapped_page` is the content of the page
the entry `pte` maps, as `kmap_local_page` exposes it.  Returns the state, the
record (`none` for `NULL`) and the messages logged. -/
def record_dirty_page (k : kernel) (data : task_data) (page_addr : Nat)
    (mapped_page : page_bytes) : task_data × Option snapshot_page × List event :=
  match get_snapshot_page data page_addr with
  | none => (data, none, [])
  | some ss_page =>
    if ss_page.dirty || is_snapshot_page_none_pte ss_page then (data, none, [])
    else
      let ss_page := { ss_page with dirty := true }
      let linked : snapshot_page × List Nat × List event :=
        if ss_page.in_dirty_list then
          (ss_page, data.ss.dirty_pages, [event.warn_already_in_dirty_list ss_page.page_base])
        else
          ({ ss_page with in_dirty_list := true },
            list_add_tail ss_page.page_base data.ss.dirty_pages, [])
      let ss_page := linked.1
      let data := { data with ss := { data.ss with dirty_pages := linked.2.1 } }
      if !ss_page.has_been_copied then
        if ss_page.page_data.isNone && !k.kmalloc_page_data page_addr then
          (put_snapshot_page data ss_page, none, linked.2.2 ++ [event.fatal_alloc])
        else
          let ss_page := { ss_page with page_data := some mapped_page,
                                        has_been_copied := true }
          (put_snapshot_page data ss_page, some ss_page, linked.2.2)
      else
        (put_snapshot_page data ss_page, some ss_page, linked.2.2)

/-- The loop of `is_snapshotted_address` over the remaining records. -/
def is_snapshotted_address_loop (page_base : Nat) : List snapshot_vma → Bool
  | [] => false
  | ss_vma :: rest =>
    if ss_vma.vm_start ≤ page_base ∧ page_base < ss_vma.vm_end then true
    else if ss_vma.vm_start > page_base then false
    else is_snapshotted_address_loop page_base rest

def is_snapshotted_address (data : task_data) (page_base : Nat) : Bool :=
  is_snapshotted_address_loop page_base data.ss.snapshotted_vmas

/-- The end of `page_add_new_anon_rmap_hook`, from the statement
`ss_page->has_had_pte = true` on, for the record `ss_page` of `data`. -/
def page_add_new_anon_rmap_hook_tail (data : task_data) (ss_page : snapshot_page) :
    task_data × List event :=
  let ss_page := { ss_page with has_had_pte := true }
  if is_snapshot_page_none_pte ss_page then
    if ss_page.in_dirty_list then
      (put_snapshot_page data ss_page,
        [event.warn_already_in_dirty_list ss_page.page_base])
    else
      let ss_page := { ss_page with in_dirty_list := true }
      let data := { data with ss := { data.ss with
        dirty_pages := list_add_tail ss_page.page_base data.ss.dirty_pages } }
      (put_snapshot_page data ss_page, [])
  else (put_snapshot_page data ss_page, [])

/-- The new-mapping handler `page_add_new_anon_rmap_hook`, from the lookup of the
page record on: the caller has found the task data and checked that it holds a
snapshot.  Returns the state and the messages logged.  The source passes the
result of `add_snapshot_page` to `set_snapshot_page_none_pte` without a check;
the result is `none` when that pointer is `NULL` and the handler writes through
it. -/
def page_add_new_anon_rmap_hook (k : kernel) (data : task_data) (page_base_addr : Nat) :
    Option (task_data × List event) :=
  match get_snapshot_page data page_base_addr with
  | some ss_page => some (page_add_new_anon_rmap_hook_tail data ss_page)
  | none =>
    if !is_snapshotted_address data page_base_addr then some (data, [])
    else
      match add_snapshot_page k data page_base_addr false with
      | (data, some ss_page) =>
        let ss_page := set_snapshot_page_none_pte ss_page
        some (page_add_new_anon_rmap_hook_tail (put_snapshot_page data ss_page) ss_page)
      | (_, none) => none

/-! ## Restore: dirty-page drain -/

/-- The bytes of a page after `copy_to_user` of `PAGE_SIZE` bytes left
`not_copied` bytes uncopied. -/
def copy_page (src old : page_bytes) (not_copied : Nat) : page_bytes :=
  fun i => if i < PAGE_SIZE - not_copied then src i else old i

/-- The function `do_recover_page`.  A record without a buffer has nothing to
copy from; the source only calls it for records whose content was copied. -/
def do_recover_page (k : kernel) (sp : snapshot_page) (mem : user_memory) :
    snapshot_page × user_memory × List event :=
  let mem := match sp.page_data with
    | some page_data =>
      Function.update mem sp.page_base
        (copy_page page_data (mem sp.page_base) (k.copy_to_user sp.page_base))
    | none => mem
  ({ sp with dirty := false }, mem, [event.copy_to_user sp.page_base])

/-- The function `do_recover_none_pte`. -/
def do_recover_none_pte (sp : snapshot_page) : List event :=
  [event.zap_page_range sp.page_base PAGE_SIZE]

/-- State threaded through the loop of `recover_memory_snapshot`. -/
structure recover_state where
  data : task_data
  mem : user_memory
  trace : List event

/-- The tail of the loop body of `recover_memory_snapshot`, reached unless the
body ran into `continue`: the membership warning, the flag reset and
`list_del`. -/
def recover_unlink (st : recover_state) (sp : snapshot_page) : recover_state :=
  let trace := if !sp.in_dirty_list
    then st.trace ++ [event.warn_not_in_dirty_list sp.page_base] else st.trace
  let sp := { sp with in_dirty_list := false }
  let data := put_snapshot_page st.data sp
  { data := { data with ss := { data.ss with
                dirty_pages := list_del sp.page_base data.ss.dirty_pages } },
    mem := st.mem, trace := trace }

/-- One iteration of the loop of `recover_memory_snapshot`, for the record `sp`
linked in the dirty list. -/
def recover_page (k : kernel) (st : recover_state) (sp : snapshot_page) : recover_state :=
  if sp.dirty && sp.has_been_copied then
    let r := do_recover_page k sp st.mem
    let sp := { r.1 with has_had_pte := true }
    let st := { st with mem := r.2.1, trace := st.trace ++ r.2.2 }
    if !k.walk_page_table sp.page_base then
      { st with data := put_snapshot_page st.data sp }
    else
      let sp := set_snapshot_page_private sp
      let st := { st with trace := st.trace ++
        [event.set_wrprotect sp.page_base,
         event.flush_tlb sp.page_base (sp.page_base + PAGE_SIZE)] }
      recover_unlink st sp
  else if is_snapshot_page_private sp then
    recover_unlink st sp
  else if is_snapshot_page_none_pte sp && sp.has_had_pte then
    let st := { st with trace := st.trace ++ do_recover_none_pte sp }
    let sp := { set_snapshot_page_none_pte sp with has_had_pte := false }
    recover_unlink st sp
  else
    recover_unlink st sp

/-- The loop `list_for_each_entry_safe` of `recover_memory_snapshot` over the
entries of the dirty list, each named by its `page_base`.  Every entry of the
kernel list is a page record; an entry without a record is passed over. -/
def recover_pages (k : kernel) : List Nat → recover_state → recover_state
  | [], st => st
  | page_base :: rest, st =>
    match get_snapshot_page st.data page_base with
    | some sp => recover_pages k rest (recover_page k st sp)
    | none => recover_pages k rest st

/-! ## Restore: VMA reconciliation sweep -/

/-- Subtraction of `unsigned long` values. -/
def ulong_sub (a b : Nat) : Nat := (a + 2 ^ 64 - b % 2 ^ 64) % 2 ^ 64

/-- The local variables of `restore_vmas`.  `vma_iter` is what the pointer of
that name reads at the top of an iteration: the current mapping with the chain
of its `vm_next` successors as the kernel has them at that moment (empty for
`NULL`).  `ss_vma_iter` is the current record of `all_vmas` with the records
after it (empty when the iterator is back at the list head). -/
structure sweep_state where
  vma_iter : List vm_area_struct
  ss_vma_iter : List snapshot_vma
  cursor : Nat
  in_ss_vmas : Bool
  in_vmas : Bool
  res : Int
  trace : List event

/-- What a pointer to a `vm_area_struct` reads after a kernel call with the given
effect on the mappings: `NULL` stays `NULL`. -/
def vmas_after (effect : List vm_area_struct → List vm_area_struct)
    (vmas : List vm_area_struct) : List vm_area_struct :=
  match vmas with
  | [] => []
  | _ :: _ => effect vmas

/-- The end of the loop body of `restore_vmas`: both membership flags and both
iterators are advanced past `next_cursor`.  `s.vma_iter` and `next_vma_iter`
are what the two pointers of these names read at that point, after the kernel
call of the iteration if there was one.  `list_next_entry` taken at the list
head yields the first record of `all_vmas` again. -/
def sweep_advance (all_vmas : List snapshot_vma) (s : sweep_state)
    (next_vma_iter : List vm_area_struct)
    (next_vma_pos next_ss_vma_pos next_cursor : Nat) : sweep_state :=
  let in_vmas := if next_cursor = next_vma_pos then !s.in_vmas else s.in_vmas
  let vma_iter :=
    if next_cursor = next_vma_pos ∧ in_vmas = false then next_vma_iter else s.vma_iter
  let in_ss_vmas := if next_cursor = next_ss_vma_pos then !s.in_ss_vmas else s.in_ss_vmas
  let ss_vma_iter :=
    if next_cursor = next_ss_vma_pos ∧ in_ss_vmas = false then
      (match s.ss_vma_iter with
       | _ :: rest => rest
       | [] => all_vmas)
    else s.ss_vma_iter
  { s with vma_iter := vma_iter, ss_vma_iter := ss_vma_iter, cursor := next_cursor,
           in_vmas := in_vmas, in_ss_vmas := in_ss_vmas }

/-- The position `next_vma_pos` computed at the top of the loop body. -/
def sweep_next_vma_pos (s : sweep_state) : Nat :=
  match s.vma_iter with
  | vma :: _ => if s.in_vmas then vma.vm_end else vma.vm_start
  | [] => ULONG_MAX

/-- The position `next_ss_vma_pos` computed at the top of the loop body. -/
def sweep_next_ss_vma_pos (s : sweep_state) : Nat :=
  match s.ss_vma_iter with
  | ss_vma :: _ => if s.in_ss_vmas then ss_vma.vm_end else ss_vma.vm_start
  | [] => ULONG_MAX

/-- One iteration of the loop of `restore_vmas`: either the state for the next
iteration or the value returned from inside the loop, with the trace.
`next_vma_iter` and `next_vma_pos` are read from the mapping at the top of the
iteration; a successful `vm_munmap` or `vm_mmap` then changes the mappings, and
the next iteration reads `vma_iter->vm_next`, `vm_start` and `vm_end` again from
what the call left behind the pointer it goes on with.  The record read through
`ss_vma_iter` while `in_ss_vmas` holds is the current one; with the iterator at
the list head the source would read the enclosing `task_data`, which the model
takes as not anonymous-private with `prot` 0. -/
def restore_vmas_body (k : kernel) (all_vmas : List snapshot_vma) (s : sweep_state) :
    sweep_state ⊕ (Int × List event) :=
  let next_vma_iter := s.vma_iter.tail
  let next_vma_pos := sweep_next_vma_pos s
  let next_ss_vma_pos := sweep_next_ss_vma_pos s
  let next_cursor := min next_vma_pos next_ss_vma_pos
  if next_cursor ≠ s.cursor ∧ s.in_vmas = true ∧ s.in_ss_vmas = false then
    let len := ulong_sub next_cursor s.cursor
    let res := k.vm_munmap s.trace s.cursor len
    let trace := s.trace ++ [event.munmap s.cursor len]
    if res ≠ 0 then
      Sum.inr (res, trace ++ [event.fatal_munmap s.cursor next_cursor])
    else
      let effect := k.vm_munmap_vmas s.trace s.cursor len
      Sum.inl (sweep_advance all_vmas
        { s with res := res, trace := trace, vma_iter := vmas_after effect s.vma_iter }
        (vmas_after effect next_vma_iter) next_vma_pos next_ss_vma_pos next_cursor)
  else if next_cursor ≠ s.cursor ∧ s.in_vmas = false ∧ s.in_ss_vmas = true then
    let cur : snapshot_vma := match s.ss_vma_iter with
      | ss_vma :: _ => ss_vma
      | [] => { vm_start := 0, vm_end := 0, prot := 0, is_anonymous_private := false }
    if cur.is_anonymous_private then
      let len := ulong_sub next_cursor s.cursor
      let flags := MAP_PRIVATE ||| MAP_FIXED_NOREPLACE
      let addr := k.vm_mmap s.trace s.cursor len cur.prot flags
      let trace := s.trace ++ [event.mmap s.cursor len cur.prot flags]
      if IS_ERR addr || decide (addr ≠ s.cursor) then
        Sum.inr (s.res, trace ++ [event.fatal_mmap s.cursor next_cursor addr])
      else
        let effect := k.vm_mmap_vmas s.trace s.cursor len cur.prot flags
        Sum.inl (sweep_advance all_vmas
          { s with trace := trace, vma_iter := vmas_after effect s.vma_iter }
          (vmas_after effect next_vma_iter) next_vma_pos next_ss_vma_pos next_cursor)
    else
      Sum.inl (sweep_advance all_vmas
        { s with trace := s.trace ++ [event.fatal_missing s.cursor next_cursor] }
        next_vma_iter next_vma_pos next_ss_vma_pos next_cursor)
  else
    Sum.inl (sweep_advance all_vmas s next_vma_iter next_vma_pos next_ss_vma_pos next_cursor)

/-- The loop of `restore_vmas`, run for at most `fuel` iterations: the result
code and the trace, or `none` when the iterations do not suffice.  The value
after the loop is the literal `0`. -/
def restore_vmas_loop (k : kernel) (all_vmas : List snapshot_vma) :
    Nat → sweep_state → Option (Int × List event)
  | fuel, s =>
    if s.vma_iter.isEmpty && s.ss_vma_iter.isEmpty then some (0, s.trace)
    else
      match fuel with
      | 0 => none
      | fuel + 1 =>
        match restore_vmas_body k all_vmas s with
        | Sum.inr r => some r
        | Sum.inl s => restore_vmas_loop k all_vmas fuel s

/-- The function `restore_vmas`.  `mmap` is the list `data->tsk->mm->mmap` of
the current mappings as it stands when the function is entered; what
`vm_munmap` and `vm_mmap` do to it while the loop runs is given by the kernel
(`vm_munmap_vmas`, `vm_mmap_vmas`). -/
def restore_vmas (k : kernel) (fuel : Nat) (mmap : List vm_area_struct) (data : task_data) :
    Option (Int × List event) :=
  restore_vmas_loop k data.ss.all_vmas fuel
    { vma_iter := mmap, ss_vma_iter := data.ss.all_vmas, cursor := 0,
      in_ss_vmas := false, in_vmas := false, res := 0, trace := [] }

/-- Result of `recover_memory_snapshot`. -/
structure recover_result where
  res : Int
  data : task_data
  mem : user_memory
  trace : List event

/-- The function `recover_memory_snapshot`. -/
def recover_memory_snapshot (k : kernel) (fuel : Nat) (mmap : List vm_area_struct)
    (data : task_data) (mem : user_memory) : Option recover_result :=
  let phase_a : Option (Int × List event) :=
    if data.config.mmap then restore_vmas k fuel mmap data else some (0, [])
  match phase_a with
  | none => none
  | some (res, trace) =>
    if res ≠ 0 then some { res := res, data := data, mem := mem, trace := trace }
    else
      let st := recover_pages k data.ss.dirty_pages
        { data := data, mem := mem, trace := trace }
      some { res := 0, data := st.data, mem := st.mem, trace := st.trace }

/-! ## Allow and block lists -/

/-- The function `intersect_blocklist`: the first entry met by the walk over the
block list that overlaps `[start, end_)`. -/
def intersect_blocklist (data : task_data) (start end_ : Nat) : Option vmrange :=
  data.blocklist.find? (fun n => decide (end_ > n.start ∧ start < n.end_))

/-- The function `intersect_allowlist`. -/
def intersect_allowlist (data : task_data) (start end_ : Nat) : Option vmrange :=
  data.allowlist.find? (fun n => decide (end_ > n.start ∧ start < n.end_))

/-- A kernel `struct list_head`: the addresses of the next and previous node. -/
structure list_head where
  next : Nat
  prev : Nat
deriving DecidableEq, Repr

/-- Kernel memory holding the two range lists of one `task_data`: the
`list_head` stored at each address, the range of the `struct vmrange` whose
`node` is at each address, and the addresses of the two list heads. -/
structure range_memory where
  links : Nat → list_head
  ranges : Nat → vmrange
  blocklist : Nat
  allowlist : Nat

/-- The initialiser `INIT_LIST_HEAD(list)`. -/
def INIT_LIST_HEAD (links : Nat → list_head) (list : Nat) : Nat → list_head :=
  Function.update links list { next := list, prev := list }

/-- The kernel `__list_add(new, prev, next)`: four stores, in the order of
`include/linux/list.h`. -/
def __list_add (links : Nat → list_head) (new prev next : Nat) : Nat → list_head :=
  let m1 := Function.update links next { links next with prev := new }
  let m2 := Function.update m1 new { m1 new with next := next }
  let m3 := Function.update m2 new { m2 new with prev := prev }
  Function.update m3 prev { m3 prev with next := new }

/-- The kernel `list_add(new, head)`: insert `new` right after `head`. -/
def list_add (links : Nat → list_head) (new head : Nat) : Nat → list_head :=
  __list_add links new head (links head).next

/-- The walk `list_for_each_entry(n, head, node)` from position `pos`, for at
most `fuel` nodes: the addresses visited, or `none` when the walk has not come
back to `head` by then. -/
def list_for_each (links : Nat → list_head) (head : Nat) : Nat → Nat → Option (List Nat)
  | 0, pos => if pos = head then some [] else none
  | fuel + 1, pos =>
    if pos = head then some []
    else (list_for_each links head fuel (links pos).next).map (fun l => pos :: l)

/-- The ranges a walk over the list with the given head visits. -/
def range_list_entries (m : range_memory) (head fuel : Nat) : Option (List vmrange) :=
  (list_for_each m.links head fuel (m.links head).next).map (fun l => l.map m.ranges)

/-- The function `exclude_vmrange`.  `n` is the address `kmalloc` returned, `none`
for `NULL`.  The call is `list_add(&data->blocklist, &n->node)`. -/
def exclude_vmrange (m : range_memory) (n : Option Nat) (start end_ : Nat) : range_memory :=
  match n with
  | none => m
  | some n =>
    let ranges := Function.update m.ranges n { start := start, end_ := end_ }
    let links := INIT_LIST_HEAD m.links n
    { m with ranges := ranges, links := list_add links m.blocklist n }

/-- The function `include_vmrange`.  The call is
`list_add(&data->allowlist, &n->node)`. -/
def include_vmrange (m : range_memory) (n : Option Nat) (start end_ : Nat) : range_memory :=
  match n with
  | none => m
  | some n =>
    let ranges := Function.update m.ranges n { start := start, end_ := end_ }
    let links := INIT_LIST_HEAD m.links n
    { m with ranges := ranges, links := list_add links m.allowlist n }

/-- The block list of a `task_data` as the walks of the module see it. -/
def blocklist_of (m : range_memory) (fuel : Nat) : Option (List vmrange) :=
  range_list_entries m m.blocklist fuel

/-- The allow list of a `task_data` as the walks of the module see it. -/
def allowlist_of (m : range_memory) (fuel : Nat) : Option (List vmrange) :=
  range_list_entries m m.allowlist fuel

/-! ## Snapshot capture -/

/-- The function `add_snapshot_vma`.  Returns the state and the new record,
`none` for `NULL`.  In each of the three `prot |= ... ? ... : 0` statements the
condition is the whole expression `vma->vm_flags | VM_x`. -/
def add_snapshot_vma (k : kernel) (data : task_data) (vma : vm_area_struct) :
    task_data × Option snapshot_vma :=
  match k.kmalloc_snapshot_vma vma.vm_start with
  | none => (data, none)
  | some uninitialised =>
    let prot := uninitialised
    let prot := prot ||| (if vma.vm_flags ||| VM_READ ≠ 0 then PROT_READ else 0)
    let prot := prot ||| (if vma.vm_flags ||| VM_WRITE ≠ 0 then PROT_WRITE else 0)
    let prot := prot ||| (if vma.vm_flags ||| VM_EXEC ≠ 0 then PROT_EXEC else 0)
    let ss_vma : snapshot_vma :=
      { vm_start := vma.vm_start, vm_end := vma.vm_end, prot := prot,
        is_anonymous_private := vma.anonymous && decide (vma.vm_flags &&& VM_SHARED = 0) }
    ({ data with ss := { data.ss with all_vmas := list_add_tail ss_vma data.ss.all_vmas } },
      some ss_vma)

/-- The values of the kernel `enum page_walk_action` the module uses. -/
inductive page_walk_action where
  | ACTION_SUBTREE
  | ACTION_CONTINUE
deriving DecidableEq, Repr

/-- The record `struct snapshot_walk_data`, without the `task_data` pointer. -/
structure snapshot_walk_data where
  next_allowed_address : Nat
  next_blocked_address : Nat
deriving DecidableEq, Repr

/-- The function `snapshot_walk_check_range`. -/
def snapshot_walk_check_range (data : task_data) (walk_data : snapshot_walk_data)
    (addr next : Nat) : page_walk_action × snapshot_walk_data :=
  if next < walk_data.next_blocked_address then
    (page_walk_action.ACTION_CONTINUE, walk_data)
  else if next < walk_data.next_allowed_address then
    (page_walk_action.ACTION_SUBTREE, walk_data)
  else
    let blocked_overlapped_range := intersect_blocklist data addr next
    let entirely_blocked : Option vmrange :=
      match blocked_overlapped_range with
      | some r => if r.start ≤ addr ∧ r.end_ ≥ next then some r else none
      | none => none
    match entirely_blocked with
    | some r =>
      (page_walk_action.ACTION_CONTINUE, { walk_data with next_blocked_address := r.end_ })
    | none =>
      match intersect_allowlist data addr next with
      | some r =>
        (page_walk_action.ACTION_SUBTREE,
          if r.start ≤ addr ∧ r.end_ ≥ next
          then { walk_data with next_allowed_address := r.end_ } else walk_data)
      | none =>
        if data.config.block then
          (page_walk_action.ACTION_CONTINUE, { walk_data with next_blocked_address := next })
        else
          (page_walk_action.ACTION_SUBTREE,
            if blocked_overlapped_range.isNone
            then { walk_data with next_allowed_address := next } else walk_data)

/-- One callback of the kernel page walker: the level of the table the entry
belongs to (0 `pgd`, 1 `p4d`, 2 `pud`, 3 `pmd`, 4 and above `pte`), the range
`[addr, next)` it maps and, for a `pte`, its bits. -/
structure walk_entry where
  level : Nat
  addr : Nat
  next : Nat
  pte : pte_t
deriving DecidableEq, Repr

/-- State threaded through one capture. -/
structure capture_state where
  data : task_data
  walk_data : snapshot_walk_data
  trace : List event

/-- The function `snapshot_pte_entry`. -/
def snapshot_pte_entry (k : kernel) (st : capture_state) (addr next : Nat) (pte : pte_t) :
    Int × capture_state :=
  let c := snapshot_walk_check_range st.data st.walk_data addr next
  let st := { st with walk_data := c.2 }
  if c.1 = page_walk_action.ACTION_CONTINUE then (0, st)
  else
    let r := make_snapshot_page k st.data addr pte
    (r.1, { st with data := r.2.1, trace := st.trace ++ r.2.2.2 })

/-- The kernel `walk_page_vma` with `snapshot_walk_ops`.  The page walker itself
is kernel code; `entries` are the populated table entries under the mapping in
the order the walker reaches them (each table entry before the entries below
it, ascending addresses).  The walker calls the callback of each entry; after a
`pud` or `pmd` callback left `ACTION_CONTINUE` in `walk->action` it passes over
the entries below that one (`skip` holds the level), and it stops at the first
callback returning non-zero. -/
def walk_page_vma (k : kernel) :
    List walk_entry → Option Nat → capture_state → Int × capture_state
  | [], _, st => (0, st)
  | e :: rest, skip, st =>
    if (match skip with
        | some level => decide (level < e.level)
        | none => false) then
      walk_page_vma k rest skip st
    else if e.level < 2 then
      let c := snapshot_walk_check_range st.data st.walk_data e.addr e.next
      walk_page_vma k rest none { st with walk_data := c.2 }
    else if e.level < 4 then
      let c := snapshot_walk_check_range st.data st.walk_data e.addr e.next
      walk_page_vma k rest
        (if c.1 = page_walk_action.ACTION_CONTINUE then some e.level else none)
        { st with walk_data := c.2 }
    else
      let r := snapshot_pte_entry k st e.addr e.next e.pte
      if r.1 ≠ 0 then r else walk_page_vma k rest none r.2

/-- The fields of the kernel `struct mm_struct` the capture reads: the mapping
list, `start_stack`, and for each mapping the table entries the page walker
finds under it. -/
structure mm_struct where
  mmap : List vm_area_struct
  start_stack : Nat
  page_table : vm_area_struct → List walk_entry

/-- The function `is_stack`. -/
def is_stack (mm : mm_struct) (vma : vm_area_struct) : Bool :=
  decide (vma.vm_start ≤ mm.start_stack ∧ vma.vm_end ≥ mm.start_stack)

/-- The test of `take_memory_snapshot` that decides whether the loop body ends
with `continue` before the mapping is linked into `snapshotted_vmas`. -/
def capture_skips (mm : mm_struct) (data : task_data) (pvma : vm_area_struct) : Bool :=
  if (intersect_allowlist data pvma.vm_start pvma.vm_end).isNone then
    if pvma.vm_flags &&& VM_WRITE = 0 then true
    else if pvma.vm_flags &&& VM_SHARED ≠ 0 then true
    else if data.config.block then true
    else if data.config.nostack && is_stack mm pvma then true
    else false
  else false

/-- The loop of `take_memory_snapshot` over the mappings from `pvma` on. -/
def take_memory_snapshot_loop (k : kernel) (mm : mm_struct) :
    List vm_area_struct → capture_state → Int × capture_state
  | [], st => (0, st)
  | pvma :: rest, st =>
    match add_snapshot_vma k st.data pvma with
    | (_, none) => (-ENOMEM, { st with trace := st.trace ++ [event.fatal_alloc] })
    | (data, some ss_vma) =>
      let st := { st with data := data }
      if capture_skips mm st.data pvma then take_memory_snapshot_loop k mm rest st
      else
        let st := { st with data := { st.data with ss := { st.data.ss with
          snapshotted_vmas := list_add_tail ss_vma st.data.ss.snapshotted_vmas } } }
        let r := walk_page_vma k (mm.page_table pvma) none st
        if r.1 ≠ 0 then r else take_memory_snapshot_loop k mm rest r.2

/-- The function `take_memory_snapshot`, after the invalidation of the per-CPU
lookup cache.  Returns the result code, the state and the trace. -/
def take_memory_snapshot (k : kernel) (mm : mm_struct) (data : task_data) :
    Int × task_data × List event :=
  let r := take_memory_snapshot_loop k mm mm.mmap
    { data := data, walk_data := { next_allowed_address := 0, next_blocked_address := 0 },
      trace := [] }
  (r.1, r.2.data, r.2.trace)

/-! ## States and kernels of the worked examples -/

/-- The mapping list `vm_munmap start len` of the Linux kernel leaves
(`__do_munmap` and `__split_vma` in `mm/mmap.c`, which is not part of this
repository).  A mapping inside the hole is unlinked.  A mapping the hole cuts at
its upper end keeps its struct for the part below the hole, a mapping the hole
cuts at its lower end keeps its struct for the part above.  A mapping with the
hole strictly inside keeps its struct for the part below, and the part above
gets a new struct linked right behind it. -/
def munmap_mappings (start len : Nat) : List vm_area_struct → List vm_area_struct
  | [] => []
  | v :: rest =>
    if start + len ≤ v.vm_start ∨ v.vm_end ≤ start then
      v :: munmap_mappings start len rest
    else if start ≤ v.vm_start ∧ v.vm_end ≤ start + len then
      munmap_mappings start len rest
    else if v.vm_start < start ∧ start + len < v.vm_end then
      { v with vm_end := start } :: { v with vm_start := start + len } ::
        munmap_mappings start len rest
    else if v.vm_start < start then
      { v with vm_end := start } :: munmap_mappings start len rest
    else
      { v with vm_start := start + len } :: munmap_mappings start len rest

/-- What a pointer to a mapping reads after `vm_munmap start len` of the Linux
kernel: the struct it points to and its successors as `munmap_mappings` leaves
them.  A struct the call unlinks is freed; the pointer to it is taken to read
it as it was, followed by what the call leaves of its successors. -/
def munmap_vmas (start len : Nat) : List vm_area_struct → List vm_area_struct
  | [] => []
  | v :: rest =>
    if start ≤ v.vm_start ∧ v.vm_end ≤ start + len then
      v :: munmap_mappings start len rest
    else munmap_mappings start len (v :: rest)

/-- A kernel in which every service succeeds: allocations succeed (fresh
`snapshot_vma` memory reads as zero), every address has a page-table entry,
`copy_to_user` copies everything, `vm_munmap` returns 0 and `vm_mmap` returns
the requested address.  `vm_munmap` changes the mapping list as the Linux
kernel does; `vm_mmap` links the new mapping in front of the mappings that are
still to be walked and leaves those as they are (no merging of neighbours). -/
def kernel_ok : kernel :=
  { kmalloc_snapshot_vma := fun _ => some 0
    kmalloc_snapshot_page := fun _ => true
    kmalloc_page_data := fun _ => true
    walk_page_table := fun _ => true
    copy_to_user := fun _ => 0
    vm_munmap := fun _ _ _ => 0
    vm_mmap := fun _ addr _ _ _ => addr
    vm_munmap_vmas := fun _ start len vmas => munmap_vmas start len vmas
    vm_mmap_vmas := fun _ _ _ _ _ vmas => vmas }

/-- A task without ranges, mappings, page records or dirty pages. -/
def empty_task (config : snapshot_config) : task_data :=
  { config := config, allowlist := [], blocklist := [],
    ss := { all_vmas := [], snapshotted_vmas := [], ss_pages := [], dirty_pages := [] } }

/-- The page filled with one byte value. -/
def page_filled (b : Nat) : page_bytes := fun _ => b

/-- User memory in which every page is filled with the byte 1. -/
def memory_ones : user_memory := fun _ => page_filled 1

/-- A present, writable page-table entry. -/
def pte_writable : pte_t := { pte_none := false, pte_write := true }

/-- An empty page-table entry. -/
def pte_empty : pte_t := { pte_none := true, pte_write := false }

/-- The state after the page at `0x1000`, mapped writable, was captured into an
empty task with the given configuration. -/
def task_captured (config : snapshot_config) : task_data :=
  (make_snapshot_page kernel_ok (empty_task config) 4096 pte_writable).2.1

/-- The state after the captured page at `0x1000` took a write fault and its
content, all ones, was saved. -/
def task_written (config : snapshot_config) : task_data :=
  (record_dirty_page kernel_ok (task_captured config) 4096 (page_filled 1)).1

/-- A kernel in which the page at `0x1000` is gone when the snapshot is
restored: `copy_to_user` copies nothing and `walk_page_table` finds no entry. -/
def kernel_page_gone : kernel :=
  { kernel_ok with walk_page_table := fun _ => false, copy_to_user := fun _ => 4096 }

/-- A kernel in which the content buffer of a page cannot be allocated. -/
def kernel_no_buffer : kernel :=
  { kernel_ok with kmalloc_page_data := fun _ => false }

/-- The state after the captured page at `0x1000` took a write fault while the
content buffer could not be allocated. -/
def task_written_unsaved (config : snapshot_config) : task_data :=
  (record_dirty_page kernel_no_buffer (task_captured config) 4096 (page_filled 1)).1

/-- The flags of the record for a page base: `(dirty, in_dirty_list,
has_been_copied)`. -/
def page_flags (data : task_data) (page_base : Nat) : Option (Bool × Bool × Bool) :=
  (get_snapshot_page data page_base).map
    (fun sp => (sp.dirty, sp.in_dirty_list, sp.has_been_copied))

/-- The dirty-list membership invariant: a page record is linked in the dirty
list if and only if its `in_dirty_list` flag is set. -/
def dirty_list_invariant (data : task_data) : Prop :=
  ∀ a sp, get_snapshot_page data a = some sp →
    (a ∈ data.ss.dirty_pages ↔ sp.in_dirty_list = true)

/-- A write to a page of the tracked process: the write-fault handler runs with
the content the page has at that moment, then the page is overwritten. -/
def write_fault (k : kernel) (st : task_data × user_memory) (w : Nat × page_bytes) :
    task_data × user_memory :=
  ((record_dirty_page k st.1 w.1 (st.2 w.1)).1, Function.update st.2 w.1 w.2)

/-- A sequence of writes, each pairing a page base with the bytes written. -/
def write_faults (k : kernel) (st : task_data × user_memory)
    (writes : List (Nat × page_bytes)) : task_data × user_memory :=
  writes.foldl (write_fault k) st

/-- A page record as a capture leaves it: not dirty, not linked, content not
copied. -/
def freshly_captured (data : task_data) (a : Nat) : Prop :=
  ∃ sp, get_snapshot_page data a = some sp ∧ sp.dirty = false ∧
    sp.has_been_copied = false ∧ sp.in_dirty_list = false

/-- The parts of a `task_data` a capture step leaves alone unless it says
otherwise: the dirty list, the configuration and the two range lists. -/
def same_policy (d d2 : task_data) : Prop :=
  d2.ss.dirty_pages = d.ss.dirty_pages ∧ d2.config = d.config ∧
    d2.allowlist = d.allowlist ∧ d2.blocklist = d.blocklist

/-- Every page for which the capture logged `making snapshot` has a record as a
capture leaves it. -/
def captured_fresh (st : capture_state) : Prop :=
  ∀ a, event.dbg_making_snapshot a ∈ st.trace → freshly_captured st.data a

/-- The record `add_snapshot_vma` fills in for a mapping, `none` when the
allocation fails. -/
def vma_record (k : kernel) (vma : vm_area_struct) : Option snapshot_vma :=
  (add_snapshot_vma k (empty_task { mmap := false, block := false, nostack := false }) vma).2

/-- The records of a list of mappings, in order, leaving out failed
allocations. -/
def vma_records (k : kernel) (vmas : List vm_area_struct) : List snapshot_vma :=
  vmas.filterMap (vma_record k)

/-- The selection rule for a mapping as the specification words it: the mapping
intersects some allow-list entry, or it is writable, not shared, `BLOCK` is
unset, and it is not the case that `NO_STACK` is set and the mapping is the
stack mapping. -/
def capture_selects (mm : mm_struct) (data : task_data) (v : vm_area_struct) : Prop :=
  (∃ n ∈ data.allowlist, v.vm_end > n.start ∧ v.vm_start < n.end_) ∨
  (v.vm_flags &&& VM_WRITE ≠ 0 ∧ v.vm_flags &&& VM_SHARED = 0 ∧ data.config.block = false ∧
    ¬ (data.config.nostack = true ∧ is_stack mm v = true))

instance capture_selects_decidable (mm : mm_struct) (data : task_data) (v : vm_area_struct) :
    Decidable (capture_selects mm data v) := by
  unfold capture_selects
  exact inferInstance

/-- An address space with one writable anonymous private mapping
`[0x1000, 0x2000)` whose only page has the given page-table entry. -/
def mm_one_page (pte : pte_t) : mm_struct :=
  { mmap := [{ vm_start := 4096, vm_end := 8192, vm_flags := 3, anonymous := true }]
    start_stack := 1048576
    page_table := fun _ => [{ level := 4, addr := 4096, next := 8192, pte := pte }] }

/-- Kernel memory of a fresh `task_data`: the block-list head at address 1 and
the allow-list head at address 2, both initialised with `INIT_LIST_HEAD`. -/
def range_memory_init : range_memory :=
  { links := INIT_LIST_HEAD (INIT_LIST_HEAD (fun _ => { next := 0, prev := 0 }) 1) 2
    ranges := fun _ => { start := 0, end_ := 0 }
    blocklist := 1
    allowlist := 2 }

/-- The memory after `exclude_vmrange(0x1000, 0x2000)` and then
`exclude_vmrange(0x3000, 0x4000)`, the nodes allocated at addresses 10 and 11. -/
def range_memory_two_excluded : range_memory :=
  exclude_vmrange (exclude_vmrange range_memory_init (some 10) 4096 8192) (some 11) 12288 16384

/-- The memory after `include_vmrange(0x1000, 0x2000)` and then
`include_vmrange(0x3000, 0x4000)`, the nodes allocated at addresses 10 and 11. -/
def range_memory_two_included : range_memory :=
  include_vmrange (include_vmrange range_memory_init (some 10) 4096 8192) (some 11) 12288 16384

/-- The number of loop iterations `restore_vmas` still needs at most: two per
remaining mapping or record, one less for each range the cursor is inside. -/
def sweep_measure (s : sweep_state) : Nat :=
  2 * s.vma_iter.length + 2 * s.ss_vma_iter.length
    - (if s.in_vmas then 1 else 0) - (if s.in_ss_vmas then 1 else 0)

/-- A sweep state whose flags agree with its iterators and whose remaining
bounds are below `ULONG_MAX`. -/
def sweep_bounded (s : sweep_state) : Prop :=
  (s.in_vmas = true → s.vma_iter ≠ []) ∧ (s.in_ss_vmas = true → s.ss_vma_iter ≠ []) ∧
  (∀ v ∈ s.vma_iter, v.vm_start < ULONG_MAX ∧ v.vm_end < ULONG_MAX) ∧
  (∀ r ∈ s.ss_vma_iter, r.vm_start < ULONG_MAX ∧ r.vm_end < ULONG_MAX)

/-- The state the loop body of `restore_vmas` hands to the next iteration,
apart from the trace and the result code, when the kernel call of the iteration
leaves the mappings as they are. -/
def sweep_next (all_vmas : List snapshot_vma) (s : sweep_state) : sweep_state :=
  sweep_advance all_vmas s s.vma_iter.tail (sweep_next_vma_pos s) (sweep_next_ss_vma_pos s)
    (min (sweep_next_vma_pos s) (sweep_next_ss_vma_pos s))

/-- The address `x` lies in one of the ranges `[lo a, hi a)` of the list. -/
def covers {α : Type} (lo hi : α → Nat) (l : List α) (x : Nat) : Prop :=
  ∃ a ∈ l, lo a ≤ x ∧ x < hi a

/-- A sequence of ranges that is address-ascending and pairwise non-overlapping,
each range non-empty with page-aligned bounds below `ULONG_MAX`. -/
def ascending_ranges {α : Type} (lo hi : α → Nat) (l : List α) : Prop :=
  l.Pairwise (fun a b => hi a ≤ lo b) ∧
  ∀ a ∈ l, lo a < hi a ∧ hi a < ULONG_MAX ∧ lo a % PAGE_SIZE = 0 ∧ hi a % PAGE_SIZE = 0

/-- The address lies in one of the current mappings. -/
def in_mappings (mmap : List vm_area_struct) (x : Nat) : Prop :=
  covers vm_area_struct.vm_start vm_area_struct.vm_end mmap x

/-- The address lies in one of the recorded mappings. -/
def in_recorded (all_vmas : List snapshot_vma) (x : Nat) : Prop :=
  covers snapshot_vma.vm_start snapshot_vma.vm_end all_vmas x

/-- The current mappings form an ascending sequence of ranges. -/
def ascending_mappings (mmap : List vm_area_struct) : Prop :=
  ascending_ranges vm_area_struct.vm_start vm_area_struct.vm_end mmap

/-- The recorded mappings form an ascending sequence of ranges. -/
def ascending_recorded (all_vmas : List snapshot_vma) : Prop :=
  ascending_ranges snapshot_vma.vm_start snapshot_vma.vm_end all_vmas

/-- The interval `[a, b)` is a maximal interval inside the range `[lo, hi)` that
contains no address of the set `other`: it is non-empty, lies in the range,
avoids `other`, and cannot be extended at either end. -/
def maximal_gap (lo hi : Nat) (other : Nat → Prop) (a b : Nat) : Prop :=
  lo ≤ a ∧ a < b ∧ b ≤ hi ∧ (∀ x, a ≤ x → x < b → ¬ other x) ∧
    (a = lo ∨ other (a - 1)) ∧ (b = hi ∨ other b)

/-- One side of the sweep at cursor `c`: the ranges passed end at or before the
cursor, and the flag says whether the cursor is inside the first remaining
range. -/
def side_inv {α : Type} (lo hi : α → Nat) (full rem : List α) (inside : Bool) (c : Nat) :
    Prop :=
  ∃ passed, full = passed ++ rem ∧ (∀ a ∈ passed, hi a ≤ c) ∧
    (inside = true → ∃ a rest, rem = a :: rest ∧ lo a ≤ c ∧ c < hi a) ∧
    (inside = false → ∀ a ∈ rem, c ≤ lo a)

/-- The loop invariant of `restore_vmas`. -/
def sweep_inv (mmap : List vm_area_struct) (all_vmas : List snapshot_vma) (s : sweep_state) :
    Prop :=
  side_inv vm_area_struct.vm_start vm_area_struct.vm_end mmap s.vma_iter s.in_vmas s.cursor ∧
  side_inv snapshot_vma.vm_start snapshot_vma.vm_end all_vmas s.ss_vma_iter s.in_ss_vmas
    s.cursor ∧
  (s.in_vmas = true → s.in_ss_vmas = false →
    (∃ v rest, s.vma_iter = v :: rest ∧ s.cursor = v.vm_start) ∨
      in_recorded all_vmas (s.cursor - 1)) ∧
  (s.in_vmas = false → s.in_ss_vmas = true →
    (∃ r rest, s.ss_vma_iter = r :: rest ∧ s.cursor = r.vm_start) ∨
      in_mappings mmap (s.cursor - 1)) ∧
  s.res = 0

/-- What the sweep may emit: an unmap of a maximal interval that lies in a
current mapping and in no recorded one, an anonymous private `vm_mmap`, with the
recorded protection, of a maximal interval that lies in a recorded
anonymous-private mapping and in no current one, or a `missing memory` report
for such an interval of a recorded mapping that is not anonymous-private. -/
def sweep_event_ok (mmap : List vm_area_struct) (all_vmas : List snapshot_vma) :
    event → Prop
  | event.munmap a len =>
    ∃ v ∈ mmap, maximal_gap v.vm_start v.vm_end (in_recorded all_vmas) a (a + len)
  | event.mmap a len prot flags =>
    flags = MAP_PRIVATE ||| MAP_FIXED_NOREPLACE ∧
    ∃ r ∈ all_vmas, r.is_anonymous_private = true ∧ prot = r.prot ∧
      maximal_gap r.vm_start r.vm_end (in_mappings mmap) a (a + len)
  | event.fatal_missing a b =>
    ∃ r ∈ all_vmas, r.is_anonymous_private = false ∧
      maximal_gap r.vm_start r.vm_end (in_mappings mmap) a b
  | _ => False

/-- The events cover the address `x` as the reconciliation requires. -/
def sweep_complete (mmap : List vm_area_struct) (all_vmas : List snapshot_vma)
    (events : List event) (x : Nat) : Prop :=
  (in_mappings mmap x → ¬ in_recorded all_vmas x →
    ∃ a len, event.munmap a len ∈ events ∧ a ≤ x ∧ x < a + len) ∧
  (∀ r ∈ all_vmas, r.vm_start ≤ x → x < r.vm_end → ¬ in_mappings mmap x →
    (r.is_anonymous_private = true →
      ∃ a len, event.mmap a len r.prot (MAP_PRIVATE ||| MAP_FIXED_NOREPLACE) ∈ events ∧
        a ≤ x ∧ x < a + len) ∧
    (r.is_anonymous_private = false →
      ∃ a b, event.fatal_missing a b ∈ events ∧ a ≤ x ∧ x < b))

/-- The events one iteration of the sweep adds to the trace when every kernel
call succeeds. -/
def sweep_events (s : sweep_state) : List event :=
  if min (sweep_next_vma_pos s) (sweep_next_ss_vma_pos s) ≠ s.cursor ∧ s.in_vmas = true ∧
      s.in_ss_vmas = false then
    [event.munmap s.cursor (min (sweep_next_vma_pos s) (sweep_next_ss_vma_pos s) - s.cursor)]
  else if min (sweep_next_vma_pos s) (sweep_next_ss_vma_pos s) ≠ s.cursor ∧ s.in_vmas = false ∧
      s.in_ss_vmas = true then
    match s.ss_vma_iter with
    | r :: _ =>
      if r.is_anonymous_private then
        [event.mmap s.cursor (min (sweep_next_vma_pos s) (sweep_next_ss_vma_pos s) - s.cursor)
          r.prot (MAP_PRIVATE ||| MAP_FIXED_NOREPLACE)]
      else
        [event.fatal_missing s.cursor (min (sweep_next_vma_pos s) (sweep_next_ss_vma_pos s))]
    | [] => [event.fatal_missing s.cursor (min (sweep_next_vma_pos s) (sweep_next_ss_vma_pos s))]
  else []

/-- The current mappings of the reconciliation example: the single mapping
`[0, 0x3000)`. -/
def mmap_one_block : List vm_area_struct :=
  [{ vm_start := 0, vm_end := 12288, vm_flags := 3, anonymous := true }]

/-- A task with `MMAP` set whose `all_vmas` records the anonymous private
mappings `[0, 0x1000)` and `[0x2000, 0x3000)`. -/
def task_two_recorded : task_data :=
  { empty_task { mmap := true, block := false, nostack := false } with
    ss := { all_vmas := [{ vm_start := 0, vm_end := 4096, prot := 7, is_anonymous_private := true },
                         { vm_start := 8192, vm_end := 12288, prot := 7,
                           is_anonymous_private := true }]
            snapshotted_vmas := [], ss_pages := [], dirty_pages := [] } }

/-- The write-fault handler has saved the content `c` of the page at `a`: the
record is dirty and holds a copy of `c`. -/
def content_saved (data : task_data) (a : Nat) (c : page_bytes) : Prop :=
  ∃ sp, get_snapshot_page data a = some sp ∧ sp.dirty = true ∧
    sp.has_been_copied = true ∧ sp.page_data = some c

/-- The drain has put the content `c` back into the page at `a` and cleared the
dirty flag of its record. -/
def content_restored (st : recover_state) (a : Nat) (c : page_bytes) : Prop :=
  (∀ i, i < PAGE_SIZE → st.mem a i = c i) ∧
    ∃ sp, get_snapshot_page st.data a = some sp ∧ sp.dirty = false

/-- The page at `a` is tracked with its content: either its record is still as
the capture left it, of a kind other than `none_pte`, and the page holds the
content `c`, or the write-fault handler has saved `c` and linked the record. -/
def content_tracked (st : task_data × user_memory) (a : Nat) (c : page_bytes) : Prop :=
  (∃ sp, get_snapshot_page st.1 a = some sp ∧ sp.dirty = false ∧ sp.has_been_copied = false ∧
      sp.in_dirty_list = false ∧ sp.page_prot ≠ page_kind.none_pte ∧ st.2 a = c) ∨
  (content_saved st.1 a c ∧ a ∈ st.1.ss.dirty_pages)

/-- The state after an address space with one page at `0x1000` was captured
into an empty task and the page was written once, with bytes 2 over the bytes 1
it held: the task data and the memory at restore time. -/
def one_page_written (pte : pte_t) : task_data × user_memory :=
  write_faults kernel_ok
    ((take_memory_snapshot kernel_ok (mm_one_page pte)
        (empty_task { mmap := false, block := false, nostack := false })).2.1, memory_ones)
    [(4096, page_filled 2)]

/-- A kernel whose `vm_mmap` fails with `-ENOMEM`. -/
def kernel_mmap_fails : kernel :=
  { kernel_ok with vm_mmap := fun _ _ _ _ _ => ULONG_MAX - 11 }

/-- The state after an address space with one writable page at `0x1000` was
captured into an empty task with `MMAP` set and the page was written once. -/
def one_page_written_mmap : task_data × user_memory :=
  write_faults kernel_ok
    ((take_memory_snapshot kernel_ok (mm_one_page pte_writable)
        (empty_task { mmap := true, block := false, nostack := false })).2.1, memory_ones)
    [(4096, page_filled 2)]

/-- An address space with one writable private file mapping `[0x1000, 0x2000)`
whose only page is present and writable. -/
def mm_one_file_page : mm_struct :=
  { mmap := [{ vm_start := 4096, vm_end := 8192, vm_flags := 3, anonymous := false }]
    start_stack := 1048576
    page_table := fun _ => [{ level := 4, addr := 4096, next := 8192, pte := pte_writable }] }

/-- The state after the file mapping was captured into an empty task with
`MMAP` set and its page was written once. -/
def file_page_written : task_data × user_memory :=
  write_faults kernel_ok
    ((take_memory_snapshot kernel_ok mm_one_file_page
        (empty_task { mmap := true, block := false, nostack := false })).2.1, memory_ones)
    [(4096, page_filled 2)]

/-! ## States of the worked examples: protection bits and page records -/

/-- A read-only anonymous private mapping `[0x1000, 0x2000)`: of the permission
flags only `VM_READ` is set. -/
def vma_read_only : vm_area_struct :=
  { vm_start := 4096, vm_end := 8192, vm_flags := VM_READ, anonymous := true }

/-- An address space whose only mapping is the read-only one, with no page
table under it. -/
def mm_read_only : mm_struct :=
  { mmap := [vma_read_only], start_stack := 1048576, page_table := fun _ => [] }

/-- An address space with one writable anonymous private mapping
`[0x1000, 0x3000)`; the page walker reports the entries of the four upper table
levels that span it and the entries of its two pages, both present and
writable. -/
def mm_two_pages : mm_struct :=
  { mmap := [{ vm_start := 4096, vm_end := 12288, vm_flags := 3, anonymous := true }]
    start_stack := 1048576
    page_table := fun _ =>
      [{ level := 0, addr := 4096, next := 12288, pte := pte_empty },
       { level := 1, addr := 4096, next := 12288, pte := pte_empty },
       { level := 2, addr := 4096, next := 12288, pte := pte_empty },
       { level := 3, addr := 4096, next := 12288, pte := pte_empty },
       { level := 4, addr := 4096, next := 8192, pte := pte_writable },
       { level := 4, addr := 8192, next := 12288, pte := pte_writable }] }

/-- An address space with one writable anonymous private mapping
`[0x1000, 0x2000)` that was never touched: no page table exists under it, so
the page walker reports no entry. -/
def mm_untouched : mm_struct :=
  { mmap := [{ vm_start := 4096, vm_end := 8192, vm_flags := 3, anonymous := true }]
    start_stack := 1048576
    page_table := fun _ => [] }

/-- A task whose block list holds the single range `[b, e)`, with an empty
allow list and no configuration flag set. -/
def task_blocking (b e : Nat) : task_data :=
  { empty_task { mmap := false, block := false, nostack := false } with
    blocklist := [{ start := b, end_ := e }] }

/-! ## Range classifier over a walk -/

/-- The results of `snapshot_walk_check_range` over a sequence of intervals
`(addr, next)`, the `snapshot_walk_data` of each call being the one the call
before left. -/
def classify_intervals (data : task_data) :
    snapshot_walk_data → List (Nat × Nat) → List page_walk_action
  | _, [] => []
  | walk_data, (addr, next) :: rest =>
    (snapshot_walk_check_range data walk_data addr next).1 ::
      classify_intervals data (snapshot_walk_check_range data walk_data addr next).2 rest

/-- The intervals of an ascending pre-order walk: every interval is non-empty,
and an interval met later lies inside an earlier one (it is one of its
sub-intervals) or starts at or after its end. -/
def ascending_preorder (l : List (Nat × Nat)) : Prop :=
  (∀ p ∈ l, p.1 < p.2) ∧
  l.Pairwise (fun p q => (p.1 ≤ q.1 ∧ q.2 ≤ p.2) ∨ p.2 ≤ q.1)

/-- A capture state in which the range classifier lets every interval through:
both range lists are empty, `BLOCK` is unset and no block boundary is cached. -/
def open_policy (st : capture_state) : Prop :=
  st.data.blocklist = [] ∧ st.data.allowlist = [] ∧ st.data.config.block = false ∧
    st.walk_data.next_blocked_address = 0

/-- A task whose block list holds, in walk order, the overlapping ranges
`[0x1800, 0x2800)` and `[0x1000, 0x2000)`. -/
def task_overlapping_blocks : task_data :=
  { empty_task { mmap := false, block := false, nostack := false } with
    blocklist := [{ start := 6144, end_ := 10240 }, { start := 4096, end_ := 8192 }] }

/-- A task whose allow list holds the single range `[s, e)`, with an empty
block list and `BLOCK` as given. -/
def task_allowing (s e : Nat) (block : Bool) : task_data :=
  { empty_task { mmap := false, block := block, nostack := false } with
    allowlist := [{ start := s, end_ := e }] }

/-- The interval `[addr, next)` and the range have an address in common. -/
def shares_address (addr next : Nat) (n : vmrange) : Prop :=
  ∃ x, addr ≤ x ∧ x < next ∧ n.start ≤ x ∧ x < n.end_

/-! ## Lookup cache and snapshot clean-up -/

/-- One CPU's instance of the per-CPU variables `last_task` and
`last_task_data`: a task pointer and a `task_data` pointer, `none` for `NULL`. -/
structure task_data_cache where
  last_task : Option Nat
  last_task_data : Option Nat
deriving DecidableEq, Repr

/-- The function `get_task_data_with_cache`, run on the CPU `cpu`.  `per_cpu`
holds the instances of the two per-CPU variables, one per possible CPU, and
`get_task_data` is the lookup of `task_data.c`, which is not part of the
sources and is taken as a parameter.  Returns the pointer and the per-CPU
variables.  The running CPU is one of the possible CPUs; for an index outside
the list the slot reads as empty and the store has no effect. -/
def get_task_data_with_cache (get_task_data : Option Nat → Option Nat)
    (per_cpu : List task_data_cache) (cpu : Nat) (task : Option Nat) :
    Option Nat × List task_data_cache :=
  let cached := per_cpu.getD cpu { last_task := none, last_task_data := none }
  if cached.last_task = task then (cached.last_task_data, per_cpu)
  else
    let data := get_task_data task
    (data, per_cpu.set cpu { last_task := task, last_task_data := data })

/-- The function `invalidate_task_data_cache`: the loop over every possible
CPU. -/
def invalidate_task_data_cache (per_cpu : List task_data_cache) (task : Option Nat) :
    List task_data_cache :=
  per_cpu.map (fun cached =>
    if cached.last_task = task then { last_task := none, last_task_data := none } else cached)

/-- The function `clean_snapshot_vmas`: every record of `all_vmas` is taken off
both lists. -/
def clean_snapshot_vmas (data : task_data) : task_data :=
  data.ss.all_vmas.foldl
    (fun data ss_vma => { data with ss := { data.ss with
      all_vmas := list_del ss_vma data.ss.all_vmas,
      snapshotted_vmas := list_del ss_vma data.ss.snapshotted_vmas } })
    data

/-- The function `clean_memory_snapshot`, with the per-CPU variables as part of
the state; `tsk` is `data->tsk`.  The page records are freed and taken out of
the hash table; the dirty list is not touched. -/
def clean_memory_snapshot (per_cpu : List task_data_cache) (tsk : Option Nat)
    (data : task_data) : List task_data_cache × task_data :=
  let per_cpu := invalidate_task_data_cache per_cpu tsk
  let data := clean_snapshot_vmas data
  (per_cpu, { data with ss := { data.ss with ss_pages := [] } })

/-- The function `take_memory_snapshot` together with its first statement,
`invalidate_task_data_cache(data->tsk)`: the per-CPU variables after the call
and the result of the capture. -/
def take_memory_snapshot_per_cpu (k : kernel) (mm : mm_struct)
    (per_cpu : List task_data_cache) (tsk : Option Nat) (data : task_data) :
    List task_data_cache × Int × task_data × List event :=
  (invalidate_task_data_cache per_cpu tsk, take_memory_snapshot k mm data)

/-- The lookup cache `after` is the cache `before` with the task invalidated: no
slot names the task, every slot that named it is cleared in both variables,
every other slot is unchanged, and a lookup of the task on any CPU returns what
`get_task_data` returns. -/
def cache_invalidated (get_task_data : Option Nat → Option Nat) (task : Nat)
    (before after : List task_data_cache) : Prop :=
  (∀ c ∈ after, c.last_task ≠ some task) ∧
  List.Forall₂ (fun old new =>
      (old.last_task = some task → new = { last_task := none, last_task_data := none }) ∧
      (old.last_task ≠ some task → new = old)) before after ∧
  ∀ cpu, (get_task_data_with_cache get_task_data after cpu (some task)).1 =
    get_task_data (some task)

/-! ## States of the worked examples: restore and capture order -/

/-- A present page-table entry that is not writable. -/
def pte_read_only : pte_t := { pte_none := false, pte_write := false }

/-- The record of the page at `0x1000` after it was captured through a
read-only entry, written and saved with its content, all bytes 1. -/
def cow_page_written : snapshot_page :=
  { page_base := 4096, page_prot := page_kind.cow, page_data := some (page_filled 1),
    has_been_copied := true, has_had_pte := true, dirty := true, in_dirty_list := true }

/-- An address space with the two writable anonymous private mappings
`[0x1000, 0x2000)` and `[0x3000, 0x4000)`, neither with a page table. -/
def mm_two_mappings : mm_struct :=
  { mmap := [{ vm_start := 4096, vm_end := 8192, vm_flags := 3, anonymous := true },
             { vm_start := 12288, vm_end := 16384, vm_flags := 3, anonymous := true }]
    start_stack := 1048576
    page_table := fun _ => [] }

/-! ## Page-store uniqueness -/

/-- The page store holds at most one record per page address. -/
def page_store_unique (data : task_data) : Prop :=
  (data.ss.ss_pages.map (fun sp => sp.page_base)).Nodup

/-! ## Range classifier without the cache -/

/-- The rules (3) to (6) of the range classifier as the specification words
them, without the cached boundaries: an interval covered by one block-list
entry is skipped; else an interval that overlaps an allow-list entry, even in
part, is descended into; else the interval is skipped when `BLOCK` is set and
descended into when it is not. -/
def classifier_rules_uncached (data : task_data) (addr next : Nat) : page_walk_action :=
  if data.blocklist.any (fun r => decide (r.start ≤ addr ∧ next ≤ r.end_)) then
    page_walk_action.ACTION_CONTINUE
  else if data.allowlist.any (fun n => decide (next > n.start ∧ addr < n.end_)) then
    page_walk_action.ACTION_SUBTREE
  else if data.config.block then page_walk_action.ACTION_CONTINUE
  else page_walk_action.ACTION_SUBTREE

/-- A task that allows the range `[0x1000, 0x4000)` and blocks the range
`[0x2000, 0x3000)` inside it, `BLOCK` as given. -/
def task_block_inside_allow (block : Bool) : task_data :=
  { empty_task { mmap := false, block := block, nostack := false } with
    allowlist := [{ start := 4096, end_ := 16384 }]
    blocklist := [{ start := 8192, end_ := 12288 }] }

/-- The walk over `[0x1000, 0x4000)`: the interval itself, then its three
pages in ascending order. -/
def walk_three_pages : List (Nat × Nat) :=
  [(4096, 16384), (4096, 8192), (8192, 12288), (12288, 16384)]

/-- An address space with one writable anonymous private mapping
`[0x1000, 0x4000)`; the page walker reports the `pmd` entry that spans it and
the entries of its three pages, all present and writable. -/
def mm_three_pages : mm_struct :=
  { mmap := [{ vm_start := 4096, vm_end := 16384, vm_flags := 3, anonymous := true }]
    start_stack := 1048576
    page_table := fun _ =>
      [{ level := 3, addr := 4096, next := 16384, pte := pte_empty },
       { level := 4, addr := 4096, next := 8192, pte := pte_writable },
       { level := 4, addr := 8192, next := 12288, pte := pte_writable },
       { level := 4, addr := 12288, next := 16384, pte := pte_writable }] }

/-! ## Events of the drain -/

/-- The events that restore the page at `a`: a `copy_to_user` to it or a
`zap_page_range` starting at it. -/
def restores_page (a : Nat) : event → Bool
  | event.zap_page_range b _ => decide (b = a)
  | event.copy_to_user b => decide (b = a)
  | _ => false

/-- The events one iteration of the drain logs for the page at `base`. -/
def drain_event (base : Nat) (e : event) : Prop :=
  e = event.copy_to_user base ∨ e = event.set_wrprotect base ∨
  e = event.flush_tlb base (base + PAGE_SIZE) ∨ e = event.zap_page_range base PAGE_SIZE ∨
  e = event.warn_not_in_dirty_list base

/-! ## Trajectory of the sweep -/

/-- The states in which the loop of `restore_vmas` tests its condition, in
order: one per iteration started and, last, the state in which the loop ends,
be it by its condition, by a `return` from the body or because the fuel ran
out.  It follows `restore_vmas_loop` step by step. -/
def restore_vmas_states (k : kernel) (all_vmas : List snapshot_vma) :
    Nat → sweep_state → List sweep_state
  | fuel, s =>
    if s.vma_iter.isEmpty && s.ss_vma_iter.isEmpty then [s]
    else
      match fuel with
      | 0 => [s]
      | fuel + 1 =>
        match restore_vmas_body k all_vmas s with
        | Sum.inr _ => [s]
        | Sum.inl s2 => s :: restore_vmas_states k all_vmas fuel s2

/-- The states of the loop of `restore_vmas`, from the state the function
starts its loop in. -/
def restore_vmas_trajectory (k : kernel) (fuel : Nat) (mmap : List vm_area_struct)
    (data : task_data) : List sweep_state :=
  restore_vmas_states k data.ss.all_vmas fuel
    { vma_iter := mmap, ss_vma_iter := data.ss.all_vmas, cursor := 0,
      in_ss_vmas := false, in_vmas := false, res := 0, trace := [] }

/-- The loop ran to its end: the last state of the trajectory is one in which
both iterators are exhausted. -/
def sweep_completed (states : List sweep_state) : Prop :=
  ∃ s, states.getLast? = some s ∧ s.vma_iter = [] ∧ s.ss_vma_iter = []

/-- The boundaries one side of the sweep has still to pass: the end of every
remaining range and the start of every remaining range the cursor is not
inside. -/
def pending_boundaries {α : Type} (lo hi : α → Nat) (inside : Bool) (rem : List α) : List Nat :=
  (if inside then rem.tail else rem).map lo ++ rem.map hi

/-! ## Mappings the kernel leaves in place -/

/-- The kernel `k` with `vm_munmap` and `vm_mmap` leaving every mapping as it
is. -/
def keep_mappings (k : kernel) : kernel :=
  { k with vm_munmap_vmas := fun _ _ _ vmas => vmas
           vm_mmap_vmas := fun _ _ _ _ _ vmas => vmas }

/-- The calls `vm_munmap` and `vm_mmap` of the kernel leave every mapping as it
is. -/
def keeps_mappings (k : kernel) : Prop :=
  (∀ t a l vmas, k.vm_munmap_vmas t a l vmas = vmas) ∧
  (∀ t a l p f vmas, k.vm_mmap_vmas t a l p f vmas = vmas)

/-- Two values of `vma_iter` agree in what the loop of `restore_vmas` reads
through the pointer from now on: before a mapping (`inside` unset) that is the
mapping with its bounds and its successors; inside a mapping it is the end of
the mapping and its successors, the start is not read again. -/
def same_walk (inside : Bool) (vmas vmas0 : List vm_area_struct) : Prop :=
  if inside then
    vmas.tail = vmas0.tail ∧
      vmas.head?.map (fun v => v.vm_end) = vmas0.head?.map (fun v => v.vm_end)
  else vmas = vmas0

instance same_walk_decidable (inside : Bool) (vmas vmas0 : List vm_area_struct) :
    Decidable (same_walk inside vmas vmas0) := by
  unfold same_walk
  exact inferInstance

/-- The kernel call of the iteration that starts in state `s`, if there is one,
leaves in place what the loop reads afterwards: the state the iteration hands
on agrees, in what is read through `vma_iter`, with the state it would hand on
had the call left the mappings as they were. -/
def walk_kept (k : kernel) (all_vmas : List snapshot_vma) (s : sweep_state) : Prop :=
  match restore_vmas_body k all_vmas s with
  | Sum.inl s2 => same_walk s2.in_vmas s2.vma_iter (sweep_next all_vmas s).vma_iter
  | Sum.inr _ => True

instance walk_kept_decidable (k : kernel) (all_vmas : List snapshot_vma) (s : sweep_state) :
    Decidable (walk_kept k all_vmas s) := by
  unfold walk_kept
  cases restore_vmas_body k all_vmas s <;> exact inferInstance

/-- Two states of the loop of `restore_vmas` that differ at most in what the
loop does not read again through `vma_iter`. -/
def same_sweep (s s0 : sweep_state) : Prop :=
  same_walk s.in_vmas s.vma_iter s0.vma_iter ∧ s.ss_vma_iter = s0.ss_vma_iter ∧
  s.cursor = s0.cursor ∧ s.in_ss_vmas = s0.in_ss_vmas ∧ s.in_vmas = s0.in_vmas ∧
  s.res = s0.res ∧ s.trace = s0.trace

/-- A kernel whose `vm_munmap` is interrupted: every call returns `-EINTR`. -/
def kernel_munmap_fails : kernel :=
  { kernel_ok with vm_munmap := fun _ _ _ => -4 }

/-- A kernel whose `vm_mmap` finds the range mapped already: every call returns
`-EEXIST`, as `MAP_FIXED_NOREPLACE` asks for. -/
def kernel_mmap_exists : kernel :=
  { kernel_ok with vm_mmap := fun _ _ _ _ _ => ULONG_MAX - 16 }

/-- The single current mapping `[0x1000, 0x4000)`. -/
def mmap_wide_block : List vm_area_struct :=
  [{ vm_start := 4096, vm_end := 16384, vm_flags := 3, anonymous := true }]

/-- A task with `MMAP` set whose `all_vmas` records the anonymous private
mapping `[0x2000, 0x3000)`. -/
def task_middle_recorded : task_data :=
  { empty_task { mmap := true, block := false, nostack := false } with
    ss := { all_vmas := [{ vm_start := 8192, vm_end := 12288, prot := 7,
                           is_anonymous_private := true }]
            snapshotted_vmas := [], ss_pages := [], dirty_pages := [] } }

/-- The single current mapping `[0, 0x5000)`. -/
def mmap_one_long_block : List vm_area_struct :=
  [{ vm_start := 0, vm_end := 20480, vm_flags := 3, anonymous := true }]

/-- A task with `MMAP` set whose `all_vmas` records the anonymous private
mappings `[0, 0x1000)`, `[0x2000, 0x3000)` and `[0x4000, 0x5000)`. -/
def task_three_recorded : task_data :=
  { empty_task { mmap := true, block := false, nostack := false } with
    ss := { all_vmas := [{ vm_start := 0, vm_end := 4096, prot := 7, is_anonymous_private := true },
                         { vm_start := 8192, vm_end := 12288, prot := 7,
                           is_anonymous_private := true },
                         { vm_start := 16384, vm_end := 20480, prot := 7,
                           is_anonymous_private := true }]
            snapshotted_vmas := [], ss_pages := [], dirty_pages := [] } }

/-- An address space with the single writable anonymous private mapping
`[0x3000, 0x4000)`, without a page table. -/
def mm_high_mapping : mm_struct :=
  { mmap := [{ vm_start := 12288, vm_end := 16384, vm_flags := 3, anonymous := true }]
    start_stack := 1048576
    page_table := fun _ => [] }

/-- A task whose block list is what the walk over the list sees after
`exclude_vmrange(start, end_)` on a fresh `task_data`, the node allocated at
address 10. -/
def task_excluding (start end_ : Nat) : task_data :=
  { empty_task { mmap := false, block := false, nostack := false } with
    blocklist := (blocklist_of (exclude_vmrange range_memory_init (some 10) start end_) 4).getD [] }

/-! # Theorems -/

/-! ## Page record store -/

theorem find_base {l : List snapshot_page} {a : Nat} {sp : snapshot_page}
    (h : l.find? (fun sp => sp.page_base == a) = some sp) : sp.page_base = a := by
  have := List.find?_some h
  simpa using this

theorem find_write_same {l : List snapshot_page} {a : Nat} {sp0 sp : snapshot_page}
    (h : l.find? (fun q => q.page_base == a) = some sp0) (hb : sp.page_base = a) :
    (write_page l sp).find? (fun q => q.page_base == a) = some sp := by
  induction l with
  | nil => simp at h
  | cons q qs ih =>
    simp only [write_page]
    by_cases hq : q.page_base = a
    · simp [hq, hb]
    · have h2 : qs.find? (fun q => q.page_base == a) = some sp0 := by
        simpa [List.find?_cons, hq] using h
      simp [hq, hb, List.find?_cons, ih h2]

theorem find_write_other {l : List snapshot_page} {b : Nat} {sp : snapshot_page}
    (hb : sp.page_base ≠ b) :
    (write_page l sp).find? (fun q => q.page_base == b) =
      l.find? (fun q => q.page_base == b) := by
  induction l with
  | nil => simp [write_page]
  | cons q qs ih =>
    simp only [write_page]
    by_cases hq : q.page_base = sp.page_base
    · have : q.page_base ≠ b := by rw [hq]; exact hb
      simp [hq, hb, List.find?_cons, this]
    · by_cases hq2 : q.page_base = b
      · have hne : ¬ b = sp.page_base := fun h => hb h.symm
        simp [hq2, hne, List.find?_cons]
      · simp [hq, hq2, List.find?_cons, ih]

theorem get_base {data : task_data} {a : Nat} {sp : snapshot_page}
    (h : get_snapshot_page data a = some sp) : sp.page_base = a :=
  find_base h

theorem get_put_same {data : task_data} {a : Nat} {sp0 sp : snapshot_page}
    (h : get_snapshot_page data a = some sp0) (hb : sp.page_base = a) :
    get_snapshot_page (put_snapshot_page data sp) a = some sp :=
  find_write_same h hb

theorem get_put_other {data : task_data} {b : Nat} {sp : snapshot_page}
    (hb : sp.page_base ≠ b) :
    get_snapshot_page (put_snapshot_page data sp) b = get_snapshot_page data b :=
  find_write_other hb

/-! ## The write-fault handler -/

theorem record_dirty_page_of_none {k : kernel} {data : task_data} {a : Nat} {c : page_bytes}
    (h : get_snapshot_page data a = none) : record_dirty_page k data a c = (data, none, []) := by
  simp [record_dirty_page, h]

theorem record_dirty_page_of_skip {k : kernel} {data : task_data} {a : Nat} {c : page_bytes}
    {sp : snapshot_page} (h : get_snapshot_page data a = some sp)
    (hs : sp.dirty = true ∨ sp.page_prot = page_kind.none_pte) :
    record_dirty_page k data a c = (data, none, []) := by
  rcases hs with hs | hs <;> simp [record_dirty_page, h, hs, is_snapshot_page_none_pte]

/-- The record and the dirty list `record_dirty_page` leaves for a record that is
neither dirty nor of kind `none_pte`. -/
theorem record_dirty_page_of_clean {k : kernel} {data : task_data} {a : Nat} {c : page_bytes}
    {sp0 : snapshot_page} (h : get_snapshot_page data a = some sp0)
    (hd : sp0.dirty = false) (hk : sp0.page_prot ≠ page_kind.none_pte) :
    ∃ spF : snapshot_page,
      (record_dirty_page k data a c).1 =
        put_snapshot_page
          { data with ss := { data.ss with
              dirty_pages := (if sp0.in_dirty_list then data.ss.dirty_pages
                else list_add_tail a data.ss.dirty_pages) } } spF ∧
      spF.page_base = a ∧ spF.dirty = true ∧ spF.in_dirty_list = true ∧
      spF.page_prot = sp0.page_prot ∧ spF.has_had_pte = sp0.has_had_pte ∧
      (sp0.has_been_copied = true →
        spF.has_been_copied = true ∧ spF.page_data = sp0.page_data) ∧
      (sp0.has_been_copied = false →
        (sp0.page_data.isSome = true ∨ k.kmalloc_page_data a = true) →
        spF.has_been_copied = true ∧ spF.page_data = some c) := by
  have hb : sp0.page_base = a := find_base h
  have hk2 : is_snapshot_page_none_pte sp0 = false := by simp [is_snapshot_page_none_pte, hk]
  cases hl : sp0.in_dirty_list <;> cases hc : sp0.has_been_copied <;>
    cases hp : sp0.page_data <;> cases ha : k.kmalloc_page_data a <;>
    simp [record_dirty_page, h, hd, hk2, hl, hc, hp, ha, hb] <;>
    exact ⟨_, rfl, by simp [hb]⟩



theorem put_dirty_pages (data : task_data) (sp : snapshot_page) :
    (put_snapshot_page data sp).ss.dirty_pages = data.ss.dirty_pages := rfl

theorem get_with_dirty_pages (data : task_data) (l : List Nat) (a : Nat) :
    get_snapshot_page { data with ss := { data.ss with dirty_pages := l } } a =
      get_snapshot_page data a := rfl

/-- C6. Calling `record_dirty_page` for an address twice in a row leaves the
state the first call left, whatever the second call is given: the record and
its saved content are those of the first call, and an address that occurred at
most once in the dirty list, with its flag set if it did, still occurs at most
once.  For an address without a page record the call changes nothing. -/
theorem record_dirty_page_idempotent (k k2 : kernel) (data : task_data) (a : Nat)
    (c c2 : page_bytes) :
    (record_dirty_page k2 (record_dirty_page k data a c).1 a c2).1 =
        (record_dirty_page k data a c).1 ∧
    get_snapshot_page (record_dirty_page k2 (record_dirty_page k data a c).1 a c2).1 a =
        get_snapshot_page (record_dirty_page k data a c).1 a ∧
    (get_snapshot_page data a = none → (record_dirty_page k data a c).1 = data) ∧
    (data.ss.dirty_pages.count a ≤ 1 →
      (∀ sp, get_snapshot_page data a = some sp → a ∈ data.ss.dirty_pages →
        sp.in_dirty_list = true) →
      (record_dirty_page k2 (record_dirty_page k data a c).1 a c2).1.ss.dirty_pages.count a
        ≤ 1) := by
  have key : (record_dirty_page k2 (record_dirty_page k data a c).1 a c2).1 =
      (record_dirty_page k data a c).1 := by
    cases h : get_snapshot_page data a with
    | none => simp [record_dirty_page_of_none h]
    | some sp0 =>
      by_cases hs : sp0.dirty = true ∨ sp0.page_prot = page_kind.none_pte
      · simp [record_dirty_page_of_skip h hs]
      · have hd : sp0.dirty = false := by
          cases hdd : sp0.dirty
          · rfl
          · exact absurd (Or.inl hdd) hs
        have hk : sp0.page_prot ≠ page_kind.none_pte := fun hkk => hs (Or.inr hkk)
        obtain ⟨spF, hF, hbase, hdirty, -⟩ := record_dirty_page_of_clean (k := k) (c := c) h hd hk
        have hget : get_snapshot_page (record_dirty_page k data a c).1 a = some spF := by
          rw [hF]
          have hh : get_snapshot_page { data with ss := { data.ss with
              dirty_pages := (if sp0.in_dirty_list then data.ss.dirty_pages
                else list_add_tail a data.ss.dirty_pages) } } a = some sp0 := by
            rw [get_with_dirty_pages]; exact h
          exact get_put_same hh hbase
        rw [record_dirty_page_of_skip hget (Or.inl hdirty)]
  refine ⟨key, by rw [key], fun h => by rw [record_dirty_page_of_none h], ?_⟩
  intro hcount hflag
  rw [key]
  cases h : get_snapshot_page data a with
  | none => rw [record_dirty_page_of_none h]; exact hcount
  | some sp0 =>
    by_cases hs : sp0.dirty = true ∨ sp0.page_prot = page_kind.none_pte
    · rw [record_dirty_page_of_skip h hs]; exact hcount
    · have hd : sp0.dirty = false := by
        cases hdd : sp0.dirty
        · rfl
        · exact absurd (Or.inl hdd) hs
      have hk : sp0.page_prot ≠ page_kind.none_pte := fun hkk => hs (Or.inr hkk)
      obtain ⟨spF, hF, -⟩ := record_dirty_page_of_clean (k := k) (c := c) h hd hk
      rw [hF, put_dirty_pages]
      simp only
      cases hl : sp0.in_dirty_list
      · have hnot : a ∉ data.ss.dirty_pages := by
          intro hmem
          have := hflag sp0 h hmem
          rw [hl] at this
          exact Bool.noConfusion this
        simp [list_add_tail, List.count_eq_zero_of_not_mem hnot]
      · simpa using hcount

/-- C6, witness: two write faults on the freshly captured page at `0x1000`, the
second with other content, leave the page once in the dirty list. -/
theorem record_dirty_page_idempotent_witness :
    (record_dirty_page kernel_ok
      (record_dirty_page kernel_ok (task_captured ⟨false, false, false⟩) 4096
        (page_filled 1)).1 4096 (page_filled 2)).1.ss.dirty_pages.count 4096 ≤ 1 :=
  (record_dirty_page_idempotent kernel_ok kernel_ok (task_captured ⟨false, false, false⟩) 4096
    (page_filled 1) (page_filled 2)).2.2.2 (by decide) (fun _ _ h => absurd h (by decide))

/-! ## Snapshot capture -/

theorem get_cons_same (data : task_data) (sp : snapshot_page) :
    get_snapshot_page { data with ss := { data.ss with ss_pages := sp :: data.ss.ss_pages } }
      sp.page_base = some sp := by
  simp [get_snapshot_page]

theorem get_cons_other (data : task_data) (sp : snapshot_page) {b : Nat}
    (hb : sp.page_base ≠ b) :
    get_snapshot_page { data with ss := { data.ss with ss_pages := sp :: data.ss.ss_pages } } b =
      get_snapshot_page data b := by
  simp [get_snapshot_page, List.find?_cons, hb]

/-- The outcomes of `add_snapshot_page` with reuse: failure with the state
unchanged, or a state in which the record for the address is the returned one,
its transient flags cleared, and the records of other addresses and the lists
are as before. -/
theorem add_snapshot_page_spec (k : kernel) (data : task_data) (a : Nat) :
    add_snapshot_page k data a true = (data, none) ∨
    ∃ d1 sp1, add_snapshot_page k data a true = (d1, some sp1) ∧
      get_snapshot_page d1 a = some sp1 ∧ sp1.page_base = a ∧ sp1.dirty = false ∧
      sp1.has_been_copied = false ∧ sp1.in_dirty_list = false ∧
      (∀ b, b ≠ a → get_snapshot_page d1 b = get_snapshot_page data b) ∧
      d1.ss.dirty_pages = data.ss.dirty_pages ∧ d1.ss.all_vmas = data.ss.all_vmas ∧
      d1.ss.snapshotted_vmas = data.ss.snapshotted_vmas ∧ d1.config = data.config ∧
      d1.allowlist = data.allowlist ∧ d1.blocklist = data.blocklist := by
  cases hg : get_snapshot_page data a with
  | some sp0 =>
    right
    have hb := get_base hg
    simp only [add_snapshot_page, hg, if_true]
    refine ⟨_, _, rfl, get_put_same hg hb, hb, rfl, rfl, rfl, ?_, rfl, rfl, rfl, rfl, rfl, rfl⟩
    intro b hba
    exact get_put_other (by simpa [hb] using fun h => hba h.symm)
  | none =>
    cases ha : k.kmalloc_snapshot_page a
    · left; simp [add_snapshot_page, hg, ha]
    · right
      simp only [add_snapshot_page, hg, ha, if_true]
      refine ⟨_, _, rfl, get_cons_same data _, rfl, rfl, rfl, rfl, ?_, rfl, rfl, rfl, rfl, rfl,
        rfl⟩
      intro b hba
      exact get_cons_other data _ (fun h => hba h.symm)

/-- What `make_snapshot_page` leaves when it returns 0. -/
theorem make_snapshot_page_ok {k : kernel} {data : task_data} {a : Nat} {pte : pte_t}
    (h : (make_snapshot_page k data a pte).1 = 0) :
    ∃ spF, get_snapshot_page (make_snapshot_page k data a pte).2.1 a = some spF ∧
      spF.dirty = false ∧ spF.has_been_copied = false ∧ spF.in_dirty_list = false ∧
      (spF.page_prot = page_kind.none_pte ↔ pte.pte_none = true) := by
  unfold make_snapshot_page at h ⊢
  rcases add_snapshot_page_spec k data a with hf | ⟨d1, sp1, he, hg, hb, hd, hc, hl, -⟩
  · rw [hf] at h; simp [ENOMEM] at h
  · rw [he]
    simp only
    cases hn : pte.pte_none <;> cases hw : pte.pte_write <;>
      simp only [hn, hw, if_true, if_false, Bool.false_eq_true] <;>
      refine ⟨_, get_put_same hg (by simp [set_snapshot_page_none_pte, set_snapshot_page_private, set_snapshot_page_cow, hb]), ?_⟩ <;>
      simp [set_snapshot_page_none_pte, set_snapshot_page_private, set_snapshot_page_cow, hd, hc, hl]

/-- The parts of the state `make_snapshot_page` leaves alone. -/
theorem make_snapshot_page_frame (k : kernel) (data : task_data) (a : Nat) (pte : pte_t) :
    (∀ b, b ≠ a → get_snapshot_page (make_snapshot_page k data a pte).2.1 b =
        get_snapshot_page data b) ∧
    (make_snapshot_page k data a pte).2.1.ss.dirty_pages = data.ss.dirty_pages ∧
    (make_snapshot_page k data a pte).2.1.ss.all_vmas = data.ss.all_vmas ∧
    (make_snapshot_page k data a pte).2.1.ss.snapshotted_vmas = data.ss.snapshotted_vmas ∧
    (make_snapshot_page k data a pte).2.1.config = data.config ∧
    (make_snapshot_page k data a pte).2.1.allowlist = data.allowlist ∧
    (make_snapshot_page k data a pte).2.1.blocklist = data.blocklist ∧
    (∀ b, event.dbg_making_snapshot b ∈ (make_snapshot_page k data a pte).2.2.2 → b = a) := by
  unfold make_snapshot_page
  rcases add_snapshot_page_spec k data a with hf | ⟨d1, sp1, he, hg, hb, hd, hc, hl, ho, h1, h2, h3, h4, h5, h6⟩
  · rw [hf]; simp
  · rw [he]
    simp only
    cases hn : pte.pte_none <;> cases hw : pte.pte_write <;>
      simp only [hn, hw, if_true, if_false, Bool.false_eq_true] <;>
      refine ⟨fun b hba => ?_, h1, h2, h3, h4, h5, h6, by simp⟩ <;>
      rw [get_put_other (by simpa [set_snapshot_page_none_pte, set_snapshot_page_private, set_snapshot_page_cow, hb] using fun h => hba h.symm)] <;>
      exact ho b hba


theorem same_policy_refl (d : task_data) : same_policy d d := ⟨rfl, rfl, rfl, rfl⟩

theorem same_policy_trans {d1 d2 d3 : task_data} (h1 : same_policy d1 d2)
    (h2 : same_policy d2 d3) : same_policy d1 d3 :=
  ⟨h2.1.trans h1.1, h2.2.1.trans h1.2.1, h2.2.2.1.trans h1.2.2.1, h2.2.2.2.trans h1.2.2.2⟩

/-- The effect of `snapshot_pte_entry` on the lists and on the captured
records. -/
theorem snapshot_pte_entry_spec (k : kernel) (st : capture_state) (addr next : Nat) (pte : pte_t) :
    same_policy st.data (snapshot_pte_entry k st addr next pte).2.data ∧
    (snapshot_pte_entry k st addr next pte).2.data.ss.all_vmas = st.data.ss.all_vmas ∧
    (snapshot_pte_entry k st addr next pte).2.data.ss.snapshotted_vmas =
      st.data.ss.snapshotted_vmas ∧
    ((snapshot_pte_entry k st addr next pte).1 = 0 → captured_fresh st →
      captured_fresh (snapshot_pte_entry k st addr next pte).2) := by
  unfold snapshot_pte_entry
  simp only
  split
  · exact ⟨same_policy_refl _, rfl, rfl, fun _ h => h⟩
  · obtain ⟨ho, h1, h2, h3, h4, h5, h6, h7⟩ := make_snapshot_page_frame k st.data addr pte
    refine ⟨⟨h1, h4, h5, h6⟩, h2, h3, ?_⟩
    intro hres hfresh a ha
    simp only [List.mem_append] at ha
    by_cases hab : a = addr
    · subst hab
      obtain ⟨spF, hg, hd, hc, hl, -⟩ := make_snapshot_page_ok hres
      exact ⟨spF, hg, hd, hc, hl⟩
    · rcases ha with ha | ha
      · obtain ⟨sp, hg, hrest⟩ := hfresh a ha
        exact ⟨sp, by simpa [ho a hab] using hg, hrest⟩
      · exact absurd (h7 a ha) hab

/-- The effect of the page walk over one mapping. -/
theorem walk_page_vma_spec (k : kernel) (entries : List walk_entry) :
    ∀ (skip : Option Nat) (st : capture_state),
      same_policy st.data (walk_page_vma k entries skip st).2.data ∧
      (walk_page_vma k entries skip st).2.data.ss.all_vmas = st.data.ss.all_vmas ∧
      (walk_page_vma k entries skip st).2.data.ss.snapshotted_vmas =
        st.data.ss.snapshotted_vmas ∧
      ((walk_page_vma k entries skip st).1 = 0 → captured_fresh st →
        captured_fresh (walk_page_vma k entries skip st).2) := by
  induction entries with
  | nil => intro skip st; exact ⟨same_policy_refl _, rfl, rfl, fun _ h => h⟩
  | cons e rest ih =>
    intro skip st
    unfold walk_page_vma
    split
    · exact ih skip st
    · split
      · exact ih none _
      · split
        · exact ih _ _
        · simp only
          obtain ⟨p1, p2, p3, p4⟩ := snapshot_pte_entry_spec k st e.addr e.next e.pte
          split
          · rename_i hne
            exact ⟨p1, p2, p3, fun h => absurd h hne⟩
          · rename_i hz
            have hz2 : (snapshot_pte_entry k st e.addr e.next e.pte).1 = 0 := by
              simpa using hz
            obtain ⟨q1, q2, q3, q4⟩ := ih none (snapshot_pte_entry k st e.addr e.next e.pte).2
            exact ⟨same_policy_trans p1 q1, q2.trans p2, q3.trans p3,
              fun h hf => q4 h (p4 hz2 hf)⟩


theorem add_snapshot_vma_eq (k : kernel) (d : task_data) (vma : vm_area_struct) :
    add_snapshot_vma k d vma =
      match vma_record k vma with
      | none => (d, none)
      | some r =>
        ({ d with ss := { d.ss with all_vmas := list_add_tail r d.ss.all_vmas } }, some r) := by
  unfold vma_record add_snapshot_vma
  cases k.kmalloc_snapshot_vma vma.vm_start <;> rfl

theorem vma_record_bounds {k : kernel} {vma : vm_area_struct} {r : snapshot_vma}
    (h : vma_record k vma = some r) :
    r.vm_start = vma.vm_start ∧ r.vm_end = vma.vm_end ∧
      r.is_anonymous_private = (vma.anonymous && decide (vma.vm_flags &&& VM_SHARED = 0)) := by
  unfold vma_record add_snapshot_vma at h
  cases hk : k.kmalloc_snapshot_vma vma.vm_start with
  | none => simp [hk] at h
  | some g =>
    simp only [hk, Option.some.injEq] at h
    subst h
    exact ⟨rfl, rfl, rfl⟩

theorem capture_skips_congr (mm : mm_struct) {d d2 : task_data} (h : same_policy d d2)
    (v : vm_area_struct) : capture_skips mm d2 v = capture_skips mm d v := by
  obtain ⟨-, hc, ha, -⟩ := h
  simp [capture_skips, intersect_allowlist, hc, ha]

/-- The effect of the loop of `take_memory_snapshot`: the mappings are visited in
order up to the first failure; each visited mapping gets one record appended to
`all_vmas`, and those the selection test does not skip are also appended to
`snapshotted_vmas`. -/
theorem take_memory_snapshot_loop_spec (k : kernel) (mm : mm_struct)
    (vmas : List vm_area_struct) :
    ∀ st : capture_state,
      same_policy st.data (take_memory_snapshot_loop k mm vmas st).2.data ∧
      (∃ visited rest, vmas = visited ++ rest ∧
        (∀ v ∈ visited, (vma_record k v).isSome = true) ∧
        (take_memory_snapshot_loop k mm vmas st).2.data.ss.all_vmas =
          st.data.ss.all_vmas ++ vma_records k visited ∧
        (take_memory_snapshot_loop k mm vmas st).2.data.ss.snapshotted_vmas =
          st.data.ss.snapshotted_vmas ++
            vma_records k (visited.filter (fun v => !capture_skips mm st.data v)) ∧
        ((take_memory_snapshot_loop k mm vmas st).1 = 0 → rest = [])) ∧
      ((take_memory_snapshot_loop k mm vmas st).1 = 0 → captured_fresh st →
        captured_fresh (take_memory_snapshot_loop k mm vmas st).2) := by
  induction vmas with
  | nil =>
    intro st
    exact ⟨same_policy_refl _, ⟨[], [], rfl, by simp,
      by simp [vma_records, take_memory_snapshot_loop],
      by simp [vma_records, take_memory_snapshot_loop], fun _ => rfl⟩, fun _ h => h⟩
  | cons pvma rest ih =>
    intro st
    unfold take_memory_snapshot_loop
    rw [add_snapshot_vma_eq]
    cases hr : vma_record k pvma with
    | none =>
      simp only
      refine ⟨same_policy_refl _, ⟨[], pvma :: rest, rfl, by simp, by simp [vma_records],
        by simp [vma_records], fun h => ?_⟩, fun h => ?_⟩ <;> simp [ENOMEM] at h
    | some r =>
      simp only
      split
      · rename_i hskip
        obtain ⟨p1, ⟨vis, rst, e1, e0, e2, e3, e4⟩, p3⟩ := ih
          { st with data := { st.data with ss := { st.data.ss with
              all_vmas := list_add_tail r st.data.ss.all_vmas } } }
        have hpol : same_policy st.data { st.data with ss := { st.data.ss with
              all_vmas := list_add_tail r st.data.ss.all_vmas } } := ⟨rfl, rfl, rfl, rfl⟩
        refine ⟨same_policy_trans hpol p1, ⟨pvma :: vis, rst, by simp [e1], ?_, ?_, ?_, e4⟩,
          fun h hf => p3 h hf⟩
        · intro v hv
          rcases List.mem_cons.1 hv with hv | hv
          · subst hv; simp [hr]
          · exact e0 v hv
        · rw [e2]; simp [vma_records, hr, list_add_tail]
        · rw [e3]
          have hs : capture_skips mm st.data pvma = true := by
            rw [← capture_skips_congr mm hpol]; exact hskip
          simp only [List.filter_cons, hs, Bool.not_true, Bool.false_eq_true, if_false]
          rfl
      · rename_i hskip
        have hpol : same_policy st.data { st.data with ss := { st.data.ss with
              all_vmas := list_add_tail r st.data.ss.all_vmas,
              snapshotted_vmas := list_add_tail r st.data.ss.snapshotted_vmas } } :=
          ⟨rfl, rfl, rfl, rfl⟩
        have hs : capture_skips mm st.data pvma = false := by
          have : same_policy st.data { st.data with ss := { st.data.ss with
              all_vmas := list_add_tail r st.data.ss.all_vmas } } := ⟨rfl, rfl, rfl, rfl⟩
          rw [← capture_skips_congr mm this]
          simpa using hskip
        obtain ⟨w1, w2, w3, w4⟩ := walk_page_vma_spec k (mm.page_table pvma) none
          { st with data := { st.data with ss := { st.data.ss with
              all_vmas := list_add_tail r st.data.ss.all_vmas,
              snapshotted_vmas := list_add_tail r st.data.ss.snapshotted_vmas } } }
        split
        · rename_i hne
          refine ⟨same_policy_trans hpol w1, ⟨[pvma], rest, rfl, by simp [hr], ?_, ?_,
            fun h => absurd h hne⟩, fun h => absurd h hne⟩
          · rw [w2]; simp [vma_records, hr, list_add_tail]
          · rw [w3]; simp [vma_records, hr, list_add_tail, hs]
        · rename_i hz
          have hz2 : (walk_page_vma k (mm.page_table pvma) none
            { st with data := { st.data with ss := { st.data.ss with
              all_vmas := list_add_tail r st.data.ss.all_vmas,
              snapshotted_vmas := list_add_tail r st.data.ss.snapshotted_vmas } } }).1 = 0 := by
            simpa using hz
          obtain ⟨p1, ⟨vis, rst, e1, e0, e2, e3, e4⟩, p3⟩ := ih (walk_page_vma k (mm.page_table pvma) none
            { st with data := { st.data with ss := { st.data.ss with
              all_vmas := list_add_tail r st.data.ss.all_vmas,
              snapshotted_vmas := list_add_tail r st.data.ss.snapshotted_vmas } } }).2
          have hpol2 := same_policy_trans hpol w1
          refine ⟨same_policy_trans hpol2 p1, ⟨pvma :: vis, rst, by simp [e1], ?_, ?_, ?_, e4⟩,
            fun h hf => p3 h (w4 hz2 hf)⟩
          · intro v hv
            rcases List.mem_cons.1 hv with hv | hv
            · subst hv; simp [hr]
            · exact e0 v hv
          · rw [e2, w2]; simp [vma_records, hr, list_add_tail]
          · rw [e3, w3]
            have hfun : ∀ v, capture_skips mm (walk_page_vma k (mm.page_table pvma) none
                { st with data := { st.data with ss := { st.data.ss with
                    all_vmas := list_add_tail r st.data.ss.all_vmas,
                    snapshotted_vmas := list_add_tail r st.data.ss.snapshotted_vmas } } }).2.data v
                = capture_skips mm st.data v := fun v => capture_skips_congr mm hpol2 v
            have hfilter := List.filter_congr (l := vis)
              (fun v _ => congrArg (fun b => !b) (hfun v))
            simp only [List.filter_cons, hs, Bool.not_false, if_true, list_add_tail,
              vma_records, List.filterMap_cons, hr, List.append_assoc, List.singleton_append]
            exact congrArg
              (fun l => st.data.ss.snapshotted_vmas ++ r :: List.filterMap (vma_record k) l)
              hfilter

theorem vma_records_forall₂ (k : kernel) (vmas : List vm_area_struct)
    (h : ∀ v ∈ vmas, (vma_record k v).isSome = true) :
    List.Forall₂ (fun (r : snapshot_vma) (v : vm_area_struct) =>
      vma_record k v = some r ∧ r.vm_start = v.vm_start ∧ r.vm_end = v.vm_end)
      (vma_records k vmas) vmas := by
  induction vmas with
  | nil => simp [vma_records]
  | cons v vs ih =>
    have hv := h v (List.mem_cons_self _ _)
    cases hr : vma_record k v with
    | none => simp [hr] at hv
    | some r =>
      have hb := vma_record_bounds hr
      simp only [vma_records, List.filterMap_cons, hr]
      exact List.Forall₂.cons ⟨hr, hb.1, hb.2.1⟩
        (ih (fun w hw => h w (List.mem_cons_of_mem _ hw)))

theorem take_memory_snapshot_spec (k : kernel) (mm : mm_struct) (data : task_data) :
    ∃ visited rest, mm.mmap = visited ++ rest ∧
      (∀ v ∈ visited, (vma_record k v).isSome = true) ∧
      (take_memory_snapshot k mm data).2.1.ss.all_vmas =
        data.ss.all_vmas ++ vma_records k visited ∧
      (take_memory_snapshot k mm data).2.1.ss.snapshotted_vmas =
        data.ss.snapshotted_vmas ++
          vma_records k (visited.filter (fun v => !capture_skips mm data v)) ∧
      ((take_memory_snapshot k mm data).1 = 0 → rest = []) :=
  (take_memory_snapshot_loop_spec k mm mm.mmap _).2.1

/-- What a capture does to `all_vmas`: a successful `take_memory_snapshot` appends
to `all_vmas`, after whatever the list held, exactly one record per mapping
present at the call, in the order of the mapping list and with the bounds of
the mapping; starting from an empty `all_vmas` the list then holds those
records and nothing else. -/
theorem take_memory_snapshot_appends_all_vmas (k : kernel) (mm : mm_struct) (data : task_data)
    (h : (take_memory_snapshot k mm data).1 = 0) :
    (take_memory_snapshot k mm data).2.1.ss.all_vmas =
        data.ss.all_vmas ++ vma_records k mm.mmap ∧
    List.Forall₂ (fun (r : snapshot_vma) (v : vm_area_struct) =>
        vma_record k v = some r ∧ r.vm_start = v.vm_start ∧ r.vm_end = v.vm_end)
      (vma_records k mm.mmap) mm.mmap ∧
    (data.ss.all_vmas = [] →
      (take_memory_snapshot k mm data).2.1.ss.all_vmas = vma_records k mm.mmap) := by
  obtain ⟨visited, rest, e1, e0, e2, -, e4⟩ := take_memory_snapshot_spec k mm data
  have hrest := e4 h
  subst hrest
  rw [List.append_nil] at e1
  rw [e1]
  refine ⟨e2, vma_records_forall₂ k visited e0, fun hnil => ?_⟩
  rw [e2, hnil, List.nil_append]

/-- The first capture of a one-mapping address space leaves the record of that
mapping. -/
theorem take_memory_snapshot_appends_all_vmas_witness :
    (take_memory_snapshot kernel_ok (mm_one_page pte_writable)
        (empty_task ⟨false, false, false⟩)).2.1.ss.all_vmas =
      vma_records kernel_ok (mm_one_page pte_writable).mmap :=
  (take_memory_snapshot_appends_all_vmas kernel_ok (mm_one_page pte_writable)
    (empty_task ⟨false, false, false⟩) (by decide)).2.2 rfl

/-- C9, the code at the failing input.  An address space with the single mapping
`[0x1000, 0x2000)` is captured twice with `MMAP` set.  The second capture
succeeds and leaves two records for that mapping in `all_vmas`, the one of the
first capture and the new one.  `restore_vmas` then passes the mapping and the
first record together, turns back to the start of the second record and asks
for a `vm_mmap` of `[0x1000, 0x2000)`, which is mapped: with the range reported
as taken it logs the failure and returns. -/
theorem take_memory_snapshot_keeps_old_vmas :
    (take_memory_snapshot kernel_ok (mm_one_page pte_writable)
      (take_memory_snapshot kernel_ok (mm_one_page pte_writable)
        (empty_task ⟨true, false, false⟩)).2.1).1 = 0 ∧
    ((take_memory_snapshot kernel_ok (mm_one_page pte_writable)
      (take_memory_snapshot kernel_ok (mm_one_page pte_writable)
        (empty_task ⟨true, false, false⟩)).2.1).2.1.ss.all_vmas.map
          (fun r => (r.vm_start, r.vm_end))) = [(4096, 8192), (4096, 8192)] ∧
    (mm_one_page pte_writable).mmap.map (fun v => (v.vm_start, v.vm_end)) = [(4096, 8192)] ∧
    restore_vmas kernel_mmap_exists 6 (mm_one_page pte_writable).mmap
      (take_memory_snapshot kernel_ok (mm_one_page pte_writable)
        (take_memory_snapshot kernel_ok (mm_one_page pte_writable)
          (empty_task ⟨true, false, false⟩)).2.1).2.1 =
      some (0, [event.mmap 4096 4096 7 (MAP_PRIVATE ||| MAP_FIXED_NOREPLACE),
                event.fatal_mmap 4096 8192 (ULONG_MAX - 16)]) ∧
    (restore_vmas_trajectory kernel_mmap_exists 6 (mm_one_page pte_writable).mmap
      (take_memory_snapshot kernel_ok (mm_one_page pte_writable)
        (take_memory_snapshot kernel_ok (mm_one_page pte_writable)
          (empty_task ⟨true, false, false⟩)).2.1).2.1).map (fun s => s.cursor) =
      [0, 4096, 8192, 4096] := by
  decide

/-- The selection test of the code agrees with the rule as the specification
words it. -/
theorem capture_skips_iff (mm : mm_struct) (data : task_data) (v : vm_area_struct) :
    capture_skips mm data v = false ↔ capture_selects mm data v := by
  unfold capture_skips capture_selects intersect_allowlist
  cases hf : data.allowlist.find? (fun n => decide (v.vm_end > n.start ∧ v.vm_start < n.end_)) with
  | some n =>
    have hp := List.find?_some hf
    have hm := List.mem_of_find?_eq_some hf
    simp only [Option.isNone_some, Bool.false_eq_true, if_false, true_iff]
    exact Or.inl ⟨n, hm, by simpa using hp⟩
  | none =>
    have hn : ¬ ∃ n ∈ data.allowlist, v.vm_end > n.start ∧ v.vm_start < n.end_ := by
      rintro ⟨n, hm, hp⟩
      have := List.find?_eq_none.1 hf n hm
      simp at this
      omega
    simp only [Option.isNone_none, if_true, hn, false_or]
    by_cases h1 : v.vm_flags &&& VM_WRITE = 0
    · simp [h1]
    · by_cases h2 : v.vm_flags &&& VM_SHARED = 0
      · cases h3 : data.config.block <;> cases h4 : data.config.nostack <;>
          cases h5 : is_stack mm v <;> simp [h1, h2]
      · simp [h1, h2]

/-- C10. `take_memory_snapshot` visits the mappings in order, up to the first
failure; every visited mapping gets a record, and the records appended to
`snapshotted_vmas` are exactly those of the visited mappings that satisfy the
selection rule: the mapping intersects some allow-list entry, or it is
writable, not shared, `BLOCK` is unset and it is not a stack mapping skipped
under `NO_STACK`. -/
theorem take_memory_snapshot_selection (k : kernel) (mm : mm_struct) (data : task_data) :
    ∃ visited rest, mm.mmap = visited ++ rest ∧
      ((take_memory_snapshot k mm data).1 = 0 → rest = []) ∧
      List.Forall₂ (fun (r : snapshot_vma) (v : vm_area_struct) =>
          vma_record k v = some r ∧ r.vm_start = v.vm_start ∧ r.vm_end = v.vm_end)
        (vma_records k visited) visited ∧
      (take_memory_snapshot k mm data).2.1.ss.all_vmas =
        data.ss.all_vmas ++ vma_records k visited ∧
      (take_memory_snapshot k mm data).2.1.ss.snapshotted_vmas =
        data.ss.snapshotted_vmas ++
          vma_records k (visited.filter (fun v => decide (capture_selects mm data v))) := by
  obtain ⟨visited, rest, e1, e0, e2, e3, e4⟩ := take_memory_snapshot_spec k mm data
  refine ⟨visited, rest, e1, e4, vma_records_forall₂ k visited e0, e2, ?_⟩
  rw [e3]
  congr 2
  apply List.filter_congr
  intro v _
  by_cases hs : capture_selects mm data v
  · simp [hs, (capture_skips_iff mm data v).2 hs]
  · have : capture_skips mm data v = true := by
      cases hc : capture_skips mm data v
      · exact absurd ((capture_skips_iff mm data v).1 hc) hs
      · rfl
    simp [hs, this]


/-! ## Restore: the drain on two concrete states -/

/-- C2, the code at the failing inputs.  First: a page was captured, written and
saved, and is gone at restore time (`copy_to_user` copies nothing,
`walk_page_table` finds no entry); `recover_memory_snapshot` returns 0, the page
is still in the dirty list and its `in_dirty_list` flag is still set.  Second:
the write fault could not allocate the content buffer, so the page is dirty
with nothing copied; `recover_memory_snapshot` returns 0 and unlinks it, but its
`dirty` flag stays set.  The triples are `(dirty, in_dirty_list,
has_been_copied)`. -/
theorem recover_memory_snapshot_leaves_entries :
    (recover_memory_snapshot kernel_page_gone 0 [] (task_written ⟨false, false, false⟩)
        memory_ones).map (fun r => (r.res, r.data.ss.dirty_pages, page_flags r.data 4096)) =
      some (0, [4096], some (false, true, true)) ∧
    (recover_memory_snapshot kernel_ok 0 [] (task_written_unsaved ⟨false, false, false⟩)
        memory_ones).map (fun r => (r.res, r.data.ss.dirty_pages, page_flags r.data 4096)) =
      some (0, [], some (true, false, false)) := by
  constructor <;> decide

/-- C7, the code at the failing input.  After a capture and a write fault the
page at `0x1000` is linked in the dirty list with its flag set.  A second
capture of the page returns 0 and clears the flag of the reused record, but the
record is still linked in the dirty list: the invariant no longer holds. -/
theorem make_snapshot_page_breaks_dirty_list_invariant :
    page_flags (task_written ⟨false, false, false⟩) 4096 = some (true, true, true) ∧
    (task_written ⟨false, false, false⟩).ss.dirty_pages = [4096] ∧
    (make_snapshot_page kernel_ok (task_written ⟨false, false, false⟩) 4096 pte_writable).1 = 0 ∧
    page_flags (make_snapshot_page kernel_ok (task_written ⟨false, false, false⟩) 4096
      pte_writable).2.1 4096 = some (false, false, false) ∧
    (make_snapshot_page kernel_ok (task_written ⟨false, false, false⟩) 4096
      pte_writable).2.1.ss.dirty_pages = [4096] ∧
    ¬ dirty_list_invariant (make_snapshot_page kernel_ok (task_written ⟨false, false, false⟩)
      4096 pte_writable).2.1 := by
  refine ⟨by decide, by decide, by decide, by decide, by decide, ?_⟩
  intro h
  have h1 := (h 4096 _ rfl).1 (by decide)
  revert h1
  decide


/-! ## Allow and block lists at pointer level -/

/-- After `exclude_vmrange` the walk over the block list visits the new range and
nothing else, whatever the list held before. -/
theorem exclude_vmrange_blocklist (m : range_memory) (n start end_ fuel : Nat)
    (hn : n ≠ m.blocklist) :
    blocklist_of (exclude_vmrange m (some n) start end_) (fuel + 1) =
      some [{ start := start, end_ := end_ }] := by
  have hn2 : m.blocklist ≠ n := fun h => hn h.symm
  simp [blocklist_of, range_list_entries, exclude_vmrange, list_add, __list_add, INIT_LIST_HEAD,
    list_for_each, Function.update, hn, hn2]
  cases fuel <;> simp [list_for_each, Function.update, hn, hn2]

/-- After `include_vmrange` the walk over the allow list visits the new range and
nothing else, whatever the list held before. -/
theorem include_vmrange_allowlist (m : range_memory) (n start end_ fuel : Nat)
    (hn : n ≠ m.allowlist) :
    allowlist_of (include_vmrange m (some n) start end_) (fuel + 1) =
      some [{ start := start, end_ := end_ }] := by
  have hn2 : m.allowlist ≠ n := fun h => hn h.symm
  simp [allowlist_of, range_list_entries, include_vmrange, list_add, __list_add, INIT_LIST_HEAD,
    list_for_each, Function.update, hn, hn2]
  cases fuel <;> simp [list_for_each, Function.update, hn, hn2]

/-- C8, the code at the failing input.  After `exclude_vmrange(0x1000, 0x2000)`
and `exclude_vmrange(0x3000, 0x4000)` the walk over the block list visits the
second range only, and `intersect_blocklist` finds nothing for
`[0x1000, 0x2000)`; the same two calls of `include_vmrange` leave an allow
list whose walk visits the second range only. -/
theorem exclude_vmrange_keeps_only_last :
    blocklist_of range_memory_two_excluded 4 = some [{ start := 12288, end_ := 16384 }] ∧
    allowlist_of range_memory_two_included 4 = some [{ start := 12288, end_ := 16384 }] ∧
    intersect_blocklist
      { empty_task ⟨false, false, false⟩ with
        blocklist := (blocklist_of range_memory_two_excluded 4).getD [] } 4096 8192 = none := by
  decide
/-! ## Restore: termination of the sweep -/

theorem sweep_next_vma_pos_lt {s : sweep_state} (hb : sweep_bounded s) (h : s.vma_iter ≠ []) :
    sweep_next_vma_pos s < ULONG_MAX := by
  unfold sweep_next_vma_pos
  cases hv : s.vma_iter with
  | nil => exact absurd hv h
  | cons v vs =>
    have := hb.2.2.1 v (by rw [hv]; exact List.mem_cons_self _ _)
    simp only
    split <;> omega

theorem sweep_next_ss_vma_pos_lt {s : sweep_state} (hb : sweep_bounded s)
    (h : s.ss_vma_iter ≠ []) : sweep_next_ss_vma_pos s < ULONG_MAX := by
  unfold sweep_next_ss_vma_pos
  cases hv : s.ss_vma_iter with
  | nil => exact absurd hv h
  | cons v vs =>
    have := hb.2.2.2 v (by rw [hv]; exact List.mem_cons_self _ _)
    simp only
    split <;> omega

/-- The mapping side of one step of the sweep: either the cursor stops at the
next boundary of the current mappings, entering the first remaining mapping or
leaving it, or it stops before that boundary and the side is unchanged. -/
theorem sweep_next_vma_side (all_vmas : List snapshot_vma) (s : sweep_state)
    (hlt : min (sweep_next_vma_pos s) (sweep_next_ss_vma_pos s) < ULONG_MAX) :
    (min (sweep_next_vma_pos s) (sweep_next_ss_vma_pos s) = sweep_next_vma_pos s ∧
      ∃ v vs, s.vma_iter = v :: vs ∧
        ((s.in_vmas = false ∧ sweep_next_vma_pos s = v.vm_start ∧
            (sweep_next all_vmas s).in_vmas = true ∧ (sweep_next all_vmas s).vma_iter = v :: vs) ∨
         (s.in_vmas = true ∧ sweep_next_vma_pos s = v.vm_end ∧
            (sweep_next all_vmas s).in_vmas = false ∧ (sweep_next all_vmas s).vma_iter = vs))) ∨
    (min (sweep_next_vma_pos s) (sweep_next_ss_vma_pos s) < sweep_next_vma_pos s ∧
      (sweep_next all_vmas s).in_vmas = s.in_vmas ∧
      (sweep_next all_vmas s).vma_iter = s.vma_iter) := by
  by_cases heq : min (sweep_next_vma_pos s) (sweep_next_ss_vma_pos s) = sweep_next_vma_pos s
  · left
    refine ⟨heq, ?_⟩
    cases hv : s.vma_iter with
    | nil =>
      have : sweep_next_vma_pos s = ULONG_MAX := by simp [sweep_next_vma_pos, hv]
      omega
    | cons v vs =>
      refine ⟨v, vs, rfl, ?_⟩
      have hle : sweep_next_vma_pos s ≤ sweep_next_ss_vma_pos s := by
        have := Nat.min_le_right (sweep_next_vma_pos s) (sweep_next_ss_vma_pos s)
        omega
      cases hi : s.in_vmas
      · left
        simp [sweep_next_vma_pos, hv, hi] at hle
        simp [sweep_next, sweep_advance, hi, hv, sweep_next_vma_pos, hle]
      · right
        simp [sweep_next_vma_pos, hv, hi] at hle
        simp [sweep_next, sweep_advance, hi, hv, sweep_next_vma_pos, hle]
  · right
    have hle := Nat.min_le_left (sweep_next_vma_pos s) (sweep_next_ss_vma_pos s)
    refine ⟨by omega, ?_, ?_⟩ <;> simp [sweep_next, sweep_advance, heq]

/-- The record side of one step of the sweep. -/
theorem sweep_next_ss_side (all_vmas : List snapshot_vma) (s : sweep_state)
    (hlt : min (sweep_next_vma_pos s) (sweep_next_ss_vma_pos s) < ULONG_MAX) :
    (min (sweep_next_vma_pos s) (sweep_next_ss_vma_pos s) = sweep_next_ss_vma_pos s ∧
      ∃ r rs, s.ss_vma_iter = r :: rs ∧
        ((s.in_ss_vmas = false ∧ sweep_next_ss_vma_pos s = r.vm_start ∧
            (sweep_next all_vmas s).in_ss_vmas = true ∧
            (sweep_next all_vmas s).ss_vma_iter = r :: rs) ∨
         (s.in_ss_vmas = true ∧ sweep_next_ss_vma_pos s = r.vm_end ∧
            (sweep_next all_vmas s).in_ss_vmas = false ∧
            (sweep_next all_vmas s).ss_vma_iter = rs))) ∨
    (min (sweep_next_vma_pos s) (sweep_next_ss_vma_pos s) < sweep_next_ss_vma_pos s ∧
      (sweep_next all_vmas s).in_ss_vmas = s.in_ss_vmas ∧
      (sweep_next all_vmas s).ss_vma_iter = s.ss_vma_iter) := by
  by_cases heq : min (sweep_next_vma_pos s) (sweep_next_ss_vma_pos s) = sweep_next_ss_vma_pos s
  · left
    refine ⟨heq, ?_⟩
    cases hv : s.ss_vma_iter with
    | nil =>
      have : sweep_next_ss_vma_pos s = ULONG_MAX := by simp [sweep_next_ss_vma_pos, hv]
      omega
    | cons v vs =>
      refine ⟨v, vs, rfl, ?_⟩
      have hle : sweep_next_ss_vma_pos s ≤ sweep_next_vma_pos s := by
        have := Nat.min_le_left (sweep_next_vma_pos s) (sweep_next_ss_vma_pos s)
        omega
      cases hi : s.in_ss_vmas
      · left
        simp [sweep_next_ss_vma_pos, hv, hi] at hle
        simp [sweep_next, sweep_advance, hi, hv, sweep_next_ss_vma_pos, hle]
      · right
        simp [sweep_next_ss_vma_pos, hv, hi] at hle
        simp [sweep_next, sweep_advance, hi, hv, sweep_next_ss_vma_pos, hle]
  · right
    have hle := Nat.min_le_right (sweep_next_vma_pos s) (sweep_next_ss_vma_pos s)
    refine ⟨by omega, ?_, ?_⟩ <;> simp [sweep_next, sweep_advance, heq]

theorem sweep_min_lt {s : sweep_state} (hb : sweep_bounded s)
    (hne : ¬ (s.vma_iter = [] ∧ s.ss_vma_iter = [])) :
    min (sweep_next_vma_pos s) (sweep_next_ss_vma_pos s) < ULONG_MAX := by
  by_cases h : s.vma_iter = []
  · have h2 : s.ss_vma_iter ≠ [] := fun h2 => hne ⟨h, h2⟩
    exact lt_of_le_of_lt (Nat.min_le_right _ _) (sweep_next_ss_vma_pos_lt hb h2)
  · exact lt_of_le_of_lt (Nat.min_le_left _ _) (sweep_next_vma_pos_lt hb h)

theorem sweep_next_bounded (all_vmas : List snapshot_vma) (s : sweep_state)
    (hb : sweep_bounded s) (hne : ¬ (s.vma_iter = [] ∧ s.ss_vma_iter = [])) :
    sweep_bounded (sweep_next all_vmas s) ∧
      sweep_measure (sweep_next all_vmas s) < sweep_measure s := by
  have hlt := sweep_min_lt hb hne
  have hv := sweep_next_vma_side all_vmas s hlt
  have hr := sweep_next_ss_side all_vmas s hlt
  have hmin : min (sweep_next_vma_pos s) (sweep_next_ss_vma_pos s) = sweep_next_vma_pos s ∨
      min (sweep_next_vma_pos s) (sweep_next_ss_vma_pos s) = sweep_next_ss_vma_pos s := by
    rcases Nat.le_total (sweep_next_vma_pos s) (sweep_next_ss_vma_pos s) with h | h
    · left; exact Nat.min_eq_left h
    · right; exact Nat.min_eq_right h
  obtain ⟨h1, h2, h3, h4⟩ := hb
  have key1 : ((sweep_next all_vmas s).in_vmas = true → (sweep_next all_vmas s).vma_iter ≠ []) ∧
      (∀ v ∈ (sweep_next all_vmas s).vma_iter, v.vm_start < ULONG_MAX ∧ v.vm_end < ULONG_MAX) ∧
      (2 * (sweep_next all_vmas s).vma_iter.length
          - (if (sweep_next all_vmas s).in_vmas then 1 else 0)
        ≤ 2 * s.vma_iter.length - (if s.in_vmas then 1 else 0)) ∧
      (min (sweep_next_vma_pos s) (sweep_next_ss_vma_pos s) = sweep_next_vma_pos s →
        2 * (sweep_next all_vmas s).vma_iter.length
          - (if (sweep_next all_vmas s).in_vmas then 1 else 0)
        < 2 * s.vma_iter.length - (if s.in_vmas then 1 else 0)) ∧
      (if (sweep_next all_vmas s).in_vmas then 1 else 0) ≤
        2 * (sweep_next all_vmas s).vma_iter.length := by
    rcases hv with ⟨-, v, vs, e, ⟨a1, -, a3, a4⟩ | ⟨a1, -, a3, a4⟩⟩ | ⟨a0, a1, a2⟩
    · rw [a3, a4, e, a1]
      refine ⟨fun _ => by simp, fun w hw => h3 w (by rw [e]; exact hw), ?_, ?_, ?_⟩
      · simp
      · simp
      · simp; omega
    · rw [a3, a4, e, a1]
      refine ⟨fun h => by simp at h, fun w hw => h3 w (by rw [e]; exact List.mem_cons_of_mem _ hw),
        ?_, ?_, ?_⟩
      · simp; omega
      · simp; intro _; omega
      · simp
    · rw [a1, a2]
      refine ⟨h1, h3, le_refl _, fun h => by omega, ?_⟩
      cases hi : s.in_vmas
      · simp
      · have := h1 hi
        have : 0 < s.vma_iter.length := List.length_pos.2 this
        simp; omega
  have key2 : ((sweep_next all_vmas s).in_ss_vmas = true →
        (sweep_next all_vmas s).ss_vma_iter ≠ []) ∧
      (∀ v ∈ (sweep_next all_vmas s).ss_vma_iter, v.vm_start < ULONG_MAX ∧ v.vm_end < ULONG_MAX) ∧
      (2 * (sweep_next all_vmas s).ss_vma_iter.length
          - (if (sweep_next all_vmas s).in_ss_vmas then 1 else 0)
        ≤ 2 * s.ss_vma_iter.length - (if s.in_ss_vmas then 1 else 0)) ∧
      (min (sweep_next_vma_pos s) (sweep_next_ss_vma_pos s) = sweep_next_ss_vma_pos s →
        2 * (sweep_next all_vmas s).ss_vma_iter.length
          - (if (sweep_next all_vmas s).in_ss_vmas then 1 else 0)
        < 2 * s.ss_vma_iter.length - (if s.in_ss_vmas then 1 else 0)) ∧
      (if (sweep_next all_vmas s).in_ss_vmas then 1 else 0) ≤
        2 * (sweep_next all_vmas s).ss_vma_iter.length := by
    rcases hr with ⟨-, v, vs, e, ⟨a1, -, a3, a4⟩ | ⟨a1, -, a3, a4⟩⟩ | ⟨a0, a1, a2⟩
    · rw [a3, a4, e, a1]
      refine ⟨fun _ => by simp, fun w hw => h4 w (by rw [e]; exact hw), ?_, ?_, ?_⟩
      · simp
      · simp
      · simp; omega
    · rw [a3, a4, e, a1]
      refine ⟨fun h => by simp at h, fun w hw => h4 w (by rw [e]; exact List.mem_cons_of_mem _ hw),
        ?_, ?_, ?_⟩
      · simp; omega
      · simp; intro _; omega
      · simp
    · rw [a1, a2]
      refine ⟨h2, h4, le_refl _, fun h => by omega, ?_⟩
      cases hi : s.in_ss_vmas
      · simp
      · have := h2 hi
        have : 0 < s.ss_vma_iter.length := List.length_pos.2 this
        simp; omega
  obtain ⟨b1, b2, b3, b4, b5⟩ := key1
  obtain ⟨c1, c2, c3, c4, c5⟩ := key2
  refine ⟨⟨b1, c1, b2, c2⟩, ?_⟩
  have o1 : (if s.in_vmas then 1 else 0) ≤ 2 * s.vma_iter.length := by
    cases hi : s.in_vmas
    · simp
    · have : 0 < s.vma_iter.length := List.length_pos.2 (h1 hi)
      simp; omega
  have o2 : (if s.in_ss_vmas then 1 else 0) ≤ 2 * s.ss_vma_iter.length := by
    cases hi : s.in_ss_vmas
    · simp
    · have : 0 < s.ss_vma_iter.length := List.length_pos.2 (h2 hi)
      simp; omega
  unfold sweep_measure
  rcases hmin with h | h
  · have := b4 h
    omega
  · have := c4 h
    omega


/-! ## Restore: correctness of the sweep -/

theorem ascending_ranges_suffix {α : Type} {lo hi : α → Nat} (passed : List α)
    {rem : List α} (h : ascending_ranges lo hi (passed ++ rem)) : ascending_ranges lo hi rem :=
  ⟨(List.pairwise_append.1 h.1).2.1, fun a ha => h.2 a (List.mem_append_right _ ha)⟩

theorem ascending_ranges_head_le {α : Type} {lo hi : α → Nat} {a : α} {rest : List α}
    (h : ascending_ranges lo hi (a :: rest)) : ∀ b ∈ rest, hi a ≤ lo b :=
  fun b hb => (List.pairwise_cons.1 h.1).1 b hb

/-- Two ranges of an ascending sequence that contain the same address are the
same element. -/
theorem ascending_ranges_unique {α : Type} {lo hi : α → Nat} {l : List α}
    (h : ascending_ranges lo hi l) {a b : α} (ha : a ∈ l) (hb : b ∈ l) {x : Nat}
    (hxa : lo a ≤ x ∧ x < hi a) (hxb : lo b ≤ x ∧ x < hi b) : a = b := by
  induction l with
  | nil => cases ha
  | cons c cs ih =>
    have hc := ascending_ranges_head_le h
    have htail : ascending_ranges lo hi cs := ascending_ranges_suffix [c] h
    rcases List.mem_cons.1 ha with ha1 | ha1
    · rcases List.mem_cons.1 hb with hb1 | hb1
      · rw [ha1, hb1]
      · have := hc b hb1
        rw [ha1] at hxa
        omega
    · rcases List.mem_cons.1 hb with hb1 | hb1
      · have := hc a ha1
        rw [hb1] at hxb
        omega
      · exact ih htail ha1 hb1

/-- Inside the stretch from the cursor to the next boundary of a side, the
membership flag of the side tells whether an address is covered. -/
theorem side_inv_covers {α : Type} {lo hi : α → Nat} {full rem : List α} {inside : Bool}
    {c x : Nat} (hasc : ascending_ranges lo hi full) (h : side_inv lo hi full rem inside c)
    (hcx : c ≤ x)
    (hx : ∀ a rest, rem = a :: rest → x < (if inside = true then hi a else lo a)) :
    covers lo hi full x ↔ inside = true := by
  obtain ⟨passed, hfull, hpassed, hin, hout⟩ := h
  subst hfull
  constructor
  · rintro ⟨b, hb, hb1, hb2⟩
    cases hi2 : inside
    · exfalso
      rcases List.mem_append.1 hb with hb | hb
      · have := hpassed b hb
        omega
      · cases hrem : rem with
        | nil => rw [hrem] at hb; cases hb
        | cons a rest =>
          have hxa := hx a rest hrem
          simp only [hi2, Bool.false_eq_true, if_false] at hxa
          rw [hrem] at hb
          have hasc2 : ascending_ranges lo hi (a :: rest) := by
            rw [← hrem]; exact ascending_ranges_suffix passed hasc
          rcases List.mem_cons.1 hb with hb | hb
          · subst hb; omega
          · have h1 := ascending_ranges_head_le hasc2 b hb
            have h2 := (hasc2.2 a (List.mem_cons_self _ _)).1
            omega
    · rfl
  · intro hi2
    obtain ⟨a, rest, hrem, ha1, ha2⟩ := hin hi2
    have hxa := hx a rest hrem
    simp only [hi2, if_true] at hxa
    exact ⟨a, List.mem_append_right _ (by rw [hrem]; exact List.mem_cons_self _ _), by omega, hxa⟩

theorem side_inv_enter {α : Type} {lo hi : α → Nat} {full rest : List α} {a : α} {c : Nat}
    (hasc : ascending_ranges lo hi full) (h : side_inv lo hi full (a :: rest) false c) :
    side_inv lo hi full (a :: rest) true (lo a) := by
  obtain ⟨passed, hfull, hpassed, -, hout⟩ := h
  have hca := hout rfl a (List.mem_cons_self _ _)
  have ha := (hasc.2 a (by rw [hfull]; exact List.mem_append_right _ (List.mem_cons_self _ _))).1
  exact ⟨passed, hfull, fun b hb => le_trans (hpassed b hb) hca,
    fun _ => ⟨a, rest, rfl, le_refl _, ha⟩, fun h => (by cases h)⟩

theorem side_inv_leave {α : Type} {lo hi : α → Nat} {full rest : List α} {a : α} {c : Nat}
    (hasc : ascending_ranges lo hi full) (h : side_inv lo hi full (a :: rest) true c) :
    side_inv lo hi full rest false (hi a) := by
  obtain ⟨passed, hfull, hpassed, hin, -⟩ := h
  obtain ⟨a2, rest2, hrem, ha1, ha2⟩ := hin rfl
  cases hrem
  have hasc2 : ascending_ranges lo hi (a :: rest) := by
    apply ascending_ranges_suffix passed; rw [← hfull]; exact hasc
  refine ⟨passed ++ [a], by simp [hfull], ?_, fun h => (by cases h),
    fun _ b hb => ascending_ranges_head_le hasc2 b hb⟩
  intro b hb
  rcases List.mem_append.1 hb with hb | hb
  · have := hpassed b hb; omega
  · rw [List.mem_singleton.1 hb]

theorem side_inv_stay {α : Type} {lo hi : α → Nat} {full rem : List α} {inside : Bool}
    {c n : Nat} (hasc : ascending_ranges lo hi full) (h : side_inv lo hi full rem inside c)
    (hcn : c ≤ n)
    (hn : ∀ a rest, rem = a :: rest → n < (if inside = true then hi a else lo a)) :
    side_inv lo hi full rem inside n := by
  obtain ⟨passed, hfull, hpassed, hin, hout⟩ := h
  refine ⟨passed, hfull, fun b hb => le_trans (hpassed b hb) hcn, ?_, ?_⟩
  · intro hi2
    obtain ⟨a, rest, hrem, ha1, ha2⟩ := hin hi2
    have := hn a rest hrem
    simp only [hi2, if_true] at this
    exact ⟨a, rest, hrem, by omega, this⟩
  · intro hi2 b hb
    cases hrem : rem with
    | nil => rw [hrem] at hb; cases hb
    | cons a rest =>
      have hna := hn a rest hrem
      simp only [hi2, Bool.false_eq_true, if_false] at hna
      rw [hrem] at hb
      have hasc2 : ascending_ranges lo hi (a :: rest) := by
        apply ascending_ranges_suffix passed; rw [← hrem, ← hfull]; exact hasc
      rcases List.mem_cons.1 hb with hb | hb
      · subst hb; omega
      · have h1 := ascending_ranges_head_le hasc2 b hb
        have h2 := (hasc2.2 a (List.mem_cons_self _ _)).1
        omega

theorem sweep_inv_bounded {mmap : List vm_area_struct} {all_vmas : List snapshot_vma}
    {s : sweep_state} (hm : ascending_mappings mmap) (hr : ascending_recorded all_vmas)
    (h : sweep_inv mmap all_vmas s) : sweep_bounded s := by
  obtain ⟨⟨p1, e1, -, i1, -⟩, ⟨p2, e2, -, i2, -⟩, -⟩ := h
  refine ⟨fun hi => ?_, fun hi => ?_, fun v hv => ?_, fun r hr2 => ?_⟩
  · obtain ⟨a, rest, hrem, -⟩ := i1 hi
    rw [hrem]; simp
  · obtain ⟨a, rest, hrem, -⟩ := i2 hi
    rw [hrem]; simp
  · have := hm.2 v (by rw [e1]; exact List.mem_append_right _ hv)
    omega
  · have := hr.2 r (by rw [e2]; exact List.mem_append_right _ hr2)
    omega

theorem sweep_next_vma_pos_cons {s : sweep_state} {v : vm_area_struct}
    {rest : List vm_area_struct} (h : s.vma_iter = v :: rest) :
    sweep_next_vma_pos s = if s.in_vmas = true then v.vm_end else v.vm_start := by
  simp [sweep_next_vma_pos, h]

theorem sweep_next_ss_vma_pos_cons {s : sweep_state} {r : snapshot_vma}
    {rest : List snapshot_vma} (h : s.ss_vma_iter = r :: rest) :
    sweep_next_ss_vma_pos s = if s.in_ss_vmas = true then r.vm_end else r.vm_start := by
  simp [sweep_next_ss_vma_pos, h]

theorem sweep_cursor_le_vma_pos {mmap : List vm_area_struct} {all_vmas : List snapshot_vma}
    {s : sweep_state} (h : sweep_inv mmap all_vmas s) (hne : s.vma_iter ≠ []) :
    s.cursor ≤ sweep_next_vma_pos s := by
  obtain ⟨⟨p1, e1, -, i1, o1⟩, -⟩ := h
  cases hv : s.vma_iter with
  | nil => exact absurd hv hne
  | cons v rest =>
    rw [sweep_next_vma_pos_cons hv]
    cases hi : s.in_vmas
    · have := o1 hi v (by rw [hv]; exact List.mem_cons_self _ _)
      simpa using this
    · obtain ⟨a, rest2, hrem, ha1, ha2⟩ := i1 hi
      rw [hv] at hrem
      cases hrem
      simp; omega

theorem sweep_cursor_le_ss_vma_pos {mmap : List vm_area_struct} {all_vmas : List snapshot_vma}
    {s : sweep_state} (h : sweep_inv mmap all_vmas s) (hne : s.ss_vma_iter ≠ []) :
    s.cursor ≤ sweep_next_ss_vma_pos s := by
  obtain ⟨-, ⟨p1, e1, -, i1, o1⟩, -⟩ := h
  cases hv : s.ss_vma_iter with
  | nil => exact absurd hv hne
  | cons v rest =>
    rw [sweep_next_ss_vma_pos_cons hv]
    cases hi : s.in_ss_vmas
    · have := o1 hi v (by rw [hv]; exact List.mem_cons_self _ _)
      simpa using this
    · obtain ⟨a, rest2, hrem, ha1, ha2⟩ := i1 hi
      rw [hv] at hrem
      cases hrem
      simp; omega

theorem sweep_cursor_le_min {mmap : List vm_area_struct} {all_vmas : List snapshot_vma}
    {s : sweep_state} (hm : ascending_mappings mmap) (hr : ascending_recorded all_vmas)
    (h : sweep_inv mmap all_vmas s) (hne : ¬ (s.vma_iter = [] ∧ s.ss_vma_iter = [])) :
    s.cursor ≤ min (sweep_next_vma_pos s) (sweep_next_ss_vma_pos s) := by
  have hb := sweep_inv_bounded hm hr h
  by_cases h1 : s.vma_iter = [] <;> by_cases h2 : s.ss_vma_iter = []
  · exact absurd ⟨h1, h2⟩ hne
  · have a := sweep_cursor_le_ss_vma_pos h h2
    have b := sweep_next_ss_vma_pos_lt hb h2
    have c : sweep_next_vma_pos s = ULONG_MAX := by simp [sweep_next_vma_pos, h1]
    rw [c]
    exact Nat.le_min.2 ⟨by omega, a⟩
  · have a := sweep_cursor_le_vma_pos h h1
    have b := sweep_next_vma_pos_lt hb h1
    have c : sweep_next_ss_vma_pos s = ULONG_MAX := by simp [sweep_next_ss_vma_pos, h2]
    rw [c]
    exact Nat.le_min.2 ⟨a, by omega⟩
  · exact Nat.le_min.2 ⟨sweep_cursor_le_vma_pos h h1, sweep_cursor_le_ss_vma_pos h h2⟩

/-- Between the cursor and the next boundary the two flags of the sweep say
which lists cover an address. -/
theorem sweep_flags_pointwise {mmap : List vm_area_struct} {all_vmas : List snapshot_vma}
    {s : sweep_state} (hm : ascending_mappings mmap) (hr : ascending_recorded all_vmas)
    (h : sweep_inv mmap all_vmas s) {x : Nat} (hcx : s.cursor ≤ x)
    (hx : x < min (sweep_next_vma_pos s) (sweep_next_ss_vma_pos s)) :
    (in_mappings mmap x ↔ s.in_vmas = true) ∧ (in_recorded all_vmas x ↔ s.in_ss_vmas = true) := by
  constructor
  · refine side_inv_covers hm h.1 hcx (fun a rest hrem => ?_)
    have := sweep_next_vma_pos_cons hrem
    have := Nat.min_le_left (sweep_next_vma_pos s) (sweep_next_ss_vma_pos s)
    omega
  · refine side_inv_covers hr h.2.1 hcx (fun a rest hrem => ?_)
    have := sweep_next_ss_vma_pos_cons hrem
    have := Nat.min_le_right (sweep_next_vma_pos s) (sweep_next_ss_vma_pos s)
    omega

theorem side_inv_head_mem {α : Type} {lo hi : α → Nat} {full rest : List α} {a : α}
    {inside : Bool} {c : Nat} (h : side_inv lo hi full (a :: rest) inside c) : a ∈ full := by
  obtain ⟨passed, hfull, -⟩ := h
  rw [hfull]
  exact List.mem_append_right _ (List.mem_cons_self _ _)

theorem sweep_min_cases (s : sweep_state) :
    min (sweep_next_vma_pos s) (sweep_next_ss_vma_pos s) = sweep_next_vma_pos s ∨
      min (sweep_next_vma_pos s) (sweep_next_ss_vma_pos s) = sweep_next_ss_vma_pos s := by
  rcases Nat.le_total (sweep_next_vma_pos s) (sweep_next_ss_vma_pos s) with h | h
  · left; exact Nat.min_eq_left h
  · right; exact Nat.min_eq_right h

theorem sweep_next_cursor (all_vmas : List snapshot_vma) (s : sweep_state) :
    (sweep_next all_vmas s).cursor = min (sweep_next_vma_pos s) (sweep_next_ss_vma_pos s) :=
  rfl

theorem sweep_next_res (all_vmas : List snapshot_vma) (s : sweep_state) :
    (sweep_next all_vmas s).res = s.res := rfl

/-- The loop invariant of `restore_vmas` holds again after the flags, the
iterators and the cursor were advanced. -/
theorem sweep_inv_next {mmap : List vm_area_struct} {all_vmas : List snapshot_vma}
    {s : sweep_state} (hm : ascending_mappings mmap) (hr : ascending_recorded all_vmas)
    (h : sweep_inv mmap all_vmas s) (hne : ¬ (s.vma_iter = [] ∧ s.ss_vma_iter = [])) :
    sweep_inv mmap all_vmas (sweep_next all_vmas s) := by
  have hb := sweep_inv_bounded hm hr h
  have hlt := sweep_min_lt hb hne
  have hcn := sweep_cursor_le_min hm hr h hne
  have hvs := sweep_next_vma_side all_vmas s hlt
  have hrs := sweep_next_ss_side all_vmas s hlt
  have hmin := sweep_min_cases s
  obtain ⟨h1, h2, h3, h4, h5⟩ := h
  refine ⟨?_, ?_, ?_, ?_, by rw [sweep_next_res]; exact h5⟩
  · rw [sweep_next_cursor]
    rcases hvs with ⟨e0, v, vs, e, ⟨a1, a2, a3, a4⟩ | ⟨a1, a2, a3, a4⟩⟩ | ⟨a0, a1, a2⟩
    · rw [a3, a4, e0, a2]
      rw [e, a1] at h1
      exact side_inv_enter hm h1
    · rw [a3, a4, e0, a2]
      rw [e, a1] at h1
      exact side_inv_leave hm h1
    · rw [a1, a2]
      refine side_inv_stay hm h1 hcn (fun a rest hrem => ?_)
      rw [← sweep_next_vma_pos_cons hrem]
      exact a0
  · rw [sweep_next_cursor]
    rcases hrs with ⟨e0, v, vs, e, ⟨a1, a2, a3, a4⟩ | ⟨a1, a2, a3, a4⟩⟩ | ⟨a0, a1, a2⟩
    · rw [a3, a4, e0, a2]
      rw [e, a1] at h2
      exact side_inv_enter hr h2
    · rw [a3, a4, e0, a2]
      rw [e, a1] at h2
      exact side_inv_leave hr h2
    · rw [a1, a2]
      refine side_inv_stay hr h2 hcn (fun a rest hrem => ?_)
      rw [← sweep_next_ss_vma_pos_cons hrem]
      exact a0
  · intro hiv his
    rw [sweep_next_cursor]
    rcases hvs with ⟨e0, v, vs, e, ⟨a1, a2, a3, a4⟩ | ⟨a1, a2, a3, a4⟩⟩ | ⟨a0, a1, a2⟩
    · left
      exact ⟨v, vs, a4, by rw [e0, a2]⟩
    · rw [a3] at hiv; cases hiv
    · right
      rcases hrs with ⟨e0, r, rs, e, ⟨b1, b2, b3, b4⟩ | ⟨b1, b2, b3, b4⟩⟩ | ⟨b0, b1, b2⟩
      · rw [b3] at his; cases his
      · rw [e, b1] at h2
        have hmem := side_inv_head_mem h2
        have hne2 := (hr.2 r hmem).1
        refine ⟨r, hmem, ?_, ?_⟩ <;> rw [e0, b2] <;> omega
      · rcases hmin with hmin | hmin <;> omega
  · intro hiv his
    rw [sweep_next_cursor]
    rcases hrs with ⟨e0, r, rs, e, ⟨a1, a2, a3, a4⟩ | ⟨a1, a2, a3, a4⟩⟩ | ⟨a0, a1, a2⟩
    · left
      exact ⟨r, rs, a4, by rw [e0, a2]⟩
    · rw [a3] at his; cases his
    · right
      rcases hvs with ⟨e0, v, vs, e, ⟨b1, b2, b3, b4⟩ | ⟨b1, b2, b3, b4⟩⟩ | ⟨b0, b1, b2⟩
      · rw [b3] at hiv; cases hiv
      · rw [e, b1] at h1
        have hmem := side_inv_head_mem h1
        have hne2 := (hm.2 v hmem).1
        refine ⟨v, hmem, ?_, ?_⟩ <;> rw [e0, b2] <;> omega
      · rcases hmin with hmin | hmin <;> omega

/-- The interval the sweep unmaps is a maximal interval of a current mapping
outside the recorded mappings. -/
theorem sweep_unmap_gap {mmap : List vm_area_struct} {all_vmas : List snapshot_vma}
    {s : sweep_state} (hm : ascending_mappings mmap) (hr : ascending_recorded all_vmas)
    (h : sweep_inv mmap all_vmas s) (hne : ¬ (s.vma_iter = [] ∧ s.ss_vma_iter = []))
    (hn : min (sweep_next_vma_pos s) (sweep_next_ss_vma_pos s) ≠ s.cursor)
    (hiv : s.in_vmas = true) (his : s.in_ss_vmas = false) :
    ∃ v ∈ mmap, maximal_gap v.vm_start v.vm_end (in_recorded all_vmas) s.cursor
      (min (sweep_next_vma_pos s) (sweep_next_ss_vma_pos s)) := by
  have hb := sweep_inv_bounded hm hr h
  have hlt := sweep_min_lt hb hne
  have hcn := sweep_cursor_le_min hm hr h hne
  have hmin := sweep_min_cases s
  have hpt := fun x (h1 : s.cursor ≤ x)
    (h2 : x < min (sweep_next_vma_pos s) (sweep_next_ss_vma_pos s)) =>
    (sweep_flags_pointwise hm hr h h1 h2).2
  obtain ⟨h1, h2, h3, h4, h5⟩ := h
  obtain ⟨passed, hfull, hpassed, hin, -⟩ := h1
  obtain ⟨v, rest, hrem, hv1, hv2⟩ := hin hiv
  have hvmem : v ∈ mmap := by
    rw [hfull, hrem]; exact List.mem_append_right _ (List.mem_cons_self _ _)
  have hnv : sweep_next_vma_pos s = v.vm_end := by
    rw [sweep_next_vma_pos_cons hrem, hiv]; simp
  refine ⟨v, hvmem, hv1, by omega, ?_, ?_, ?_, ?_⟩
  · have := Nat.min_le_left (sweep_next_vma_pos s) (sweep_next_ss_vma_pos s)
    omega
  · intro x hx1 hx2 hcov
    have := (hpt x hx1 hx2).1 hcov
    rw [his] at this
    cases this
  · rcases h3 hiv his with ⟨v2, rest2, e, hc⟩ | hc
    · rw [hrem] at e
      cases e
      left; exact hc
    · right; exact hc
  · rcases hmin with hmin | hmin
    · left; rw [hmin, hnv]
    · by_cases heq : sweep_next_ss_vma_pos s = v.vm_end
      · left; rw [hmin, heq]
      · right
        cases hrs : s.ss_vma_iter with
        | nil =>
          have : sweep_next_ss_vma_pos s = ULONG_MAX := by simp [sweep_next_ss_vma_pos, hrs]
          omega
        | cons r rs =>
          have hns := sweep_next_ss_vma_pos_cons hrs
          rw [his] at hns
          simp only [Bool.false_eq_true, if_false] at hns
          rw [hrs] at h2
          have hmem := side_inv_head_mem h2
          have hne2 := (hr.2 r hmem).1
          exact ⟨r, hmem, by omega, by omega⟩

/-- The interval the sweep finds missing is a maximal interval of the current
recorded mapping outside the current mappings. -/
theorem sweep_missing_gap {mmap : List vm_area_struct} {all_vmas : List snapshot_vma}
    {s : sweep_state} (hm : ascending_mappings mmap) (hr : ascending_recorded all_vmas)
    (h : sweep_inv mmap all_vmas s) (hne : ¬ (s.vma_iter = [] ∧ s.ss_vma_iter = []))
    (hn : min (sweep_next_vma_pos s) (sweep_next_ss_vma_pos s) ≠ s.cursor)
    (hiv : s.in_vmas = false) (his : s.in_ss_vmas = true) :
    ∃ r rest, s.ss_vma_iter = r :: rest ∧ r ∈ all_vmas ∧
      maximal_gap r.vm_start r.vm_end (in_mappings mmap) s.cursor
        (min (sweep_next_vma_pos s) (sweep_next_ss_vma_pos s)) := by
  have hb := sweep_inv_bounded hm hr h
  have hlt := sweep_min_lt hb hne
  have hcn := sweep_cursor_le_min hm hr h hne
  have hmin := sweep_min_cases s
  have hpt := fun x (h1 : s.cursor ≤ x)
    (h2 : x < min (sweep_next_vma_pos s) (sweep_next_ss_vma_pos s)) =>
    (sweep_flags_pointwise hm hr h h1 h2).1
  obtain ⟨h1, h2, h3, h4, h5⟩ := h
  obtain ⟨passed, hfull, hpassed, hin, -⟩ := h2
  obtain ⟨r, rest, hrem, hv1, hv2⟩ := hin his
  have hrmem : r ∈ all_vmas := by
    rw [hfull, hrem]; exact List.mem_append_right _ (List.mem_cons_self _ _)
  have hns : sweep_next_ss_vma_pos s = r.vm_end := by
    rw [sweep_next_ss_vma_pos_cons hrem, his]; simp
  refine ⟨r, rest, hrem, hrmem, hv1, by omega, ?_, ?_, ?_, ?_⟩
  · have := Nat.min_le_right (sweep_next_vma_pos s) (sweep_next_ss_vma_pos s)
    omega
  · intro x hx1 hx2 hcov
    have := (hpt x hx1 hx2).1 hcov
    rw [hiv] at this
    cases this
  · rcases h4 hiv his with ⟨r2, rest2, e, hc⟩ | hc
    · rw [hrem] at e
      cases e
      left; exact hc
    · right; exact hc
  · rcases hmin with hmin | hmin
    · by_cases heq : sweep_next_vma_pos s = r.vm_end
      · left; rw [hmin, heq]
      · right
        cases hvs : s.vma_iter with
        | nil =>
          have : sweep_next_vma_pos s = ULONG_MAX := by simp [sweep_next_vma_pos, hvs]
          omega
        | cons v vs =>
          have hnv := sweep_next_vma_pos_cons hvs
          rw [hiv] at hnv
          simp only [Bool.false_eq_true, if_false] at hnv
          rw [hvs] at h1
          have hmem := side_inv_head_mem h1
          have hne2 := (hm.2 v hmem).1
          exact ⟨v, hmem, by omega, by omega⟩
    · left; rw [hmin, hns]

theorem ulong_sub_eq {n c : Nat} (h1 : c ≤ n) (h2 : n < ULONG_MAX) : ulong_sub n c = n - c := by
  unfold ulong_sub
  unfold ULONG_MAX at h2
  norm_num at h2 ⊢
  omega

theorem IS_ERR_eq_false {c : Nat} (h : c + 4095 ≤ ULONG_MAX) : IS_ERR c = false := by
  unfold IS_ERR
  unfold ULONG_MAX at h ⊢
  norm_num at h ⊢
  omega

theorem aligned_le {x : Nat} (h1 : x < ULONG_MAX) (h2 : x % PAGE_SIZE = 0) :
    x + 4095 ≤ ULONG_MAX := by
  unfold ULONG_MAX at h1 ⊢
  unfold PAGE_SIZE at h2
  norm_num at h1 ⊢
  omega

theorem sweep_min_aligned {mmap : List vm_area_struct} {all_vmas : List snapshot_vma}
    {s : sweep_state} (hm : ascending_mappings mmap) (hr : ascending_recorded all_vmas)
    (h : sweep_inv mmap all_vmas s) (hne : ¬ (s.vma_iter = [] ∧ s.ss_vma_iter = [])) :
    min (sweep_next_vma_pos s) (sweep_next_ss_vma_pos s) + 4095 ≤ ULONG_MAX := by
  have hb := sweep_inv_bounded hm hr h
  have hlt := sweep_min_lt hb hne
  apply aligned_le hlt
  obtain ⟨⟨p1, e1, -⟩, ⟨p2, e2, -⟩, -⟩ := h
  rcases sweep_min_cases s with hmin | hmin <;> rw [hmin]
  · cases hv : s.vma_iter with
    | nil =>
      have : sweep_next_vma_pos s = ULONG_MAX := by simp [sweep_next_vma_pos, hv]
      omega
    | cons v vs =>
      have := hm.2 v (by rw [e1, hv]; exact List.mem_append_right _ (List.mem_cons_self _ _))
      rw [sweep_next_vma_pos_cons hv]
      split <;> omega
  · cases hv : s.ss_vma_iter with
    | nil =>
      have : sweep_next_ss_vma_pos s = ULONG_MAX := by simp [sweep_next_ss_vma_pos, hv]
      omega
    | cons v vs =>
      have := hr.2 v (by rw [e2, hv]; exact List.mem_append_right _ (List.mem_cons_self _ _))
      rw [sweep_next_ss_vma_pos_cons hv]
      split <;> omega

theorem vmas_after_keeps {effect : List vm_area_struct → List vm_area_struct}
    (h : ∀ vmas, effect vmas = vmas) (vmas : List vm_area_struct) :
    vmas_after effect vmas = vmas := by
  cases vmas with
  | nil => rfl
  | cons v rest => exact h _

theorem keeps_mappings_munmap {k : kernel} (hs : keeps_mappings k) (t : List event) (a l : Nat)
    (vmas : List vm_area_struct) : vmas_after (k.vm_munmap_vmas t a l) vmas = vmas :=
  vmas_after_keeps (hs.1 t a l) vmas

theorem keeps_mappings_mmap {k : kernel} (hs : keeps_mappings k) (t : List event)
    (a l p f : Nat) (vmas : List vm_area_struct) :
    vmas_after (k.vm_mmap_vmas t a l p f) vmas = vmas :=
  vmas_after_keeps (hs.2 t a l p f) vmas

theorem keeps_mappings_keep (k : kernel) : keeps_mappings (keep_mappings k) :=
  ⟨fun _ _ _ _ => rfl, fun _ _ _ _ _ _ => rfl⟩

/-- With every kernel call succeeding and leaving the mappings as they are, one
iteration of the loop of `restore_vmas` appends its events and advances. -/
theorem restore_vmas_body_ok {k : kernel} {mmap : List vm_area_struct}
    {all_vmas : List snapshot_vma} {s : sweep_state} (hs : keeps_mappings k)
    (hunmap : ∀ t a l, k.vm_munmap t a l = 0) (hmmap : ∀ t a l p f, k.vm_mmap t a l p f = a)
    (hm : ascending_mappings mmap) (hr : ascending_recorded all_vmas)
    (h : sweep_inv mmap all_vmas s) (hne : ¬ (s.vma_iter = [] ∧ s.ss_vma_iter = [])) :
    restore_vmas_body k all_vmas s =
      Sum.inl (sweep_next all_vmas { s with trace := s.trace ++ sweep_events s }) := by
  have hb := sweep_inv_bounded hm hr h
  have hlt := sweep_min_lt hb hne
  have hcn := sweep_cursor_le_min hm hr h hne
  have hal := sweep_min_aligned hm hr h hne
  have hsub := ulong_sub_eq hcn hlt
  have hres : s.res = 0 := h.2.2.2.2
  have hmiss := sweep_missing_gap hm hr h hne
  cases s with
  | mk vs rs c is iv res tr =>
  simp only at hres hsub hmiss hcn hal
  subst hres
  unfold restore_vmas_body sweep_events
  simp only
  split
  · simp only [hunmap, ne_eq, not_true_eq_false, if_false, hsub, keeps_mappings_munmap hs]
    rfl
  · split
    · rename_i hc2
      obtain ⟨r, rest, hrem, -, -⟩ := hmiss hc2.1 hc2.2.1 hc2.2.2
      have hiserr : IS_ERR c = false := IS_ERR_eq_false (by omega)
      subst hrem
      simp only [hmmap, hiserr, hsub, keeps_mappings_mmap hs]
      cases hanon : r.is_anonymous_private
      · simp only [Bool.false_eq_true, if_false]
        rfl
      · simp only [if_true, ne_eq, not_true_eq_false, decide_False, Bool.or_self,
          Bool.false_eq_true, if_false]
        rfl
    · simp only [List.append_nil]
      rfl

theorem side_inv_nil {α : Type} {lo hi : α → Nat} {full : List α} {inside : Bool} {c x : Nat}
    (h : side_inv lo hi full [] inside c) (hcx : c ≤ x) : ¬ covers lo hi full x := by
  obtain ⟨passed, hfull, hpassed, -, -⟩ := h
  rintro ⟨a, ha, ha1, ha2⟩
  rw [hfull, List.append_nil] at ha
  have := hpassed a ha
  omega

/-- Every event one iteration adds is one the reconciliation allows. -/
theorem sweep_events_ok {mmap : List vm_area_struct} {all_vmas : List snapshot_vma}
    {s : sweep_state} (hm : ascending_mappings mmap) (hr : ascending_recorded all_vmas)
    (h : sweep_inv mmap all_vmas s) (hne : ¬ (s.vma_iter = [] ∧ s.ss_vma_iter = [])) :
    ∀ e ∈ sweep_events s, sweep_event_ok mmap all_vmas e := by
  have hcn := sweep_cursor_le_min hm hr h hne
  have hadd : s.cursor + (min (sweep_next_vma_pos s) (sweep_next_ss_vma_pos s) - s.cursor) =
      min (sweep_next_vma_pos s) (sweep_next_ss_vma_pos s) := by omega
  intro e he
  unfold sweep_events at he
  split at he
  · rename_i hc
    rw [List.mem_singleton.1 he]
    simp only [sweep_event_ok, hadd]
    exact sweep_unmap_gap hm hr h hne hc.1 hc.2.1 hc.2.2
  · split at he
    · rename_i hc
      obtain ⟨r, rest, hrem, hmem, hgap⟩ := sweep_missing_gap hm hr h hne hc.1 hc.2.1 hc.2.2
      rw [hrem] at he
      simp only at he
      split at he
      · rename_i hanon
        rw [List.mem_singleton.1 he]
        simp only [sweep_event_ok, hadd]
        exact ⟨trivial, r, hmem, hanon, rfl, hgap⟩
      · rename_i hanon
        rw [List.mem_singleton.1 he]
        simp only [sweep_event_ok]
        exact ⟨r, hmem, by simpa using hanon, hgap⟩
    · cases he

/-- The events of one iteration cover every address between the cursor and the
next boundary as the reconciliation requires. -/
theorem sweep_events_complete {mmap : List vm_area_struct} {all_vmas : List snapshot_vma}
    {s : sweep_state} (hm : ascending_mappings mmap) (hr : ascending_recorded all_vmas)
    (h : sweep_inv mmap all_vmas s) (hne : ¬ (s.vma_iter = [] ∧ s.ss_vma_iter = []))
    {x : Nat} (hcx : s.cursor ≤ x)
    (hx : x < min (sweep_next_vma_pos s) (sweep_next_ss_vma_pos s)) :
    sweep_complete mmap all_vmas (sweep_events s) x := by
  have hpt := sweep_flags_pointwise hm hr h hcx hx
  have hnc : min (sweep_next_vma_pos s) (sweep_next_ss_vma_pos s) ≠ s.cursor := by omega
  constructor
  · intro h1 h2
    have hiv : s.in_vmas = true := hpt.1.1 h1
    have his : s.in_ss_vmas = false := by
      cases hb : s.in_ss_vmas
      · rfl
      · exact absurd (hpt.2.2 hb) h2
    refine ⟨s.cursor, min (sweep_next_vma_pos s) (sweep_next_ss_vma_pos s) - s.cursor, ?_,
      hcx, by omega⟩
    unfold sweep_events
    rw [if_pos ⟨hnc, hiv, his⟩]
    exact List.mem_singleton.2 rfl
  · intro r hrm hr1 hr2 hnm
    have his : s.in_ss_vmas = true := hpt.2.1 ⟨r, hrm, hr1, hr2⟩
    have hiv : s.in_vmas = false := by
      cases hb : s.in_vmas
      · rfl
      · exact absurd (hpt.1.2 hb) hnm
    obtain ⟨r0, rest, hrem, hmem, hgap⟩ := sweep_missing_gap hm hr h hne hnc hiv his
    have hr0 : r0 = r := by
      obtain ⟨g1, g2, g3, -⟩ := hgap
      exact ascending_ranges_unique hr hmem hrm (x := x) ⟨by omega, by omega⟩ ⟨hr1, hr2⟩
    subst hr0
    have hne1 : ¬ (min (sweep_next_vma_pos s) (sweep_next_ss_vma_pos s) ≠ s.cursor ∧
        s.in_vmas = true ∧ s.in_ss_vmas = false) := by
      rw [hiv]; simp
    constructor
    · intro hanon
      refine ⟨s.cursor, min (sweep_next_vma_pos s) (sweep_next_ss_vma_pos s) - s.cursor, ?_,
        hcx, by omega⟩
      unfold sweep_events
      rw [if_neg hne1, if_pos ⟨hnc, hiv, his⟩, hrem]
      simp [hanon]
    · intro hanon
      refine ⟨s.cursor, min (sweep_next_vma_pos s) (sweep_next_ss_vma_pos s), ?_, hcx, hx⟩
      unfold sweep_events
      rw [if_neg hne1, if_pos ⟨hnc, hiv, his⟩, hrem]
      simp [hanon]

theorem sweep_complete_mono {mmap : List vm_area_struct} {all_vmas : List snapshot_vma}
    {e1 e2 : List event} {x : Nat} (hsub : ∀ e ∈ e1, e ∈ e2)
    (h : sweep_complete mmap all_vmas e1 x) : sweep_complete mmap all_vmas e2 x := by
  obtain ⟨h1, h2⟩ := h
  constructor
  · intro a b
    obtain ⟨p, q, h3, h4⟩ := h1 a b
    exact ⟨p, q, hsub _ h3, h4⟩
  · intro r hrm hr1 hr2 hnm
    obtain ⟨g1, g2⟩ := h2 r hrm hr1 hr2 hnm
    constructor
    · intro hanon
      obtain ⟨p, q, h3, h4⟩ := g1 hanon
      exact ⟨p, q, hsub _ h3, h4⟩
    · intro hanon
      obtain ⟨p, q, h3, h4⟩ := g2 hanon
      exact ⟨p, q, hsub _ h3, h4⟩

/-- With every kernel call succeeding and leaving the mappings as they are,
whatever the loop of `restore_vmas` returns is the result 0 with a trace
extended by allowed events that cover every address from the cursor on. -/
theorem restore_vmas_loop_correct {k : kernel} {mmap : List vm_area_struct}
    {all_vmas : List snapshot_vma} (hs : keeps_mappings k)
    (hunmap : ∀ t a l, k.vm_munmap t a l = 0) (hmmap : ∀ t a l p f, k.vm_mmap t a l p f = a)
    (hm : ascending_mappings mmap) (hr : ascending_recorded all_vmas) :
    ∀ (fuel : Nat) (s : sweep_state) (r : Int × List event),
      sweep_inv mmap all_vmas s → restore_vmas_loop k all_vmas fuel s = some r →
      r.1 = 0 ∧ ∃ new, r.2 = s.trace ++ new ∧ (∀ e ∈ new, sweep_event_ok mmap all_vmas e) ∧
        ∀ x, s.cursor ≤ x → sweep_complete mmap all_vmas new x := by
  have base : ∀ (s : sweep_state) (r : Int × List event), sweep_inv mmap all_vmas s →
      s.vma_iter = [] → s.ss_vma_iter = [] → some (0, s.trace) = some r →
      r.1 = 0 ∧ ∃ new, r.2 = s.trace ++ new ∧ (∀ e ∈ new, sweep_event_ok mmap all_vmas e) ∧
        ∀ x, s.cursor ≤ x → sweep_complete mmap all_vmas new x := by
    intro s r hinv h1 h2 hr0
    cases hr0
    refine ⟨rfl, [], (by simp), fun e he => (by cases he), fun x hx => ?_⟩
    have hv := hinv.1
    have hs := hinv.2.1
    rw [h1] at hv
    rw [h2] at hs
    exact ⟨fun a => absurd a (side_inv_nil hv hx),
      fun r hrm hr1 hr2 => absurd ⟨r, hrm, hr1, hr2⟩ (side_inv_nil hs hx)⟩
  intro fuel
  induction fuel with
  | zero =>
    intro s r hinv hloop
    unfold restore_vmas_loop at hloop
    by_cases hdone : s.vma_iter = [] ∧ s.ss_vma_iter = []
    · simp only [hdone.1, hdone.2, List.isEmpty_nil, Bool.and_self, if_true] at hloop
      exact base s r hinv hdone.1 hdone.2 hloop
    · have : (s.vma_iter.isEmpty && s.ss_vma_iter.isEmpty) = false := by
        cases hv : s.vma_iter <;> cases hs : s.ss_vma_iter <;> simp_all
      simp [this] at hloop
  | succ n ih =>
    intro s r hinv hloop
    unfold restore_vmas_loop at hloop
    by_cases hdone : s.vma_iter = [] ∧ s.ss_vma_iter = []
    · simp only [hdone.1, hdone.2, List.isEmpty_nil, Bool.and_self, if_true] at hloop
      exact base s r hinv hdone.1 hdone.2 hloop
    · have : (s.vma_iter.isEmpty && s.ss_vma_iter.isEmpty) = false := by
        cases hv : s.vma_iter <;> cases hs : s.ss_vma_iter <;> simp_all
      simp only [this, Bool.false_eq_true, if_false,
        restore_vmas_body_ok hs hunmap hmmap hm hr hinv hdone] at hloop
      have hinv2 : sweep_inv mmap all_vmas { s with trace := s.trace ++ sweep_events s } := hinv
      have hinv3 := sweep_inv_next hm hr hinv2 hdone
      obtain ⟨g1, new, g2, g3, g4⟩ := ih _ r hinv3 hloop
      refine ⟨g1, sweep_events s ++ new, ?_, ?_, ?_⟩
      · rw [g2]
        show (s.trace ++ sweep_events s) ++ new = _
        rw [List.append_assoc]
      · intro e he
        rcases List.mem_append.1 he with he | he
        · exact sweep_events_ok hm hr hinv hdone e he
        · exact g3 e he
      · intro x hx
        by_cases hxn : x < min (sweep_next_vma_pos s) (sweep_next_ss_vma_pos s)
        · exact sweep_complete_mono (fun e he => List.mem_append_left _ he)
            (sweep_events_complete hm hr hinv hdone hx hxn)
        · exact sweep_complete_mono (fun e he => List.mem_append_right _ he)
            (g4 x (by rw [sweep_next_cursor]; exact Nat.le_of_not_lt hxn))

theorem restore_vmas_body_inl {k : kernel} {all_vmas : List snapshot_vma} {s s2 : sweep_state}
    (hs : keeps_mappings k) (h : restore_vmas_body k all_vmas s = Sum.inl s2) :
    ∃ res trace, s2 = sweep_next all_vmas { s with res := res, trace := trace } := by
  unfold restore_vmas_body at h
  simp only [keeps_mappings_munmap hs, keeps_mappings_mmap hs] at h
  split at h
  · split at h
    · cases h
    · cases h; exact ⟨_, _, rfl⟩
  · split at h
    · split at h
      · split at h
        · cases h
        · cases h; exact ⟨_, _, rfl⟩
      · cases h; exact ⟨_, _, rfl⟩
    · cases h; exact ⟨s.res, s.trace, rfl⟩

/-- When the kernel calls leave the mappings as they are, the loop of
`restore_vmas` returns within as many iterations as the measure of its state,
whatever the calls return. -/
theorem restore_vmas_loop_terminates (k : kernel) (hs : keeps_mappings k)
    (all_vmas : List snapshot_vma) :
    ∀ (fuel : Nat) (s : sweep_state), sweep_bounded s → sweep_measure s ≤ fuel →
      ∃ r, restore_vmas_loop k all_vmas fuel s = some r := by
  intro fuel
  induction fuel with
  | zero =>
    intro s hb hmeas
    unfold restore_vmas_loop
    by_cases hdone : s.vma_iter = [] ∧ s.ss_vma_iter = []
    · simp [hdone.1, hdone.2]
    · have := (sweep_next_bounded all_vmas s hb hdone).2
      omega
  | succ n ih =>
    intro s hb hmeas
    unfold restore_vmas_loop
    by_cases hdone : s.vma_iter = [] ∧ s.ss_vma_iter = []
    · simp [hdone.1, hdone.2]
    · have hne : (s.vma_iter.isEmpty && s.ss_vma_iter.isEmpty) = false := by
        cases hv : s.vma_iter <;> cases hs : s.ss_vma_iter <;> simp_all
      simp only [hne, Bool.false_eq_true, if_false]
      cases hbody : restore_vmas_body k all_vmas s with
      | inr r => exact ⟨r, rfl⟩
      | inl s2 =>
        obtain ⟨res, trace, hs2⟩ := restore_vmas_body_inl hs hbody
        have hb2 : sweep_bounded { s with res := res, trace := trace } := hb
        have hstep := sweep_next_bounded all_vmas { s with res := res, trace := trace } hb2 hdone
        have hm2 : sweep_measure { s with res := res, trace := trace } = sweep_measure s := rfl
        simp only
        rw [hs2]
        exact ih _ hstep.1 (by omega)

/-- Two maximal gaps of the same range that share an address are equal. -/
theorem maximal_gap_unique {lo hi : Nat} {other : Nat → Prop} {a b a2 b2 x : Nat}
    (h1 : maximal_gap lo hi other a b) (h2 : maximal_gap lo hi other a2 b2)
    (hx1 : a ≤ x ∧ x < b) (hx2 : a2 ≤ x ∧ x < b2) : a = a2 ∧ b = b2 := by
  obtain ⟨p1, p2, p3, p4, p5, p6⟩ := h1
  obtain ⟨q1, q2, q3, q4, q5, q6⟩ := h2
  constructor
  · rcases Nat.lt_trichotomy a a2 with h | h | h
    · rcases q5 with q5 | q5
      · omega
      · exact absurd q5 (p4 (a2 - 1) (by omega) (by omega))
    · exact h
    · rcases p5 with p5 | p5
      · omega
      · exact absurd p5 (q4 (a - 1) (by omega) (by omega))
  · rcases Nat.lt_trichotomy b b2 with h | h | h
    · rcases p6 with p6 | p6
      · omega
      · exact absurd p6 (q4 b (by omega) (by omega))
    · exact h
    · rcases q6 with q6 | q6
      · omega
      · exact absurd q6 (p4 b2 (by omega) (by omega))

theorem sweep_inv_init {mmap : List vm_area_struct} {all_vmas : List snapshot_vma} :
    sweep_inv mmap all_vmas
      { vma_iter := mmap, ss_vma_iter := all_vmas, cursor := 0, in_ss_vmas := false,
        in_vmas := false, res := 0, trace := [] } := by
  refine ⟨⟨[], rfl, fun a ha => (by cases ha), fun h => (by cases h),
      fun _ a _ => Nat.zero_le _⟩,
    ⟨[], rfl, fun a ha => (by cases ha), fun h => (by cases h), fun _ a _ => Nat.zero_le _⟩,
    fun h => (by cases h), fun _ h => (by cases h), rfl⟩

theorem sweep_bounded_init {mmap : List vm_area_struct} {all_vmas : List snapshot_vma}
    (hm : ∀ v ∈ mmap, v.vm_start < ULONG_MAX ∧ v.vm_end < ULONG_MAX)
    (hr : ∀ r ∈ all_vmas, r.vm_start < ULONG_MAX ∧ r.vm_end < ULONG_MAX) :
    sweep_bounded
      { vma_iter := mmap, ss_vma_iter := all_vmas, cursor := 0, in_ss_vmas := false,
        in_vmas := false, res := 0, trace := [] } :=
  ⟨fun h => (by cases h), fun h => (by cases h), hm, hr⟩

/-- When the kernel calls leave the mappings as they are, the function
`restore_vmas` returns once the fuel covers two iterations per mapping and per
record, whatever the calls return. -/
theorem restore_vmas_terminates (k : kernel) (hs : keeps_mappings k) (fuel : Nat)
    (mmap : List vm_area_struct) (data : task_data)
    (hm : ∀ v ∈ mmap, v.vm_start < ULONG_MAX ∧ v.vm_end < ULONG_MAX)
    (hr : ∀ r ∈ data.ss.all_vmas, r.vm_start < ULONG_MAX ∧ r.vm_end < ULONG_MAX)
    (hfuel : 2 * (mmap.length + data.ss.all_vmas.length) ≤ fuel) :
    ∃ r, restore_vmas k fuel mmap data = some r := by
  unfold restore_vmas
  apply restore_vmas_loop_terminates k hs _ fuel _ (sweep_bounded_init hm hr)
  simp only [sweep_measure, Bool.false_eq_true, if_false]
  omega

/-- With every kernel call succeeding and leaving the mappings as they are,
`restore_vmas` over ascending sequences returns 0 once the fuel covers two
iterations per mapping and per record; every event of its trace is one the
reconciliation allows, and the events cover every address as it requires. -/
theorem restore_vmas_sweep (k : kernel) (hs : keeps_mappings k) (fuel : Nat)
    (mmap : List vm_area_struct) (data : task_data)
    (hm : ascending_mappings mmap) (hr : ascending_recorded data.ss.all_vmas)
    (hunmap : ∀ t a l, k.vm_munmap t a l = 0) (hmmap : ∀ t a l p f, k.vm_mmap t a l p f = a)
    (hfuel : 2 * (mmap.length + data.ss.all_vmas.length) ≤ fuel) :
    ∃ trace, restore_vmas k fuel mmap data = some (0, trace) ∧
      (∀ e ∈ trace, sweep_event_ok mmap data.ss.all_vmas e) ∧
      ∀ x, sweep_complete mmap data.ss.all_vmas trace x := by
  have hmb : ∀ v ∈ mmap, v.vm_start < ULONG_MAX ∧ v.vm_end < ULONG_MAX := fun v hv => by
    have := hm.2 v hv; omega
  have hrb : ∀ r ∈ data.ss.all_vmas, r.vm_start < ULONG_MAX ∧ r.vm_end < ULONG_MAX :=
    fun r hr2 => by have := hr.2 r hr2; omega
  obtain ⟨r, hret⟩ := restore_vmas_terminates k hs fuel mmap data hmb hrb hfuel
  have hcorr := restore_vmas_loop_correct hs hunmap hmmap hm hr fuel _ r sweep_inv_init hret
  obtain ⟨hres, new, htrace, hok, hcomplete⟩ := hcorr
  simp only [List.nil_append] at htrace
  obtain ⟨res, trace⟩ := r
  simp only at hres htrace
  subst hres htrace
  exact ⟨trace, hret, hok, fun x => hcomplete x (Nat.zero_le _)⟩

/-- The reconciliation over mappings that stay in place.  For ascending, pairwise
non-overlapping sequences of current and of recorded mappings (non-empty
ranges, page-aligned bounds below `ULONG_MAX`) and a kernel whose `vm_munmap`
and `vm_mmap` calls all succeed and leave the mappings as they are,
`restore_vmas` returns 0 and its trace holds: a `vm_munmap` for exactly the maximal intervals
inside a current mapping and inside no recorded mapping; a private fixed
`vm_mmap` with the recorded protection for exactly the maximal intervals inside
a recorded anonymous-private mapping and inside no current mapping; a `missing
memory` report for exactly such intervals of the recorded mappings that are
not anonymous-private, after which the sweep goes on; nothing else; and no call
on an address that lies in both a current and a recorded mapping. -/
theorem restore_vmas_reconciles (k : kernel) (hs : keeps_mappings k) (fuel : Nat)
    (mmap : List vm_area_struct) (data : task_data)
    (hm : ascending_mappings mmap) (hr : ascending_recorded data.ss.all_vmas)
    (hunmap : ∀ t a l, k.vm_munmap t a l = 0) (hmmap : ∀ t a l p f, k.vm_mmap t a l p f = a)
    (hfuel : 2 * (mmap.length + data.ss.all_vmas.length) ≤ fuel) :
    ∃ trace, restore_vmas k fuel mmap data = some (0, trace) ∧
      (∀ a len, event.munmap a len ∈ trace ↔
        ∃ v ∈ mmap, maximal_gap v.vm_start v.vm_end (in_recorded data.ss.all_vmas) a (a + len)) ∧
      (∀ a len prot flags, event.mmap a len prot flags ∈ trace ↔
        flags = MAP_PRIVATE ||| MAP_FIXED_NOREPLACE ∧
        ∃ r ∈ data.ss.all_vmas, r.is_anonymous_private = true ∧ prot = r.prot ∧
          maximal_gap r.vm_start r.vm_end (in_mappings mmap) a (a + len)) ∧
      (∀ a b, event.fatal_missing a b ∈ trace ↔
        ∃ r ∈ data.ss.all_vmas, r.is_anonymous_private = false ∧
          maximal_gap r.vm_start r.vm_end (in_mappings mmap) a b) ∧
      (∀ e ∈ trace, (∃ a len, e = event.munmap a len) ∨
        (∃ a len prot flags, e = event.mmap a len prot flags) ∨
        (∃ a b, e = event.fatal_missing a b)) ∧
      (∀ a len x, a ≤ x → x < a + len →
        (event.munmap a len ∈ trace ∨ ∃ prot flags, event.mmap a len prot flags ∈ trace) →
        ¬ (in_mappings mmap x ∧ in_recorded data.ss.all_vmas x)) := by
  obtain ⟨trace, hret, hok, hcomplete0⟩ :=
    restore_vmas_sweep k hs fuel mmap data hm hr hunmap hmmap hfuel
  have hcomplete : ∀ x, 0 ≤ x → sweep_complete mmap data.ss.all_vmas trace x :=
    fun x _ => hcomplete0 x
  have hmunmap : ∀ a len, event.munmap a len ∈ trace ↔
      ∃ v ∈ mmap, maximal_gap v.vm_start v.vm_end (in_recorded data.ss.all_vmas) a (a + len) := by
    intro a len
    constructor
    · intro he; exact hok _ he
    · rintro ⟨v, hv, hgap⟩
      have ⟨g1, g2, g3, g4, _⟩ := hgap
      obtain ⟨a2, len2, he, hx1, hx2⟩ := (hcomplete a (Nat.zero_le _)).1
        ⟨v, hv, g1, by omega⟩ (g4 a (le_refl _) g2)
      obtain ⟨v2, hv2, hgap2⟩ := hok _ he
      have hvv : v2 = v := by
        obtain ⟨q1, q2, q3, -⟩ := hgap2
        exact ascending_ranges_unique hm hv2 hv (x := a) ⟨by omega, by omega⟩ ⟨g1, by omega⟩
      subst hvv
      obtain ⟨e1, e2⟩ := maximal_gap_unique hgap2 hgap ⟨hx1, hx2⟩ ⟨le_refl _, g2⟩
      subst e1
      have : len2 = len := by omega
      subst this
      exact he
  have hmmap2 : ∀ a len prot flags, event.mmap a len prot flags ∈ trace ↔
      flags = MAP_PRIVATE ||| MAP_FIXED_NOREPLACE ∧
      ∃ r ∈ data.ss.all_vmas, r.is_anonymous_private = true ∧ prot = r.prot ∧
        maximal_gap r.vm_start r.vm_end (in_mappings mmap) a (a + len) := by
    intro a len prot flags
    constructor
    · intro he; exact hok _ he
    · rintro ⟨hf, r, hrm, hanon, hp, hgap⟩
      have ⟨g1, g2, g3, g4, _⟩ := hgap
      obtain ⟨a2, len2, he, hx1, hx2⟩ := ((hcomplete a (Nat.zero_le _)).2 r hrm g1 (by omega)
        (g4 a (le_refl _) g2)).1 hanon
      obtain ⟨-, r2, hr2, -, -, hgap2⟩ := hok _ he
      have hrr : r2 = r := by
        obtain ⟨q1, q2, q3, -⟩ := hgap2
        exact ascending_ranges_unique hr hr2 hrm (x := a) ⟨by omega, by omega⟩ ⟨g1, by omega⟩
      subst hrr
      obtain ⟨e1, e2⟩ := maximal_gap_unique hgap2 hgap ⟨hx1, hx2⟩ ⟨le_refl _, g2⟩
      subst e1
      have : len2 = len := by omega
      subst this
      rw [hf, hp]
      exact he
  have hmissing : ∀ a b, event.fatal_missing a b ∈ trace ↔
      ∃ r ∈ data.ss.all_vmas, r.is_anonymous_private = false ∧
        maximal_gap r.vm_start r.vm_end (in_mappings mmap) a b := by
    intro a b
    constructor
    · intro he; exact hok _ he
    · rintro ⟨r, hrm, hanon, hgap⟩
      have ⟨g1, g2, g3, g4, _⟩ := hgap
      obtain ⟨a2, b2, he, hx1, hx2⟩ := ((hcomplete a (Nat.zero_le _)).2 r hrm g1 (by omega)
        (g4 a (le_refl _) g2)).2 hanon
      obtain ⟨r2, hr2, -, hgap2⟩ := hok _ he
      have hrr : r2 = r := by
        obtain ⟨q1, q2, q3, -⟩ := hgap2
        exact ascending_ranges_unique hr hr2 hrm (x := a) ⟨by omega, by omega⟩ ⟨g1, by omega⟩
      subst hrr
      obtain ⟨e1, e2⟩ := maximal_gap_unique hgap2 hgap ⟨hx1, hx2⟩ ⟨le_refl _, g2⟩
      subst e1 e2
      exact he
  refine ⟨trace, hret, hmunmap, hmmap2, hmissing, ?_, ?_⟩
  · intro e he
    have := hok e he
    cases e <;> simp [sweep_event_ok] at this ⊢
  · intro a len x hx1 hx2 hcall hboth
    rcases hcall with he | ⟨prot, flags, he⟩
    · obtain ⟨v, -, hgap⟩ := hok _ he
      exact hgap.2.2.2.1 x hx1 hx2 hboth.2
    · obtain ⟨-, r, -, -, -, hgap⟩ := hok _ he
      exact hgap.2.2.2.1 x hx1 hx2 hboth.1

theorem ascending_mappings_one_block : ascending_mappings mmap_one_block := by
  unfold ascending_mappings ascending_ranges mmap_one_block
  simp [ULONG_MAX, PAGE_SIZE]

theorem ascending_recorded_two : ascending_recorded task_two_recorded.ss.all_vmas := by
  unfold ascending_recorded ascending_ranges task_two_recorded
  simp [ULONG_MAX, PAGE_SIZE]

/-! ## Restore: the sweep over mappings the kernel leaves in place -/

theorem same_walk_refl (inside : Bool) (vmas : List vm_area_struct) :
    same_walk inside vmas vmas := by
  unfold same_walk
  split
  · exact ⟨rfl, rfl⟩
  · rfl

theorem same_walk_trans {inside : Bool} {a b c : List vm_area_struct}
    (h1 : same_walk inside a b) (h2 : same_walk inside b c) : same_walk inside a c := by
  unfold same_walk at *
  split
  · rename_i hi
    simp only [hi, if_true] at h1 h2
    exact ⟨h1.1.trans h2.1, h1.2.trans h2.2⟩
  · rename_i hi
    simp only [hi, if_false] at h1 h2
    exact h1.trans h2

theorem same_walk_of_eq {inside : Bool} {a b : List vm_area_struct} (h : a = b) :
    same_walk inside a b := h ▸ same_walk_refl inside a

theorem same_sweep_refl (s : sweep_state) : same_sweep s s :=
  ⟨same_walk_refl _ _, rfl, rfl, rfl, rfl, rfl, rfl⟩

theorem same_sweep_trans {a b c : sweep_state} (h1 : same_sweep a b) (h2 : same_sweep b c) :
    same_sweep a c := by
  obtain ⟨p1, p2, p3, p4, p5, p6, p7⟩ := h1
  obtain ⟨q1, q2, q3, q4, q5, q6, q7⟩ := h2
  refine ⟨same_walk_trans p1 (p5 ▸ q1), p2.trans q2, p3.trans q3, p4.trans q4, p5.trans q5,
    p6.trans q6, p7.trans q7⟩

theorem same_walk_isEmpty {inside : Bool} {a b : List vm_area_struct}
    (h : same_walk inside a b) : a.isEmpty = b.isEmpty := by
  unfold same_walk at h
  split at h
  · cases a <;> cases b <;> simp_all
  · rw [h]

theorem same_sweep_next_vma_pos {s s0 : sweep_state} (h : same_sweep s s0) :
    sweep_next_vma_pos s = sweep_next_vma_pos s0 := by
  obtain ⟨p1, -, -, -, p5, -, -⟩ := h
  unfold sweep_next_vma_pos
  rw [← p5]
  unfold same_walk at p1
  cases hi : s.in_vmas
  · simp only [hi, Bool.false_eq_true, if_false] at p1
    rw [p1]
  · simp only [hi, if_true] at p1
    cases hv : s.vma_iter <;> cases hv0 : s0.vma_iter <;> simp_all

theorem same_sweep_next_ss_vma_pos {s s0 : sweep_state} (h : same_sweep s s0) :
    sweep_next_ss_vma_pos s = sweep_next_ss_vma_pos s0 := by
  obtain ⟨-, p2, -, p4, -, -, -⟩ := h
  unfold sweep_next_ss_vma_pos
  rw [p2, p4]

/-- From one state, the iteration over mappings the kernel changes and the
iteration over mappings it leaves in place return the same value from inside
the loop or hand on states that differ in `vma_iter` at most. -/
theorem restore_vmas_body_keep (k : kernel) (all_vmas : List snapshot_vma) (s : sweep_state) :
    (∀ s2, restore_vmas_body k all_vmas s = Sum.inl s2 →
      ∃ res trace, restore_vmas_body (keep_mappings k) all_vmas s =
          Sum.inl (sweep_next all_vmas { s with res := res, trace := trace }) ∧
        s2 = { sweep_next all_vmas { s with res := res, trace := trace } with
               vma_iter := s2.vma_iter }) ∧
    (∀ r, restore_vmas_body k all_vmas s = Sum.inr r →
      restore_vmas_body (keep_mappings k) all_vmas s = Sum.inr r) := by
  have e1 : ∀ t a l vmas, vmas_after ((keep_mappings k).vm_munmap_vmas t a l) vmas = vmas :=
    fun t a l vmas => keeps_mappings_munmap (keeps_mappings_keep k) t a l vmas
  have e2 : ∀ t a l p f vmas, vmas_after ((keep_mappings k).vm_mmap_vmas t a l p f) vmas = vmas :=
    fun t a l p f vmas => keeps_mappings_mmap (keeps_mappings_keep k) t a l p f vmas
  have e3 : (keep_mappings k).vm_munmap = k.vm_munmap := rfl
  have e4 : (keep_mappings k).vm_mmap = k.vm_mmap := rfl
  constructor
  · intro s2 h
    unfold restore_vmas_body at h ⊢
    simp only [e1, e2, e3, e4]
    simp only at h
    split at h
    · rename_i hc
      rw [if_pos hc]
      split at h
      · cases h
      · rename_i hres
        rw [if_neg hres]
        cases h
        exact ⟨_, _, rfl, rfl⟩
    · rename_i hc
      rw [if_neg hc]
      split at h
      · rename_i hc2
        rw [if_pos hc2]
        split at h
        · rename_i hanon
          rw [if_pos hanon]
          split at h
          · cases h
          · rename_i herr
            rw [if_neg herr]
            cases h
            exact ⟨_, _, rfl, rfl⟩
        · rename_i hanon
          rw [if_neg hanon]
          cases h
          exact ⟨_, _, rfl, rfl⟩
      · rename_i hc2
        rw [if_neg hc2]
        cases h
        exact ⟨s.res, s.trace, rfl, rfl⟩
  · intro r h
    unfold restore_vmas_body at h ⊢
    simp only [e1, e2, e3, e4]
    simp only at h
    split at h
    · rename_i hc
      rw [if_pos hc]
      split at h
      · rename_i hres
        rw [if_pos hres]
        exact h
      · cases h
    · rename_i hc
      rw [if_neg hc]
      split at h
      · rename_i hc2
        rw [if_pos hc2]
        split at h
        · rename_i hanon
          rw [if_pos hanon]
          split at h
          · rename_i herr
            rw [if_pos herr]
            exact h
          · cases h
        · cases h
      · cases h

theorem sweep_advance_same (all_vmas : List snapshot_vma) {s s0 : sweep_state}
    (h : same_sweep s s0) (n1 n2 nc : Nat) :
    same_sweep (sweep_advance all_vmas s s.vma_iter.tail n1 n2 nc)
      (sweep_advance all_vmas s0 s0.vma_iter.tail n1 n2 nc) := by
  obtain ⟨p1, p2, p3, p4, p5, p6, p7⟩ := h
  unfold same_sweep sweep_advance
  simp only [← p2, ← p4, ← p5, ← p6, ← p7, true_and, and_true]
  unfold same_walk at p1 ⊢
  cases hi : s.in_vmas
  · simp only [hi, Bool.false_eq_true, if_false] at p1
    rw [p1]
    split <;> simp
  · simp only [hi, if_true] at p1
    by_cases hn : nc = n1
    · simp [hn, p1.1]
    · simp [hn, p1]

/-- Over mappings the kernel leaves in place, the iteration does the same from
two states that differ at most in what the loop does not read again. -/
theorem restore_vmas_body_same (k : kernel) (hs : keeps_mappings k)
    (all_vmas : List snapshot_vma) {s s0 : sweep_state} (h : same_sweep s s0) :
    (∀ s2, restore_vmas_body k all_vmas s = Sum.inl s2 →
      ∃ s02, restore_vmas_body k all_vmas s0 = Sum.inl s02 ∧ same_sweep s2 s02) ∧
    (∀ r, restore_vmas_body k all_vmas s = Sum.inr r →
      restore_vmas_body k all_vmas s0 = Sum.inr r) := by
  have hpos := same_sweep_next_vma_pos h
  have hpos2 := same_sweep_next_ss_vma_pos h
  have hadv := sweep_advance_same all_vmas h
  obtain ⟨p1, p2, p3, p4, p5, p6, p7⟩ := h
  constructor
  · intro s2 hb
    unfold restore_vmas_body at hb ⊢
    simp only [keeps_mappings_munmap hs, keeps_mappings_mmap hs, ← hpos, ← hpos2, ← p2, ← p3,
      ← p4, ← p5, ← p6, ← p7] at hb ⊢
    split at hb
    · rename_i hc
      rw [if_pos hc]
      split at hb
      · cases hb
      · rename_i hres
        rw [if_neg hres]
        cases hb
        exact ⟨_, rfl, sweep_advance_same all_vmas
          (by refine ⟨p1, ?_, ?_, ?_, ?_, ?_, ?_⟩ <;> rfl) _ _ _⟩
    · rename_i hc
      rw [if_neg hc]
      split at hb
      · rename_i hc2
        rw [if_pos hc2]
        split at hb
        · rename_i hanon
          rw [if_pos hanon]
          split at hb
          · cases hb
          · rename_i herr
            rw [if_neg herr]
            cases hb
            exact ⟨_, rfl, sweep_advance_same all_vmas
          (by refine ⟨p1, ?_, ?_, ?_, ?_, ?_, ?_⟩ <;> rfl) _ _ _⟩
        · rename_i hanon
          rw [if_neg hanon]
          cases hb
          exact ⟨_, rfl, sweep_advance_same all_vmas
          (by refine ⟨p1, ?_, ?_, ?_, ?_, ?_, ?_⟩ <;> rfl) _ _ _⟩
      · rename_i hc2
        rw [if_neg hc2]
        cases hb
        exact ⟨_, rfl, hadv _ _ _⟩
  · intro r hb
    unfold restore_vmas_body at hb ⊢
    simp only [keeps_mappings_munmap hs, keeps_mappings_mmap hs, ← hpos, ← hpos2, ← p2, ← p3,
      ← p4, ← p5, ← p6, ← p7] at hb ⊢
    split at hb
    · rename_i hc
      rw [if_pos hc]
      split at hb
      · rename_i hres
        rw [if_pos hres]
        exact hb
      · cases hb
    · rename_i hc
      rw [if_neg hc]
      split at hb
      · rename_i hc2
        rw [if_pos hc2]
        split at hb
        · rename_i hanon
          rw [if_pos hanon]
          split at hb
          · rename_i herr
            rw [if_pos herr]
            exact hb
          · cases hb
        · cases hb
      · cases hb

theorem restore_vmas_states_head_mem (k : kernel) (all_vmas : List snapshot_vma) (fuel : Nat)
    (s : sweep_state) : s ∈ restore_vmas_states k all_vmas fuel s := by
  unfold restore_vmas_states
  split
  · simp
  · cases fuel with
    | zero => simp
    | succ n =>
      simp only
      split <;> simp

/-- While every kernel call leaves in place what the loop reads afterwards, the
iteration over the mappings as the kernel changes them and the iteration over
mappings left as they are do the same. -/
theorem restore_vmas_body_kept (k : kernel) (all_vmas : List snapshot_vma)
    {s s0 : sweep_state} (h : same_sweep s s0) (hk : walk_kept k all_vmas s) :
    (∀ s2, restore_vmas_body k all_vmas s = Sum.inl s2 →
      ∃ s02, restore_vmas_body (keep_mappings k) all_vmas s0 = Sum.inl s02 ∧
        same_sweep s2 s02) ∧
    (∀ r, restore_vmas_body k all_vmas s = Sum.inr r →
      restore_vmas_body (keep_mappings k) all_vmas s0 = Sum.inr r) := by
  obtain ⟨a1, a2⟩ := restore_vmas_body_keep k all_vmas s
  obtain ⟨b1, b2⟩ := restore_vmas_body_same (keep_mappings k) (keeps_mappings_keep k) all_vmas h
  constructor
  · intro s2 hb
    obtain ⟨res, trace, hkeep, hs2⟩ := a1 s2 hb
    obtain ⟨s02, h02, hsame⟩ := b1 _ hkeep
    refine ⟨s02, h02, same_sweep_trans ?_ hsame⟩
    unfold walk_kept at hk
    rw [hb] at hk
    simp only at hk
    exact ⟨hk, (congrArg sweep_state.ss_vma_iter hs2).trans rfl,
      (congrArg sweep_state.cursor hs2).trans rfl,
      (congrArg sweep_state.in_ss_vmas hs2).trans rfl,
      (congrArg sweep_state.in_vmas hs2).trans rfl,
      (congrArg sweep_state.res hs2).trans rfl, (congrArg sweep_state.trace hs2).trans rfl⟩
  · intro r hb
    exact b2 r (a2 r hb)

/-- While every kernel call leaves in place what the loop reads afterwards, the
loop of `restore_vmas` returns what it returns over mappings left as they
are. -/
theorem restore_vmas_loop_kept (k : kernel) (all_vmas : List snapshot_vma) :
    ∀ (fuel : Nat) (s s0 : sweep_state), same_sweep s s0 →
      (∀ t ∈ restore_vmas_states k all_vmas fuel s, walk_kept k all_vmas t) →
      restore_vmas_loop k all_vmas fuel s =
        restore_vmas_loop (keep_mappings k) all_vmas fuel s0 := by
  intro fuel
  induction fuel with
  | zero =>
    intro s s0 h _
    have he := same_walk_isEmpty h.1
    unfold restore_vmas_loop
    rw [← he, ← h.2.1, ← h.2.2.2.2.2.2]
  | succ n ih =>
    intro s s0 h hk
    have he := same_walk_isEmpty h.1
    have hk0 := hk s (restore_vmas_states_head_mem k all_vmas _ s)
    obtain ⟨c1, c2⟩ := restore_vmas_body_kept k all_vmas h hk0
    unfold restore_vmas_loop
    rw [← he, ← h.2.1, ← h.2.2.2.2.2.2]
    split
    · rfl
    · rename_i hdone
      simp only
      cases hb : restore_vmas_body k all_vmas s with
      | inr r => rw [c2 r hb]
      | inl s2 =>
        obtain ⟨s02, h02, hsame⟩ := c1 s2 hb
        rw [h02]
        simp only
        apply ih s2 s02 hsame
        intro t ht
        apply hk t
        unfold restore_vmas_states
        rw [if_neg hdone]
        simp only [hb]
        exact List.mem_cons_of_mem _ ht

/-- While every kernel call leaves in place what the loop reads afterwards,
`restore_vmas` returns what it returns over mappings left as they are. -/
theorem restore_vmas_kept (k : kernel) (fuel : Nat) (mmap : List vm_area_struct)
    (data : task_data)
    (hkept : ∀ t ∈ restore_vmas_trajectory k fuel mmap data, walk_kept k data.ss.all_vmas t) :
    restore_vmas k fuel mmap data = restore_vmas (keep_mappings k) fuel mmap data := by
  unfold restore_vmas
  exact restore_vmas_loop_kept k data.ss.all_vmas fuel _ _ (same_sweep_refl _) hkept

/-- The reconciliation while the kernel leaves in place what the loop reads.  For
ascending, pairwise non-overlapping sequences of current and of recorded
mappings, every `vm_munmap` and `vm_mmap` call succeeding, and every call
leaving in place what the loop reads afterwards, `restore_vmas` returns 0 with a
`vm_munmap` for exactly the maximal intervals inside a current mapping and
inside no recorded mapping, a private fixed `vm_mmap` with the recorded
protection for exactly the maximal intervals inside a recorded
anonymous-private mapping and inside no current mapping, and a `missing memory`
report for exactly such intervals of the other recorded mappings. -/
theorem restore_vmas_reconciles_kept (k : kernel) (fuel : Nat) (mmap : List vm_area_struct)
    (data : task_data)
    (hm : ascending_mappings mmap) (hr : ascending_recorded data.ss.all_vmas)
    (hunmap : ∀ t a l, k.vm_munmap t a l = 0) (hmmap : ∀ t a l p f, k.vm_mmap t a l p f = a)
    (hkept : ∀ t ∈ restore_vmas_trajectory k fuel mmap data, walk_kept k data.ss.all_vmas t)
    (hfuel : 2 * (mmap.length + data.ss.all_vmas.length) ≤ fuel) :
    ∃ trace, restore_vmas k fuel mmap data = some (0, trace) ∧
      (∀ a len, event.munmap a len ∈ trace ↔
        ∃ v ∈ mmap, maximal_gap v.vm_start v.vm_end (in_recorded data.ss.all_vmas) a (a + len)) ∧
      (∀ a len prot flags, event.mmap a len prot flags ∈ trace ↔
        flags = MAP_PRIVATE ||| MAP_FIXED_NOREPLACE ∧
        ∃ r ∈ data.ss.all_vmas, r.is_anonymous_private = true ∧ prot = r.prot ∧
          maximal_gap r.vm_start r.vm_end (in_mappings mmap) a (a + len)) ∧
      (∀ a b, event.fatal_missing a b ∈ trace ↔
        ∃ r ∈ data.ss.all_vmas, r.is_anonymous_private = false ∧
          maximal_gap r.vm_start r.vm_end (in_mappings mmap) a b) := by
  obtain ⟨trace, hret, h1, h2, h3, -⟩ := restore_vmas_reconciles (keep_mappings k)
    (keeps_mappings_keep k) fuel mmap data hm hr hunmap hmmap hfuel
  rw [← restore_vmas_kept k fuel mmap data hkept] at hret
  exact ⟨trace, hret, h1, h2, h3⟩

/-- The current mapping `[0x1000, 0x4000)` with the recorded mapping
`[0x2000, 0x3000)`: the sweep cuts the mapping at its lower and at its upper
end, both calls leave in place what the loop reads, and the trace is the two
unmaps. -/
theorem restore_vmas_cuts_both_ends :
    (∀ t ∈ restore_vmas_trajectory kernel_ok 4 mmap_wide_block task_middle_recorded,
      walk_kept kernel_ok task_middle_recorded.ss.all_vmas t) ∧
    restore_vmas kernel_ok 4 mmap_wide_block task_middle_recorded =
      some (0, [event.munmap 4096 4096, event.munmap 12288 4096]) := by
  have hkept : ∀ t ∈ restore_vmas_trajectory kernel_ok 4 mmap_wide_block task_middle_recorded,
      walk_kept kernel_ok task_middle_recorded.ss.all_vmas t := by decide
  refine ⟨hkept, ?_⟩
  rw [restore_vmas_kept kernel_ok 4 mmap_wide_block task_middle_recorded hkept]
  decide

/-- A kernel whose calls leave every mapping as it is leaves in place what the
loop reads. -/
theorem walk_kept_of_keeps (k : kernel) (hs : keeps_mappings k) (all_vmas : List snapshot_vma)
    (s : sweep_state) : walk_kept k all_vmas s := by
  unfold walk_kept
  cases hb : restore_vmas_body k all_vmas s with
  | inr r => trivial
  | inl s2 =>
    obtain ⟨res, trace, hs2⟩ := restore_vmas_body_inl hs hb
    simp only
    rw [hs2]
    exact same_walk_refl _ _

/-! ## Restore: the dirty-page drain -/

theorem recover_unlink_spec (st : recover_state) (sp : snapshot_page) :
    (recover_unlink st sp).mem = st.mem ∧
    (∃ t, (recover_unlink st sp).trace = st.trace ++ t) ∧
    (∀ a, sp.page_base ≠ a →
      get_snapshot_page (recover_unlink st sp).data a = get_snapshot_page st.data a) ∧
    (∀ sp0, get_snapshot_page st.data sp.page_base = some sp0 →
      ∃ sp2, get_snapshot_page (recover_unlink st sp).data sp.page_base = some sp2 ∧
        sp2.dirty = sp.dirty) ∧
    (recover_unlink st sp).data.config = st.data.config ∧
    (recover_unlink st sp).data.ss.all_vmas = st.data.ss.all_vmas := by
  unfold recover_unlink
  refine ⟨rfl, ?_, fun a ha => ?_, fun sp0 h0 => ?_, rfl, rfl⟩
  · simp only
    split
    · exact ⟨_, rfl⟩
    · exact ⟨[], by simp⟩
  · exact @get_put_other _ _ { sp with in_dirty_list := false } ha
  · exact ⟨_, @get_put_same _ _ _ { sp with in_dirty_list := false } h0 rfl, rfl⟩

/-- The effect of one iteration of the drain on the trace, on the records and
memory of other pages, and on the page of the entry itself. -/
theorem recover_page_spec (k : kernel) (st : recover_state) (sp : snapshot_page)
    (hsp : get_snapshot_page st.data sp.page_base = some sp) :
    (∃ t, (recover_page k st sp).trace = st.trace ++ t) ∧
    (∀ a, sp.page_base ≠ a →
      get_snapshot_page (recover_page k st sp).data a = get_snapshot_page st.data a ∧
      (recover_page k st sp).mem a = st.mem a) ∧
    (∃ sp2, get_snapshot_page (recover_page k st sp).data sp.page_base = some sp2 ∧
      (sp.dirty = false → sp2.dirty = false) ∧
      (sp.has_been_copied = true → sp2.dirty = false)) ∧
    (sp.dirty = false → (recover_page k st sp).mem = st.mem) ∧
    (∀ c, sp.dirty = true → sp.has_been_copied = true → sp.page_data = some c →
      k.copy_to_user sp.page_base = 0 →
      ∀ i, i < PAGE_SIZE → (recover_page k st sp).mem sp.page_base i = c i) ∧
    (recover_page k st sp).data.config = st.data.config ∧
    (recover_page k st sp).data.ss.all_vmas = st.data.ss.all_vmas := by
  unfold recover_page
  split
  · rename_i hdc
    have hd : sp.dirty = true := by
      cases h1 : sp.dirty <;> simp [h1] at hdc ⊢
    have hmem_other : ∀ a, sp.page_base ≠ a → (do_recover_page k sp st.mem).2.1 a = st.mem a := by
      intro a ha
      unfold do_recover_page
      cases sp.page_data with
      | none => rfl
      | some d => simp [Function.update, ha.symm]
    have hmem_same : ∀ c, sp.page_data = some c → k.copy_to_user sp.page_base = 0 →
        ∀ i, i < PAGE_SIZE → (do_recover_page k sp st.mem).2.1 sp.page_base i = c i := by
      intro c hc hk i hi
      unfold do_recover_page
      simp [hc, hk, copy_page, hi]
    simp only
    split
    · refine ⟨⟨_, rfl⟩, fun a ha => ⟨get_put_other (by exact ha), hmem_other a ha⟩,
        ⟨_, get_put_same hsp rfl, fun h => ?_, fun _ => rfl⟩, fun h => ?_,
        fun c _ _ hc hk i hi => hmem_same c hc hk i hi, rfl, rfl⟩
      · rfl
      · rw [hd] at h; cases h
    · obtain ⟨u1, ⟨t, u2⟩, u3, u4, u5, u6⟩ := recover_unlink_spec
        { st with mem := (do_recover_page k sp st.mem).2.1,
                  trace := st.trace ++ (do_recover_page k sp st.mem).2.2 ++
                    [event.set_wrprotect sp.page_base,
                     event.flush_tlb sp.page_base (sp.page_base + PAGE_SIZE)] }
        (set_snapshot_page_private
          { (do_recover_page k sp st.mem).1 with has_had_pte := true })
      obtain ⟨sp2, v1, v2⟩ := u4 sp hsp
      refine ⟨⟨_, u2.trans (by simp only [List.append_assoc]; rfl)⟩,
        fun a ha => ⟨u3 a ha, (congrFun u1 a).trans (hmem_other a ha)⟩,
        ⟨sp2, v1, fun _ => v2, fun _ => v2⟩, fun h => ?_,
        fun c _ _ hc hk i hi =>
          (congrFun (congrFun u1 sp.page_base) i).trans (hmem_same c hc hk i hi), u5, u6⟩
      rw [hd] at h; cases h
  · rename_i hdc
    have hnot : sp.has_been_copied = true → sp.dirty = false := by
      intro h
      cases h1 : sp.dirty
      · rfl
      · simp [h1, h] at hdc
    have hno : ∀ c, sp.dirty = true → sp.has_been_copied = true → sp.page_data = some c →
        k.copy_to_user sp.page_base = 0 → ∀ i, i < PAGE_SIZE → st.mem sp.page_base i = c i := by
      intro c h1 h2
      rw [hnot h2] at h1
      cases h1
    split
    · obtain ⟨u1, u2, u3, u4, u5, u6⟩ := recover_unlink_spec st sp
      obtain ⟨sp2, v1, v2⟩ := u4 sp hsp
      exact ⟨u2, fun a ha => ⟨u3 a ha, congrFun u1 a⟩,
        ⟨sp2, v1, fun h => v2.trans h, fun h => v2.trans (hnot h)⟩, fun _ => u1,
        fun c h1 h2 h3 h4 i hi =>
          (congrFun (congrFun u1 sp.page_base) i).trans (hno c h1 h2 h3 h4 i hi), u5, u6⟩
    · split
      · obtain ⟨u1, ⟨t, u2⟩, u3, u4, u5, u6⟩ := recover_unlink_spec
          { st with trace := st.trace ++ do_recover_none_pte sp }
          { set_snapshot_page_none_pte sp with has_had_pte := false }
        obtain ⟨sp2, v1, v2⟩ := u4 sp hsp
        exact ⟨⟨_, u2.trans (by simp only [List.append_assoc]; rfl)⟩,
          fun a ha => ⟨u3 a ha, congrFun u1 a⟩,
          ⟨sp2, v1, fun h => v2.trans h, fun h => v2.trans (hnot h)⟩, fun _ => u1,
          fun c h1 h2 h3 h4 i hi =>
            (congrFun (congrFun u1 sp.page_base) i).trans (hno c h1 h2 h3 h4 i hi), u5, u6⟩
      · obtain ⟨u1, u2, u3, u4, u5, u6⟩ := recover_unlink_spec st sp
        obtain ⟨sp2, v1, v2⟩ := u4 sp hsp
        exact ⟨u2, fun a ha => ⟨u3 a ha, congrFun u1 a⟩,
          ⟨sp2, v1, fun h => v2.trans h, fun h => v2.trans (hnot h)⟩, fun _ => u1,
          fun c h1 h2 h3 h4 i hi =>
            (congrFun (congrFun u1 sp.page_base) i).trans (hno c h1 h2 h3 h4 i hi), u5, u6⟩

/-- The drain only appends to the trace and leaves the configuration and
`all_vmas` alone. -/
theorem recover_pages_frame (k : kernel) (l : List Nat) :
    ∀ st : recover_state,
      (∃ t, (recover_pages k l st).trace = st.trace ++ t) ∧
      (recover_pages k l st).data.config = st.data.config ∧
      (recover_pages k l st).data.ss.all_vmas = st.data.ss.all_vmas := by
  induction l with
  | nil => intro st; exact ⟨⟨[], by simp [recover_pages]⟩, rfl, rfl⟩
  | cons b rest ih =>
    intro st
    unfold recover_pages
    cases hg : get_snapshot_page st.data b with
    | none => exact ih st
    | some sp =>
      have hb := get_base hg
      subst hb
      obtain ⟨⟨t1, p1⟩, -, -, -, -, p2, p3⟩ := recover_page_spec k st sp hg
      obtain ⟨⟨t2, q1⟩, q2, q3⟩ := ih (recover_page k st sp)
      exact ⟨⟨t1 ++ t2, by simp only; rw [q1, p1, List.append_assoc]⟩,
        by simp only; rw [q2, p2], by simp only; rw [q3, p3]⟩

/-- A page whose content was saved and which is in the list being drained holds
the saved content after the drain, provided `copy_to_user` copies the whole
page. -/
theorem recover_pages_restores (k : kernel) (a : Nat) (c : page_bytes)
    (hcopy : k.copy_to_user a = 0) (l : List Nat) :
    ∀ st : recover_state,
      (content_restored st a c ∨ (content_saved st.data a c ∧ a ∈ l)) →
      content_restored (recover_pages k l st) a c := by
  induction l with
  | nil =>
    intro st h
    rcases h with h | ⟨-, h⟩
    · exact h
    · cases h
  | cons b rest ih =>
    intro st h
    unfold recover_pages
    cases hg : get_snapshot_page st.data b with
    | none =>
      apply ih st
      rcases h with h | ⟨hs, hm⟩
      · exact Or.inl h
      · right
        refine ⟨hs, ?_⟩
        rcases List.mem_cons.1 hm with hm | hm
        · obtain ⟨sp, h1, -⟩ := hs
          rw [hm, hg] at h1
          cases h1
        · exact hm
    | some sp =>
      have hb := get_base hg
      subst hb
      obtain ⟨-, p2, ⟨sp2, p3, p4, p5⟩, p6, p7, -, -⟩ := recover_page_spec k st sp hg
      apply ih (recover_page k st sp)
      by_cases hab : sp.page_base = a
      · left
        subst hab
        rcases h with ⟨h1, sp3, h2, h3⟩ | ⟨⟨sp3, h1, h2, h3, h4⟩, -⟩
        · rw [hg] at h2
          cases h2
          exact ⟨fun i hi => by rw [p6 h3]; exact h1 i hi, sp2, p3, p4 h3⟩
        · rw [hg] at h1
          cases h1
          exact ⟨p7 c h2 h3 h4 hcopy, sp2, p3, p5 h3⟩
      · obtain ⟨q1, q2⟩ := p2 a hab
        rcases h with ⟨h1, sp3, h2, h3⟩ | ⟨⟨sp3, h1, h2⟩, hm⟩
        · left
          exact ⟨fun i hi => by rw [q2]; exact h1 i hi, sp3, by rw [q1]; exact h2, h3⟩
        · right
          refine ⟨⟨sp3, by rw [q1]; exact h1, h2⟩, ?_⟩
          rcases List.mem_cons.1 hm with hm | hm
          · exact absurd hm.symm hab
          · exact hm

theorem record_dirty_page_frame (k : kernel) (data : task_data) (b : Nat) (c : page_bytes) :
    (record_dirty_page k data b c).1.config = data.config ∧
    (record_dirty_page k data b c).1.ss.all_vmas = data.ss.all_vmas ∧
    (∀ a, a ≠ b → get_snapshot_page (record_dirty_page k data b c).1 a =
      get_snapshot_page data a) ∧
    (∀ x, x ∈ data.ss.dirty_pages → x ∈ (record_dirty_page k data b c).1.ss.dirty_pages) := by
  cases h : get_snapshot_page data b with
  | none => rw [record_dirty_page_of_none h]; exact ⟨rfl, rfl, fun _ _ => rfl, fun _ hx => hx⟩
  | some sp0 =>
    by_cases hs : sp0.dirty = true ∨ sp0.page_prot = page_kind.none_pte
    · rw [record_dirty_page_of_skip h hs]; exact ⟨rfl, rfl, fun _ _ => rfl, fun _ hx => hx⟩
    · have hd : sp0.dirty = false := by
        cases hdd : sp0.dirty
        · rfl
        · exact absurd (Or.inl hdd) hs
      have hk : sp0.page_prot ≠ page_kind.none_pte := fun hkk => hs (Or.inr hkk)
      obtain ⟨spF, hF, hbase, -⟩ := record_dirty_page_of_clean (k := k) (c := c) h hd hk
      rw [hF]
      refine ⟨rfl, rfl, fun a ha => ?_, fun x hx => ?_⟩
      · rw [get_put_other (by rw [hbase]; exact fun e => ha e.symm)]
        rfl
      · rw [put_dirty_pages]
        simp only
        split
        · exact hx
        · exact List.mem_append_left _ hx


/-! ## Round trip of page content -/

/-- One write keeps a tracked page tracked, keeps saved content saved, and
saves the content of the page it writes. -/
theorem write_fault_tracked (k : kernel) (halloc : ∀ a, k.kmalloc_page_data a = true)
    (st : task_data × user_memory) (w : Nat × page_bytes) (a : Nat) (c : page_bytes) :
    (content_tracked st a c → content_tracked (write_fault k st w) a c) ∧
    (content_saved st.1 a c ∧ a ∈ st.1.ss.dirty_pages →
      content_saved (write_fault k st w).1 a c ∧ a ∈ (write_fault k st w).1.ss.dirty_pages) ∧
    (content_tracked st a c → w.1 = a →
      content_saved (write_fault k st w).1 a c ∧ a ∈ (write_fault k st w).1.ss.dirty_pages) := by
  obtain ⟨f1, f2, f3, f4⟩ := record_dirty_page_frame k st.1 w.1 (st.2 w.1)
  have saved_keep : content_saved st.1 a c ∧ a ∈ st.1.ss.dirty_pages →
      content_saved (write_fault k st w).1 a c ∧ a ∈ (write_fault k st w).1.ss.dirty_pages := by
    rintro ⟨⟨sp, h1, h2, h3, h4⟩, hm⟩
    by_cases hab : a = w.1
    · subst hab
      have : (write_fault k st w).1 = st.1 := by
        unfold write_fault
        simp only
        rw [record_dirty_page_of_skip h1 (Or.inl h2)]
      rw [this]
      exact ⟨⟨sp, h1, h2, h3, h4⟩, hm⟩
    · exact ⟨⟨sp, by unfold write_fault; simp only; rw [f3 a hab]; exact h1, h2, h3, h4⟩,
        f4 a hm⟩
  have fresh_same : (∃ sp, get_snapshot_page st.1 a = some sp ∧ sp.dirty = false ∧
      sp.has_been_copied = false ∧ sp.in_dirty_list = false ∧
      sp.page_prot ≠ page_kind.none_pte ∧ st.2 a = c) → w.1 = a →
      content_saved (write_fault k st w).1 a c ∧ a ∈ (write_fault k st w).1.ss.dirty_pages := by
    rintro ⟨sp, h1, h2, h3, h4, h5, h6⟩ hw
    subst hw
    obtain ⟨spF, hF, hbase, hdirty, -, -, -, -, hcopy⟩ :=
      record_dirty_page_of_clean (k := k) (c := st.2 w.1) h1 h2 h5
    obtain ⟨g1, g2⟩ := hcopy h3 (Or.inr (halloc _))
    have hget : get_snapshot_page (write_fault k st w).1 w.1 = some spF := by
      unfold write_fault
      simp only
      rw [hF]
      have hh : get_snapshot_page { st.1 with ss := { st.1.ss with
          dirty_pages := (if sp.in_dirty_list then st.1.ss.dirty_pages
            else list_add_tail w.1 st.1.ss.dirty_pages) } } w.1 = some sp := by
        rw [get_with_dirty_pages]; exact h1
      exact get_put_same hh hbase
    refine ⟨⟨spF, hget, hdirty, g1, by rw [g2, h6]⟩, ?_⟩
    unfold write_fault
    simp only
    rw [hF, put_dirty_pages]
    simp [h4, list_add_tail]
  refine ⟨?_, saved_keep, ?_⟩
  · rintro (h | h)
    · by_cases hab : w.1 = a
      · exact Or.inr (fresh_same h hab)
      · left
        obtain ⟨sp, h1, h2, h3, h4, h5, h6⟩ := h
        refine ⟨sp, ?_, h2, h3, h4, h5, ?_⟩
        · unfold write_fault; simp only; rw [f3 a (fun e => hab e.symm)]; exact h1
        · unfold write_fault; simp only
          rw [Function.update_noteq (fun e => hab e.symm)]
          exact h6
    · exact Or.inr (saved_keep h)
  · rintro (h | h) hw
    · exact fresh_same h hw
    · exact saved_keep h

theorem write_faults_saved_keep (k : kernel) (halloc : ∀ a, k.kmalloc_page_data a = true)
    (a : Nat) (c : page_bytes) (writes : List (Nat × page_bytes)) :
    ∀ st : task_data × user_memory,
      content_saved st.1 a c ∧ a ∈ st.1.ss.dirty_pages →
      content_saved (write_faults k st writes).1 a c ∧
        a ∈ (write_faults k st writes).1.ss.dirty_pages := by
  induction writes with
  | nil => intro st h; exact h
  | cons w rest ih =>
    intro st h
    exact ih (write_fault k st w) ((write_fault_tracked k halloc st w a c).2.1 h)

/-- After a sequence of writes, the content a tracked page had before the first
write to it is saved and the page is in the dirty list. -/
theorem write_faults_saved (k : kernel) (halloc : ∀ a, k.kmalloc_page_data a = true)
    (a : Nat) (c : page_bytes) (writes : List (Nat × page_bytes)) :
    ∀ st : task_data × user_memory, content_tracked st a c → a ∈ writes.map Prod.fst →
      content_saved (write_faults k st writes).1 a c ∧
        a ∈ (write_faults k st writes).1.ss.dirty_pages := by
  induction writes with
  | nil => intro st _ h; cases h
  | cons w rest ih =>
    intro st ht hm
    by_cases hw : w.1 = a
    · exact write_faults_saved_keep k halloc a c rest _
        ((write_fault_tracked k halloc st w a c).2.2 ht hw)
    · apply ih (write_fault k st w) ((write_fault_tracked k halloc st w a c).1 ht)
      simp only [List.map_cons, List.mem_cons] at hm
      rcases hm with hm | hm
      · exact absurd hm.symm hw
      · exact hm

theorem write_faults_frame (k : kernel) (writes : List (Nat × page_bytes)) :
    ∀ st : task_data × user_memory,
      (write_faults k st writes).1.config = st.1.config ∧
      (write_faults k st writes).1.ss.all_vmas = st.1.ss.all_vmas := by
  induction writes with
  | nil => intro st; exact ⟨rfl, rfl⟩
  | cons w rest ih =>
    intro st
    obtain ⟨f1, f2, -, -⟩ := record_dirty_page_frame k st.1 w.1 (st.2 w.1)
    obtain ⟨g1, g2⟩ := ih (write_fault k st w)
    exact ⟨g1.trans f1, g2.trans f2⟩

/-- The capture leaves the dirty list alone and leaves every page it logged a
record with cleared flags. -/
theorem take_memory_snapshot_fresh (k : kernel) (mm : mm_struct) (data : task_data)
    (h : (take_memory_snapshot k mm data).1 = 0) :
    (take_memory_snapshot k mm data).2.1.ss.dirty_pages = data.ss.dirty_pages ∧
    (take_memory_snapshot k mm data).2.1.config = data.config ∧
    ∀ a, event.dbg_making_snapshot a ∈ (take_memory_snapshot k mm data).2.2 →
      freshly_captured (take_memory_snapshot k mm data).2.1 a := by
  obtain ⟨p1, -, p3⟩ := take_memory_snapshot_loop_spec k mm mm.mmap
    { data := data,
      walk_data := { next_allowed_address := 0, next_blocked_address := 0 }, trace := [] }
  exact ⟨p1.1, p1.2.1, p3 h (fun a ha => by cases ha)⟩

theorem restore_vmas_congr (k : kernel) (fuel : Nat) (mmap : List vm_area_struct)
    (d d2 : task_data) (h : d.ss.all_vmas = d2.ss.all_vmas) :
    restore_vmas k fuel mmap d = restore_vmas k fuel mmap d2 := by
  unfold restore_vmas
  rw [h]

/-- When the sweep of the mappings does not fail (with `MMAP` unset it is not
run), `recover_memory_snapshot` returns 0 with the result of the drain over the
whole dirty list, started with the trace of the sweep. -/
theorem recover_memory_snapshot_of_sweep (k : kernel) (fuel : Nat)
    (mmap : List vm_area_struct) (data : task_data) (mem : user_memory)
    (hsweep : data.config.mmap = true →
      ∃ trace, restore_vmas k fuel mmap data = some (0, trace)) :
    ∃ r trace, recover_memory_snapshot k fuel mmap data mem = some r ∧ r.res = 0 ∧
      r.mem = (recover_pages k data.ss.dirty_pages
        { data := data, mem := mem, trace := trace }).mem ∧
      r.data = (recover_pages k data.ss.dirty_pages
        { data := data, mem := mem, trace := trace }).data ∧
      r.trace = (recover_pages k data.ss.dirty_pages
        { data := data, mem := mem, trace := trace }).trace ∧
      (data.config.mmap = false → trace = []) ∧
      (data.config.mmap = true → restore_vmas k fuel mmap data = some (0, trace)) := by
  unfold recover_memory_snapshot
  cases hc : data.config.mmap
  · simp only [Bool.false_eq_true, if_false, ne_eq, not_true_eq_false]
    exact ⟨_, [], rfl, rfl, rfl, rfl, rfl, fun _ => rfl, fun h => by cases h⟩
  · obtain ⟨trace, hret⟩ := hsweep hc
    simp only [if_true, hret, ne_eq, not_true_eq_false, if_false]
    exact ⟨_, trace, rfl, rfl, rfl, rfl, rfl, (fun h => by cases h), fun _ => rfl⟩

/-- When the sweep of the mappings fails, `recover_memory_snapshot` returns its
result code and leaves the task data and the memory as they are. -/
theorem recover_memory_snapshot_of_failed_sweep (k : kernel) (fuel : Nat)
    (mmap : List vm_area_struct) (data : task_data) (mem : user_memory)
    (hc : data.config.mmap = true) (res : Int) (trace : List event) (hres : res ≠ 0)
    (hsweep : restore_vmas k fuel mmap data = some (res, trace)) :
    recover_memory_snapshot k fuel mmap data mem =
      some { res := res, data := data, mem := mem, trace := trace } := by
  unfold recover_memory_snapshot
  simp only [hc, if_true, hsweep, ne_eq, hres, not_false_eq_true]

/-- C1, as the code has it.  Start from the state a successful
`take_memory_snapshot` produces when run with an empty dirty list (the capture
leaves the list empty), let any sequence of writes happen, each page passed to
`record_dirty_page` with its content at that moment before it is overwritten,
with every content buffer allocated and `copy_to_user` copying whole pages.  If
the sweep of the mappings does not fail (with `MMAP` unset it is not run), then
`recover_memory_snapshot` returns 0 and every written page that the capture
snapshotted with a kind other than `none_pte` holds, byte for byte, the content
it had at the capture. -/
theorem snapshot_roundtrip (k : kernel) (mm : mm_struct) (data0 : task_data)
    (mem0 : user_memory) (writes : List (Nat × page_bytes)) (mmap : List vm_area_struct)
    (fuel : Nat)
    (hlist : data0.ss.dirty_pages = [])
    (hcap : (take_memory_snapshot k mm data0).1 = 0)
    (halloc : ∀ a, k.kmalloc_page_data a = true)
    (hcopy : ∀ a, k.copy_to_user a = 0)
    (hsweep : data0.config.mmap = true →
      ∃ trace, restore_vmas k fuel mmap (take_memory_snapshot k mm data0).2.1 =
        some (0, trace)) :
    (take_memory_snapshot k mm data0).2.1.ss.dirty_pages = [] ∧
    ∃ r, recover_memory_snapshot k fuel mmap
        (write_faults k ((take_memory_snapshot k mm data0).2.1, mem0) writes).1
        (write_faults k ((take_memory_snapshot k mm data0).2.1, mem0) writes).2 = some r ∧
      r.res = 0 ∧
      ∀ a ∈ writes.map Prod.fst,
        event.dbg_making_snapshot a ∈ (take_memory_snapshot k mm data0).2.2 →
        (∀ sp, get_snapshot_page (take_memory_snapshot k mm data0).2.1 a = some sp →
          sp.page_prot ≠ page_kind.none_pte) →
        ∀ i, i < PAGE_SIZE → r.mem a i = mem0 a i := by
  obtain ⟨c1, c2, c3⟩ := take_memory_snapshot_fresh k mm data0 hcap
  refine ⟨c1.trans hlist, ?_⟩
  obtain ⟨f1, f2⟩ := write_faults_frame k writes ((take_memory_snapshot k mm data0).2.1, mem0)
  obtain ⟨r, trace, hret, hres, hmem, -⟩ := recover_memory_snapshot_of_sweep k fuel mmap
    (write_faults k ((take_memory_snapshot k mm data0).2.1, mem0) writes).1
    (write_faults k ((take_memory_snapshot k mm data0).2.1, mem0) writes).2
    (fun hc => by
      rw [restore_vmas_congr k fuel mmap _ _ f2]
      exact hsweep (by rw [← c2, ← f1]; exact hc))
  refine ⟨r, hret, hres, fun a ha hdbg hkind i hi => ?_⟩
  obtain ⟨sp, g1, g2, g3, g4⟩ := c3 a hdbg
  have htracked : content_tracked ((take_memory_snapshot k mm data0).2.1, mem0) a (mem0 a) :=
    Or.inl ⟨sp, g1, g2, g3, g4, hkind sp g1, rfl⟩
  have hsaved := write_faults_saved k halloc a (mem0 a) writes _ htracked ha
  have hrestored := recover_pages_restores k a (mem0 a) (hcopy a) _
    { data := (write_faults k ((take_memory_snapshot k mm data0).2.1, mem0) writes).1,
      mem := (write_faults k ((take_memory_snapshot k mm data0).2.1, mem0) writes).2,
      trace := trace } (Or.inr hsaved)
  rw [hmem]
  exact hrestored.1 i hi

/-- C1, witness: with `MMAP` set, one writable page at `0x1000` is captured,
overwritten with bytes 2 over bytes 1, and restored while its mapping is still
in place: the sweep makes no call, `recover_memory_snapshot` returns 0 and the
page holds the bytes 1 again. -/
theorem snapshot_roundtrip_witness :
    restore_vmas kernel_ok 4 (mm_one_page pte_writable).mmap
        (take_memory_snapshot kernel_ok (mm_one_page pte_writable)
          (empty_task ⟨true, false, false⟩)).2.1 = some (0, []) ∧
    ∃ r, recover_memory_snapshot kernel_ok 4 (mm_one_page pte_writable).mmap
        one_page_written_mmap.1 one_page_written_mmap.2 = some r ∧
      r.res = 0 ∧ ∀ i, i < PAGE_SIZE → r.mem 4096 i = memory_ones 4096 i :=
  ⟨by decide,
    match (snapshot_roundtrip kernel_ok (mm_one_page pte_writable)
      (empty_task ⟨true, false, false⟩) memory_ones [(4096, page_filled 2)]
      (mm_one_page pte_writable).mmap 4 rfl (by decide) (fun _ => rfl) (fun _ => rfl)
      (fun _ => ⟨[], by decide⟩)).2 with
    | ⟨r, h1, h2, h3⟩ =>
      ⟨r, h1, h2, h3 4096 (by decide) (by decide) (fun sp hsp => by
        have hget : get_snapshot_page (take_memory_snapshot kernel_ok (mm_one_page pte_writable)
            (empty_task ⟨true, false, false⟩)).2.1 4096 =
            some { page_base := 4096, page_prot := page_kind.priv, page_data := none,
                   has_been_copied := false, has_had_pte := true, dirty := false,
                   in_dirty_list := false } := rfl
        rw [hget] at hsp
        cases hsp
        decide)⟩⟩

/-- C1, counterexample, in two parts.  First: the page at `0x1000` has an empty
page-table entry at the capture, so its record has kind `none_pte`.  The page
is passed to `record_dirty_page` with its content, all bytes 1, and then
overwritten with bytes 2.  `recover_memory_snapshot` returns 0 with nothing to
drain, and the page still holds the bytes 2.  Second: with `MMAP` set, the
writable page at `0x1000` is captured, its content saved and overwritten with
bytes 2; the process has since mapped `[0x3000, 0x4000)`, and the `vm_munmap` of
that range is interrupted.  `recover_memory_snapshot` returns `-EINTR` without
draining, and the page still holds the bytes 2. -/
theorem roundtrip_fails_for_none_pte :
    page_flags (take_memory_snapshot kernel_ok (mm_one_page pte_empty)
      (empty_task ⟨false, false, false⟩)).2.1 4096 = some (false, false, false) ∧
    memory_ones 4096 0 = 1 ∧
    (recover_memory_snapshot kernel_ok 0 [] (one_page_written pte_empty).1
      (one_page_written pte_empty).2).map (fun r => (r.res, r.mem 4096 0)) = some (0, 2) ∧
    page_flags one_page_written_mmap.1 4096 = some (true, true, true) ∧
    (recover_memory_snapshot kernel_munmap_fails 6 mm_two_mappings.mmap
      one_page_written_mmap.1 one_page_written_mmap.2).map
        (fun r => (r.res, r.mem 4096 0, r.data.ss.dirty_pages, r.trace)) =
      some (-4, 2, [4096], [event.munmap 12288 4096, event.fatal_munmap 12288 16384]) := by
  decide

/-- C4, the code at the failing input.  A task with `MMAP` set has recorded the
anonymous private mapping `[0x1000, 0x2000)` and saved its written page; at
restore time the mapping is gone and `vm_mmap` fails with `-ENOMEM`.
`restore_vmas` logs the failure and returns 0, and `recover_memory_snapshot`
goes on to drain the dirty list and returns 0. -/
theorem restore_vmas_mmap_failure_returns_zero :
    restore_vmas kernel_mmap_fails 2 [] one_page_written_mmap.1 =
      some (0, [event.mmap 4096 4096 7 (MAP_PRIVATE ||| MAP_FIXED_NOREPLACE),
                event.fatal_mmap 4096 8192 (ULONG_MAX - 11)]) ∧
    IS_ERR (ULONG_MAX - 11) = true ∧
    one_page_written_mmap.1.ss.dirty_pages = [4096] ∧
    (recover_memory_snapshot kernel_mmap_fails 2 [] one_page_written_mmap.1
      one_page_written_mmap.2).map (fun r => (r.res, r.data.ss.dirty_pages, r.trace)) =
      some (0, [], [event.mmap 4096 4096 7 (MAP_PRIVATE ||| MAP_FIXED_NOREPLACE),
                    event.fatal_mmap 4096 8192 (ULONG_MAX - 11), event.copy_to_user 4096,
                    event.set_wrprotect 4096, event.flush_tlb 4096 8192]) := by
  decide

/-- C5, as the code has it.  With `MMAP` set, ascending sequences and every
`vm_munmap` and `vm_mmap` call succeeding and leaving in place what the loop
reads of the mappings afterwards, if some address of a recorded mapping that is
not anonymous-private lies in no current mapping, then `restore_vmas` logs a
`missing memory` report for an interval containing the address and returns 0,
and `recover_memory_snapshot` returns 0 with the result of the drain over the
whole dirty list. -/
theorem recover_memory_snapshot_reports_missing (k : kernel) (fuel : Nat)
    (mmap : List vm_area_struct) (data : task_data) (mem : user_memory)
    (hcfg : data.config.mmap = true)
    (hm : ascending_mappings mmap) (hr : ascending_recorded data.ss.all_vmas)
    (hunmap : ∀ t a l, k.vm_munmap t a l = 0) (hmmap : ∀ t a l p f, k.vm_mmap t a l p f = a)
    (hkept : ∀ t ∈ restore_vmas_trajectory k fuel mmap data, walk_kept k data.ss.all_vmas t)
    (hfuel : 2 * (mmap.length + data.ss.all_vmas.length) ≤ fuel)
    (r : snapshot_vma) (hrm : r ∈ data.ss.all_vmas) (hanon : r.is_anonymous_private = false)
    (x : Nat) (hx1 : r.vm_start ≤ x) (hx2 : x < r.vm_end) (hmiss : ¬ in_mappings mmap x) :
    ∃ res trace, recover_memory_snapshot k fuel mmap data mem = some res ∧ res.res = 0 ∧
      restore_vmas k fuel mmap data = some (0, trace) ∧
      (∃ a b, event.fatal_missing a b ∈ trace ∧ a ≤ x ∧ x < b) ∧
      (∀ e ∈ trace, e ∈ res.trace) ∧
      res.data = (recover_pages k data.ss.dirty_pages
        { data := data, mem := mem, trace := trace }).data ∧
      res.mem = (recover_pages k data.ss.dirty_pages
        { data := data, mem := mem, trace := trace }).mem := by
  obtain ⟨trace, hret, -, hcomplete⟩ :=
    restore_vmas_sweep (keep_mappings k) (keeps_mappings_keep k) fuel mmap data hm hr
      hunmap hmmap hfuel
  rw [← restore_vmas_kept k fuel mmap data hkept] at hret
  obtain ⟨⟨t, hframe⟩, -, -⟩ := recover_pages_frame k data.ss.dirty_pages
    { data := data, mem := mem, trace := trace }
  refine ⟨{ res := 0
            data := (recover_pages k data.ss.dirty_pages
              { data := data, mem := mem, trace := trace }).data
            mem := (recover_pages k data.ss.dirty_pages
              { data := data, mem := mem, trace := trace }).mem
            trace := (recover_pages k data.ss.dirty_pages
              { data := data, mem := mem, trace := trace }).trace },
    trace, ?_, rfl, hret, ((hcomplete x).2 r hrm hx1 hx2 hmiss).2 hanon, ?_, rfl, rfl⟩
  · unfold recover_memory_snapshot
    simp only [hcfg, if_true, hret, ne_eq, not_true_eq_false, if_false]
  · intro e he
    show e ∈ (recover_pages k data.ss.dirty_pages
      { data := data, mem := mem, trace := trace }).trace
    rw [hframe]
    exact List.mem_append_left _ he

theorem ascending_mappings_nil : ascending_mappings [] := by
  unfold ascending_mappings ascending_ranges
  simp

theorem ascending_recorded_file_page : ascending_recorded file_page_written.1.ss.all_vmas := by
  have h : file_page_written.1.ss.all_vmas =
      [{ vm_start := 4096, vm_end := 8192, prot := 7, is_anonymous_private := false }] := by
    decide
  rw [h]
  unfold ascending_recorded ascending_ranges
  simp [ULONG_MAX, PAGE_SIZE]

/-- C5, witness: the recorded file mapping `[0x1000, 0x2000)` is gone at restore
time. -/
theorem recover_memory_snapshot_reports_missing_witness :
    ∃ res trace, recover_memory_snapshot kernel_ok 2 [] file_page_written.1
        file_page_written.2 = some res ∧ res.res = 0 ∧
      restore_vmas kernel_ok 2 [] file_page_written.1 = some (0, trace) ∧
      (∃ a b, event.fatal_missing a b ∈ trace ∧ a ≤ 4096 ∧ 4096 < b) :=
  (recover_memory_snapshot_reports_missing kernel_ok 2 [] file_page_written.1
    file_page_written.2 (by decide) ascending_mappings_nil ascending_recorded_file_page
    (fun _ _ _ => rfl) (fun _ _ _ _ _ => rfl) (by decide) (by decide)
    { vm_start := 4096, vm_end := 8192, prot := 7, is_anonymous_private := false }
    (by decide) rfl 4096 (by decide) (by decide)
    (by rintro ⟨v, hv, -⟩; cases hv)).imp
    (fun _ h => h.imp (fun _ h2 => ⟨h2.1, h2.2.1, h2.2.2.1, h2.2.2.2.1⟩))

/-- C5, counterexample: the recorded file mapping `[0x1000, 0x2000)` is not
anonymous-private and is gone at restore time; `recover_memory_snapshot` logs
`missing memory`, drains the dirty list, and returns 0, not a failure. -/
theorem recover_memory_snapshot_missing_returns_zero :
    file_page_written.1.config.mmap = true ∧
    file_page_written.1.ss.all_vmas.map
      (fun r => (r.vm_start, r.vm_end, r.is_anonymous_private)) = [(4096, 8192, false)] ∧
    (recover_memory_snapshot kernel_ok 2 [] file_page_written.1 file_page_written.2).map
      (fun r => (r.res, r.data.ss.dirty_pages, r.trace)) =
      some (0, [], [event.fatal_missing 4096 8192, event.copy_to_user 4096,
                    event.set_wrprotect 4096, event.flush_tlb 4096 8192]) := by
  decide

/-! ## Protection bits of a mapping record -/

theorem lor_ne_zero (f b i : Nat) (h : b.testBit i = true) : f ||| b ≠ 0 := by
  intro h0
  have := Nat.testBit_or f b i
  rw [h0, h] at this
  simp at this

/-- C11, the code at the failing input.  The record of a read-only mapping
(`vm_flags = VM_READ`) in zeroed memory gets all three protection bits, and
a restore that has to recreate the mapping passes read, write and execute to
`vm_mmap`.  For every kernel, state and mapping the stored bits are the
uninitialised content of the field with all three bits or-ed in: they do not
depend on `vm_flags`. -/
theorem add_snapshot_vma_prot_ignores_vm_flags :
    vma_read_only.vm_flags &&& VM_WRITE = 0 ∧ vma_read_only.vm_flags &&& VM_EXEC = 0 ∧
    (vma_record kernel_ok vma_read_only).map (fun r => r.prot) =
      some (PROT_READ ||| PROT_WRITE ||| PROT_EXEC) ∧
    restore_vmas kernel_ok 2 []
        (take_memory_snapshot kernel_ok mm_read_only
          (empty_task { mmap := true, block := false, nostack := false })).2.1 =
      some (0, [event.mmap 4096 4096 (PROT_READ ||| PROT_WRITE ||| PROT_EXEC)
        (MAP_PRIVATE ||| MAP_FIXED_NOREPLACE)]) ∧
    ∀ (k : kernel) (data : task_data) (vma : vm_area_struct),
      (add_snapshot_vma k data vma).2.map (fun r => r.prot) =
        (k.kmalloc_snapshot_vma vma.vm_start).map
          (fun u => u ||| (PROT_READ ||| (PROT_WRITE ||| PROT_EXEC))) := by
  refine ⟨by decide, by decide, by decide, by decide, ?_⟩
  intro k data vma
  unfold add_snapshot_vma
  cases k.kmalloc_snapshot_vma vma.vm_start with
  | none => rfl
  | some u =>
    have h1 : vma.vm_flags ||| VM_READ ≠ 0 := lor_ne_zero _ _ 0 (by decide)
    have h2 : vma.vm_flags ||| VM_WRITE ≠ 0 := lor_ne_zero _ _ 1 (by decide)
    have h3 : vma.vm_flags ||| VM_EXEC ≠ 0 := lor_ne_zero _ _ 2 (by decide)
    simp only [Option.map_some', h1, h2, h3, ne_eq, not_false_eq_true, if_true, Nat.or_assoc]

/-! ## Page records after a capture -/

/-- C12, counterexample.  A capture of the writable mapping `[0x1000, 0x3000)`
with the range `[0x1000, 0x2000)` on the block list succeeds and links the
mapping into `snapshotted_vmas`, but the page at `0x1000`, inside that range,
gets no record (the page at `0x2000` does).  A capture of a mapping without a
page table succeeds as well and creates no record for its page. -/
theorem take_memory_snapshot_skips_pages :
    (take_memory_snapshot kernel_ok mm_two_pages (task_blocking 4096 8192)).1 = 0 ∧
    (take_memory_snapshot kernel_ok mm_two_pages (task_blocking 4096 8192)).2.1.ss.snapshotted_vmas.map
        (fun r => (r.vm_start, r.vm_end)) = [(4096, 12288)] ∧
    (get_snapshot_page
      (take_memory_snapshot kernel_ok mm_two_pages (task_blocking 4096 8192)).2.1 4096).isNone
        = true ∧
    page_flags (take_memory_snapshot kernel_ok mm_two_pages (task_blocking 4096 8192)).2.1 8192
        = some (false, false, false) ∧
    (take_memory_snapshot kernel_ok mm_untouched (empty_task ⟨false, false, false⟩)).1 = 0 ∧
    (take_memory_snapshot kernel_ok mm_untouched
        (empty_task ⟨false, false, false⟩)).2.1.ss.snapshotted_vmas.map
        (fun r => (r.vm_start, r.vm_end)) = [(4096, 8192)] ∧
    (get_snapshot_page (take_memory_snapshot kernel_ok mm_untouched
        (empty_task ⟨false, false, false⟩)).2.1 4096).isNone = true := by
  decide

theorem check_range_open {data : task_data} {wd : snapshot_walk_data}
    (hb : data.blocklist = []) (ha : data.allowlist = []) (hc : data.config.block = false)
    (hw : wd.next_blocked_address = 0) (addr next : Nat) :
    (snapshot_walk_check_range data wd addr next).1 = page_walk_action.ACTION_SUBTREE ∧
    (snapshot_walk_check_range data wd addr next).2.next_blocked_address = 0 := by
  unfold snapshot_walk_check_range intersect_blocklist intersect_allowlist
  rw [hb, ha, hc, hw]
  by_cases h2 : next < wd.next_allowed_address
  · simp [h2, hw]
  · simp [h2, hw]

theorem make_snapshot_page_logs (k : kernel) (data : task_data) (a : Nat) (pte : pte_t) :
    event.dbg_making_snapshot a ∈ (make_snapshot_page k data a pte).2.2.2 := by
  unfold make_snapshot_page
  rcases add_snapshot_page_spec k data a with hf | ⟨d1, sp1, he, -⟩
  · rw [hf]; simp
  · rw [he]
    simp only
    cases pte.pte_none <;> cases pte.pte_write <;> simp

theorem snapshot_pte_entry_open (k : kernel) (st : capture_state) (addr next : Nat) (pte : pte_t)
    (h : open_policy st) :
    open_policy (snapshot_pte_entry k st addr next pte).2 ∧
    event.dbg_making_snapshot addr ∈ (snapshot_pte_entry k st addr next pte).2.trace ∧
    (∀ ev ∈ st.trace, ev ∈ (snapshot_pte_entry k st addr next pte).2.trace) := by
  obtain ⟨hb, ha, hc, hw⟩ := h
  obtain ⟨c1, c2⟩ := check_range_open hb ha hc hw addr next
  obtain ⟨-, -, -, -, f4, f5, f6, -⟩ := make_snapshot_page_frame k st.data addr pte
  have hne : ¬ (page_walk_action.ACTION_SUBTREE = page_walk_action.ACTION_CONTINUE) := by
    decide
  unfold snapshot_pte_entry
  simp only [c1, hne, if_false]
  refine ⟨⟨f6.trans hb, f5.trans ha, (congrArg snapshot_config.block f4).trans hc, c2⟩, ?_, ?_⟩
  · exact List.mem_append_right _ (make_snapshot_page_logs k st.data addr pte)
  · intro ev hev
    exact List.mem_append_left _ hev

theorem walk_page_vma_open (k : kernel) (entries : List walk_entry) :
    ∀ st : capture_state, open_policy st →
      open_policy (walk_page_vma k entries none st).2 ∧
      (∀ ev ∈ st.trace, ev ∈ (walk_page_vma k entries none st).2.trace) ∧
      ((walk_page_vma k entries none st).1 = 0 → ∀ e ∈ entries, 4 ≤ e.level →
        event.dbg_making_snapshot e.addr ∈ (walk_page_vma k entries none st).2.trace) := by
  induction entries with
  | nil => intro st h; exact ⟨h, fun _ h => h, fun _ e he => by cases he⟩
  | cons e rest ih =>
    intro st h
    obtain ⟨hb, ha, hc, hw⟩ := h
    obtain ⟨c1, c2⟩ := check_range_open hb ha hc hw e.addr e.next
    unfold walk_page_vma
    simp only [Bool.false_eq_true, if_false]
    by_cases h2 : e.level < 2
    · simp only [h2, if_true]
      obtain ⟨i1, i2, i3⟩ := ih { st with walk_data :=
        (snapshot_walk_check_range st.data st.walk_data e.addr e.next).2 } ⟨hb, ha, hc, c2⟩
      refine ⟨i1, i2, fun hres x hx hlev => ?_⟩
      rcases List.mem_cons.1 hx with hx | hx
      · subst hx; omega
      · exact i3 hres x hx hlev
    · by_cases h4 : e.level < 4
      · simp only [h2, h4, if_true, if_false, c1]
        obtain ⟨i1, i2, i3⟩ := ih { st with walk_data :=
          (snapshot_walk_check_range st.data st.walk_data e.addr e.next).2 } ⟨hb, ha, hc, c2⟩
        refine ⟨i1, i2, fun hres x hx hlev => ?_⟩
        rcases List.mem_cons.1 hx with hx | hx
        · subst hx; omega
        · exact i3 hres x hx hlev
      · simp only [h2, h4, if_false]
        obtain ⟨p1, p2, p3⟩ := snapshot_pte_entry_open k st e.addr e.next e.pte ⟨hb, ha, hc, hw⟩
        split
        · rename_i hne
          exact ⟨p1, p3, fun h0 => absurd h0 hne⟩
        · obtain ⟨i1, i2, i3⟩ := ih (snapshot_pte_entry k st e.addr e.next e.pte).2 p1
          refine ⟨i1, fun ev hev => i2 ev (p3 ev hev), fun hres x hx hlev => ?_⟩
          rcases List.mem_cons.1 hx with hx | hx
          · subst hx; exact i2 _ p2
          · exact i3 hres x hx hlev


theorem take_memory_snapshot_loop_open (k : kernel) (mm : mm_struct)
    (vmas : List vm_area_struct) :
    ∀ st : capture_state, open_policy st →
      (∀ ev ∈ st.trace, ev ∈ (take_memory_snapshot_loop k mm vmas st).2.trace) ∧
      ((take_memory_snapshot_loop k mm vmas st).1 = 0 →
        ∀ v ∈ vmas, capture_skips mm st.data v = false →
          ∀ e ∈ mm.page_table v, 4 ≤ e.level →
            event.dbg_making_snapshot e.addr ∈
              (take_memory_snapshot_loop k mm vmas st).2.trace) := by
  induction vmas with
  | nil => intro st _; exact ⟨fun _ h => h, fun _ v hv => by cases hv⟩
  | cons pvma rest ih =>
    intro st hopen
    unfold take_memory_snapshot_loop
    rw [add_snapshot_vma_eq]
    cases hr : vma_record k pvma with
    | none =>
      simp only
      exact ⟨fun ev hev => List.mem_append_left _ hev, fun h => by simp [ENOMEM] at h⟩
    | some r =>
      simp only
      split
      · rename_i hskip
        have hpol : same_policy st.data { st.data with ss := { st.data.ss with
              all_vmas := list_add_tail r st.data.ss.all_vmas } } := ⟨rfl, rfl, rfl, rfl⟩
        have hs : capture_skips mm st.data pvma = true := by
          rw [← capture_skips_congr mm hpol]; exact hskip
        obtain ⟨i1, i2⟩ := ih
          { st with data := { st.data with ss := { st.data.ss with
              all_vmas := list_add_tail r st.data.ss.all_vmas } } } hopen
        refine ⟨i1, fun hres v hv hsel => ?_⟩
        rcases List.mem_cons.1 hv with hv | hv
        · subst hv; rw [hs] at hsel; cases hsel
        · exact i2 hres v hv (by rw [capture_skips_congr mm hpol]; exact hsel)
      · have hpol : same_policy st.data { st.data with ss := { st.data.ss with
              all_vmas := list_add_tail r st.data.ss.all_vmas,
              snapshotted_vmas := list_add_tail r st.data.ss.snapshotted_vmas } } :=
          ⟨rfl, rfl, rfl, rfl⟩
        obtain ⟨w1, -, -, -⟩ := walk_page_vma_spec k (mm.page_table pvma) none
          { st with data := { st.data with ss := { st.data.ss with
              all_vmas := list_add_tail r st.data.ss.all_vmas,
              snapshotted_vmas := list_add_tail r st.data.ss.snapshotted_vmas } } }
        obtain ⟨o1, o2, o3⟩ := walk_page_vma_open k (mm.page_table pvma)
          { st with data := { st.data with ss := { st.data.ss with
              all_vmas := list_add_tail r st.data.ss.all_vmas,
              snapshotted_vmas := list_add_tail r st.data.ss.snapshotted_vmas } } } hopen
        split
        · rename_i hne
          exact ⟨o2, fun h => absurd h hne⟩
        · rename_i hz
          have hz2 : (walk_page_vma k (mm.page_table pvma) none
            { st with data := { st.data with ss := { st.data.ss with
              all_vmas := list_add_tail r st.data.ss.all_vmas,
              snapshotted_vmas := list_add_tail r st.data.ss.snapshotted_vmas } } }).1 = 0 := by
            simpa using hz
          obtain ⟨i1, i2⟩ := ih (walk_page_vma k (mm.page_table pvma) none
            { st with data := { st.data with ss := { st.data.ss with
              all_vmas := list_add_tail r st.data.ss.all_vmas,
              snapshotted_vmas := list_add_tail r st.data.ss.snapshotted_vmas } } }).2 o1
          have hpol2 := same_policy_trans hpol w1
          refine ⟨fun ev hev => i1 ev (o2 ev hev), fun hres v hv hsel e he hlev => ?_⟩
          rcases List.mem_cons.1 hv with hv | hv
          · subst hv
            exact i1 _ (o3 hz2 e he hlev)
          · exact i2 hres v hv (by rw [capture_skips_congr mm hpol2]; exact hsel) e he hlev

/-- C12, as the code has it.  After a successful `take_memory_snapshot` every
page for which the capture called `make_snapshot_page` (the page walk of a
selected mapping reported its page-table entry and the range classifier did not
skip it) has a page record with `dirty = false` and `in_dirty_list = false`.
With both range lists empty and `BLOCK` unset that is every page whose entry the
walk reports under a mapping the selection rule selects. -/
theorem take_memory_snapshot_records_visited_pages (k : kernel) (mm : mm_struct)
    (data : task_data) (h : (take_memory_snapshot k mm data).1 = 0) :
    (∀ a, event.dbg_making_snapshot a ∈ (take_memory_snapshot k mm data).2.2 →
      ∃ sp, get_snapshot_page (take_memory_snapshot k mm data).2.1 a = some sp ∧
        sp.dirty = false ∧ sp.in_dirty_list = false) ∧
    (data.blocklist = [] → data.allowlist = [] → data.config.block = false →
      ∀ v ∈ mm.mmap, capture_selects mm data v → ∀ e ∈ mm.page_table v, 4 ≤ e.level →
        ∃ sp, get_snapshot_page (take_memory_snapshot k mm data).2.1 e.addr = some sp ∧
          sp.dirty = false ∧ sp.in_dirty_list = false) := by
  obtain ⟨-, -, c3⟩ := take_memory_snapshot_fresh k mm data h
  have hrec : ∀ a, event.dbg_making_snapshot a ∈ (take_memory_snapshot k mm data).2.2 →
      ∃ sp, get_snapshot_page (take_memory_snapshot k mm data).2.1 a = some sp ∧
        sp.dirty = false ∧ sp.in_dirty_list = false := by
    intro a ha
    obtain ⟨sp, g1, g2, -, g4⟩ := c3 a ha
    exact ⟨sp, g1, g2, g4⟩
  refine ⟨hrec, fun hb ha hc v hv hsel e he hlev => hrec e.addr ?_⟩
  obtain ⟨-, o2⟩ := take_memory_snapshot_loop_open k mm mm.mmap
    { data := data, walk_data := { next_allowed_address := 0, next_blocked_address := 0 },
      trace := [] } ⟨hb, ha, hc, rfl⟩
  exact o2 h v hv ((capture_skips_iff mm data v).2 hsel) e he hlev

/-- C12, witness: the first capture of one writable page at `0x1000`, and the
first capture, without range lists, of the two-page mapping, whose second page
is at `0x2000`. -/
theorem take_memory_snapshot_records_visited_pages_witness :
    (∃ sp, get_snapshot_page (take_memory_snapshot kernel_ok (mm_one_page pte_writable)
        (empty_task ⟨false, false, false⟩)).2.1 4096 = some sp ∧
      sp.dirty = false ∧ sp.in_dirty_list = false) ∧
    (∃ sp, get_snapshot_page (take_memory_snapshot kernel_ok mm_two_pages
        (empty_task ⟨false, false, false⟩)).2.1 8192 = some sp ∧
      sp.dirty = false ∧ sp.in_dirty_list = false) :=
  ⟨(take_memory_snapshot_records_visited_pages kernel_ok (mm_one_page pte_writable)
      (empty_task ⟨false, false, false⟩) (by decide)).1 4096 (by decide),
    (take_memory_snapshot_records_visited_pages kernel_ok mm_two_pages
      (empty_task ⟨false, false, false⟩) (by decide)).2 rfl rfl rfl
      { vm_start := 4096, vm_end := 12288, vm_flags := 3, anonymous := true } (by decide)
      (by decide) { level := 4, addr := 8192, next := 12288, pte := pte_writable } (by decide)
      (by decide)⟩

/-! ## Range classifier -/

theorem check_range_single_block {data : task_data} {b e : Nat}
    (hb : data.blocklist = [{ start := b, end_ := e }]) (ha : data.allowlist = [])
    (hc : data.config.block = false) (wd : snapshot_walk_data) (addr next : Nat) :
    snapshot_walk_check_range data wd addr next =
      if next < wd.next_blocked_address then (page_walk_action.ACTION_CONTINUE, wd)
      else if next < wd.next_allowed_address then (page_walk_action.ACTION_SUBTREE, wd)
      else if next > b ∧ addr < e then
        if b ≤ addr ∧ e ≥ next then
          (page_walk_action.ACTION_CONTINUE, { wd with next_blocked_address := e })
        else (page_walk_action.ACTION_SUBTREE, wd)
      else (page_walk_action.ACTION_SUBTREE, { wd with next_allowed_address := next }) := by
  unfold snapshot_walk_check_range intersect_blocklist intersect_allowlist
  rw [hb, ha, hc]
  by_cases h1 : next < wd.next_blocked_address
  · simp [h1]
  · by_cases h2 : next < wd.next_allowed_address
    · simp [h1, h2]
    · by_cases h3 : next > b ∧ addr < e
      · by_cases h4 : b ≤ addr ∧ e ≥ next
        · simp [h1, h2, h3, h4, List.find?_cons]
        · simp [h1, h2, h3, h4, List.find?_cons]
      · simp [h1, h2, h3, List.find?_cons]

theorem classify_intervals_single_block_inv {data : task_data} {b e : Nat}
    (hb : data.blocklist = [{ start := b, end_ := e }]) (ha : data.allowlist = [])
    (hc : data.config.block = false) :
    ∀ (l : List (Nat × Nat)) (wd : snapshot_walk_data),
      ascending_preorder l → wd.next_blocked_address ≤ e →
      (∀ q ∈ l, (q.2 < wd.next_blocked_address → b ≤ q.1 ∧ q.2 ≤ e) ∧
        (¬ q.2 < wd.next_blocked_address → q.2 < wd.next_allowed_address →
          ¬ (b ≤ q.1 ∧ q.2 ≤ e))) →
      classify_intervals data wd l =
        l.map (fun p => if b ≤ p.1 ∧ p.2 ≤ e then page_walk_action.ACTION_CONTINUE
                        else page_walk_action.ACTION_SUBTREE) := by
  intro l
  induction l with
  | nil => intro wd _ _ _; rfl
  | cons p rest ih =>
    intro wd hl hB hinv
    obtain ⟨addr, next⟩ := p
    have hne : addr < next := hl.1 (addr, next) (List.mem_cons_self _ _)
    have hpw := List.pairwise_cons.1 hl.2
    have hrest : ascending_preorder rest :=
      ⟨fun q hq => hl.1 q (List.mem_cons_of_mem _ hq), hpw.2⟩
    have hhead := hinv (addr, next) (List.mem_cons_self _ _)
    have htail : ∀ q ∈ rest, _ := fun q hq => hinv q (List.mem_cons_of_mem _ hq)
    simp only [classify_intervals, List.map_cons, check_range_single_block hb ha hc]
    by_cases h1 : next < wd.next_blocked_address
    · have hc1 := hhead.1 h1
      simp only [h1, if_true, hc1, and_self]
      rw [ih wd hrest hB htail]
    · by_cases h2 : next < wd.next_allowed_address
      · have hc2 := hhead.2 h1 h2
        simp only [h1, h2, if_true, if_false, hc2]
        rw [ih wd hrest hB htail]
      · by_cases h3 : next > b ∧ addr < e
        · by_cases h4 : b ≤ addr ∧ e ≥ next
          · have h5 : b ≤ addr ∧ next ≤ e := h4
            simp only [h1, h2, h3, h4, h5, and_self, if_true, if_false]
            rw [ih _ hrest (le_refl _)]
            intro q hq
            have hq1 := hl.1 q (List.mem_cons_of_mem _ hq)
            have hq2 := hpw.1 q hq
            have hq3 := htail q hq
            simp only at hq2 hq3 ⊢
            constructor
            · intro h; omega
            · intro h6 h7 h8
              by_cases h9 : q.2 < wd.next_blocked_address
              · omega
              · exact hq3.2 h9 h7 h8
          · have h5 : ¬ (b ≤ addr ∧ next ≤ e) := h4
            simp only [h1, h2, h3, h4, h5, and_self, if_true, if_false]
            rw [ih wd hrest hB htail]
        · have h5 : ¬ (b ≤ addr ∧ next ≤ e) := by omega
          simp only [h1, h2, h3, h5, if_true, if_false]
          rw [ih { wd with next_allowed_address := next } hrest hB]
          intro q hq
          have hq1 := hl.1 q (List.mem_cons_of_mem _ hq)
          have hq2 := hpw.1 q hq
          have hq3 := htail q hq
          simp only at hq2 hq3 ⊢
          refine ⟨hq3.1, fun h6 h7 => ?_⟩
          omega

/-- C13.  With a block list of the single range `[b, e)`, an empty allow list,
`BLOCK` unset and a fresh cache, classifying the intervals of an ascending
pre-order walk one after the other returns `ACTION_CONTINUE` exactly for the
intervals that lie inside `[b, e)` and `ACTION_SUBTREE` for all others. -/
theorem classify_intervals_single_block (data : task_data) (b e : Nat)
    (l : List (Nat × Nat))
    (hb : data.blocklist = [{ start := b, end_ := e }]) (ha : data.allowlist = [])
    (hc : data.config.block = false) (hl : ascending_preorder l) :
    classify_intervals data { next_allowed_address := 0, next_blocked_address := 0 } l =
      l.map (fun p => if b ≤ p.1 ∧ p.2 ≤ e then page_walk_action.ACTION_CONTINUE
                      else page_walk_action.ACTION_SUBTREE) :=
  classify_intervals_single_block_inv hb ha hc l _ hl (Nat.zero_le _)
    (fun _ _ => ⟨fun h => absurd h (Nat.not_lt_zero _), fun _ h => absurd h (Nat.not_lt_zero _)⟩)

/-- C13, witness: block list `[0x1000, 0x2000)` and the walk `[0, 0x3000)`,
`[0, 0x1000)`, `[0x1000, 0x2000)`, `[0x2000, 0x3000)`. -/
theorem classify_intervals_single_block_witness :
    classify_intervals (task_blocking 4096 8192)
        { next_allowed_address := 0, next_blocked_address := 0 }
        [(0, 12288), (0, 4096), (4096, 8192), (8192, 12288)] =
      [page_walk_action.ACTION_SUBTREE, page_walk_action.ACTION_SUBTREE,
       page_walk_action.ACTION_CONTINUE, page_walk_action.ACTION_SUBTREE] :=
  (classify_intervals_single_block (task_blocking 4096 8192) 4096 8192
    [(0, 12288), (0, 4096), (4096, 8192), (8192, 12288)] rfl rfl rfl
    (by unfold ascending_preorder; decide)).trans (by decide)

theorem find_first_overlap {pre post : List vmrange} {r : vmrange} {addr next : Nat}
    (hpre : ∀ n ∈ pre, ¬ (next > n.start ∧ addr < n.end_))
    (hr : next > r.start ∧ addr < r.end_) :
    (pre ++ r :: post).find? (fun n => decide (next > n.start ∧ addr < n.end_)) = some r := by
  induction pre with
  | nil => simp [List.find?_cons, hr]
  | cons n ns ih =>
    have hn := hpre n (List.mem_cons_self _ _)
    simp only [List.cons_append, List.find?_cons, hn, decide_False]
    exact ih (fun m hm => hpre m (List.mem_cons_of_mem _ hm))

theorem intersect_blocklist_first {data : task_data} {pre post : List vmrange} {r : vmrange}
    {addr next : Nat} (hlist : data.blocklist = pre ++ r :: post)
    (hpre : ∀ n ∈ pre, ¬ (next > n.start ∧ addr < n.end_))
    (hr : next > r.start ∧ addr < r.end_) :
    intersect_blocklist data addr next = some r := by
  unfold intersect_blocklist
  rw [hlist]
  exact find_first_overlap hpre hr

/-- A block list of two overlapping entries, which `exclude_vmrange` does not
build (`exclude_vmrange_keeps_only_last`): the list holds `[0x1800, 0x2800)` and
then `[0x1000, 0x2000)`.  The interval `[0x1000, 0x2000)` is not answered by a fast
path and the second entry covers it, but the walk over the block list stops at
the first entry, which overlaps the interval without covering it: the result is
`ACTION_SUBTREE` and `next_blocked_address` stays 0. -/
theorem snapshot_walk_check_range_rule3_fails :
    (∃ r ∈ task_overlapping_blocks.blocklist, r.start ≤ 4096 ∧ r.end_ ≥ 8192) ∧
    snapshot_walk_check_range task_overlapping_blocks
        { next_allowed_address := 0, next_blocked_address := 0 } 4096 8192 =
      (page_walk_action.ACTION_SUBTREE,
        { next_allowed_address := 0, next_blocked_address := 0 }) := by
  decide

/-- Rule 3 of the classifier over any block list.  For a non-empty interval
`[addr, next)` not answered by a fast path, if a block-list entry `r` covers the
interval and no entry
before `r` in the list overlaps the interval, then `snapshot_walk_check_range`
returns `ACTION_CONTINUE` and sets `next_blocked_address` to the end of `r`.
That is the case for every covering entry when no two entries of the block list
overlap. -/
theorem snapshot_walk_check_range_first_overlap (data : task_data)
    (walk_data : snapshot_walk_data) (addr next : Nat)
    (hb : ¬ next < walk_data.next_blocked_address)
    (ha : ¬ next < walk_data.next_allowed_address)
    (hne : addr < next) :
    (∀ pre r post, data.blocklist = pre ++ r :: post →
      (∀ n ∈ pre, ¬ (next > n.start ∧ addr < n.end_)) →
      r.start ≤ addr ∧ r.end_ ≥ next →
      snapshot_walk_check_range data walk_data addr next =
        (page_walk_action.ACTION_CONTINUE,
          { walk_data with next_blocked_address := r.end_ })) ∧
    (data.blocklist.Pairwise (fun x y => ¬ (x.end_ > y.start ∧ x.start < y.end_)) →
      ∀ r ∈ data.blocklist, r.start ≤ addr ∧ r.end_ ≥ next →
      snapshot_walk_check_range data walk_data addr next =
        (page_walk_action.ACTION_CONTINUE,
          { walk_data with next_blocked_address := r.end_ })) := by
  have hfirst : ∀ pre r post, data.blocklist = pre ++ r :: post →
      (∀ n ∈ pre, ¬ (next > n.start ∧ addr < n.end_)) →
      r.start ≤ addr ∧ r.end_ ≥ next →
      snapshot_walk_check_range data walk_data addr next =
        (page_walk_action.ACTION_CONTINUE,
          { walk_data with next_blocked_address := r.end_ }) := by
    intro pre r post hlist hpre hcov
    have hi := intersect_blocklist_first hlist hpre (by omega)
    unfold snapshot_walk_check_range
    simp only [hb, ha, if_false, hi, hcov, and_self, if_true]
  refine ⟨hfirst, fun hpw r hr hcov => ?_⟩
  obtain ⟨pre, post, hlist⟩ := List.append_of_mem hr
  refine hfirst pre r post hlist (fun n hn hov => ?_) hcov
  rw [hlist] at hpw
  have := (List.pairwise_append.1 hpw).2.2 n hn r (List.mem_cons_self _ _)
  exact this (by omega)

/-- Block list `[0x1000, 0x2000)`, interval `[0x1000, 0x2000)`, fresh cache; the
entry is the first of the list, and the list has no two entries that
overlap. -/
theorem snapshot_walk_check_range_first_overlap_witness :
    snapshot_walk_check_range (task_blocking 4096 8192)
        { next_allowed_address := 0, next_blocked_address := 0 } 4096 8192 =
      (page_walk_action.ACTION_CONTINUE,
        { next_allowed_address := 0, next_blocked_address := 8192 }) ∧
    snapshot_walk_check_range (task_blocking 4096 8192)
        { next_allowed_address := 4096, next_blocked_address := 0 } 4096 8192 =
      (page_walk_action.ACTION_CONTINUE,
        { next_allowed_address := 4096, next_blocked_address := 8192 }) :=
  ⟨(snapshot_walk_check_range_first_overlap (task_blocking 4096 8192)
      { next_allowed_address := 0, next_blocked_address := 0 } 4096 8192 (by decide)
      (by decide) (by decide)).1 [] { start := 4096, end_ := 8192 } [] rfl
      (fun _ h => by cases h) (by decide),
    (snapshot_walk_check_range_first_overlap (task_blocking 4096 8192)
      { next_allowed_address := 4096, next_blocked_address := 0 } 4096 8192 (by decide)
      (by decide) (by decide)).2 (List.pairwise_singleton _ _) { start := 4096, end_ := 8192 }
      (List.mem_cons_self _ _) (by decide)⟩

/-- C14.  The walk over the block list meets at most one entry, whatever calls of
`exclude_vmrange` were made (`exclude_vmrange_blocklist`).  For every such
block list, every allow list and configuration, and every interval
`[addr, next)` the page walker hands over (`addr < next`) that is not answered
by a fast path: if a block-list entry `r` has `r.start ≤ addr` and
`r.end_ ≥ next`, then `snapshot_walk_check_range` returns `ACTION_CONTINUE` and
sets `next_blocked_address` to the end of `r`, leaving the other cached
boundary as it is. -/
theorem snapshot_walk_check_range_rule3 (data : task_data) (walk_data : snapshot_walk_data)
    (addr next : Nat) (r : vmrange)
    (hlen : data.blocklist.length ≤ 1)
    (hb : ¬ next < walk_data.next_blocked_address)
    (ha : ¬ next < walk_data.next_allowed_address)
    (hne : addr < next)
    (hr : r ∈ data.blocklist) (hcov : r.start ≤ addr ∧ r.end_ ≥ next) :
    snapshot_walk_check_range data walk_data addr next =
      (page_walk_action.ACTION_CONTINUE,
        { next_allowed_address := walk_data.next_allowed_address,
          next_blocked_address := r.end_ }) := by
  have hlist : data.blocklist = [] ++ r :: [] := by
    cases hl : data.blocklist with
    | nil => rw [hl] at hr; cases hr
    | cons x xs =>
      rw [hl] at hr hlen
      cases xs with
      | nil =>
        simp only [List.mem_singleton] at hr
        rw [hr]
        rfl
      | cons y ys => simp at hlen
  exact (snapshot_walk_check_range_first_overlap data walk_data addr next hb ha hne).1
    [] r [] hlist (fun _ h => by cases h) hcov

/-- C14, witness: after `exclude_vmrange(0x1000, 0x3000)` on a fresh task, the
interval `[0x1000, 0x2000)` with the allowed boundary cached at `0x1000`. -/
theorem snapshot_walk_check_range_rule3_witness :
    (task_excluding 4096 12288).blocklist = [{ start := 4096, end_ := 12288 }] ∧
    snapshot_walk_check_range (task_excluding 4096 12288)
        { next_allowed_address := 4096, next_blocked_address := 0 } 4096 8192 =
      (page_walk_action.ACTION_CONTINUE,
        { next_allowed_address := 4096, next_blocked_address := 12288 }) :=
  ⟨by decide,
    snapshot_walk_check_range_rule3 (task_excluding 4096 12288)
      { next_allowed_address := 4096, next_blocked_address := 0 } 4096 8192
      { start := 4096, end_ := 12288 } (by decide) (by decide) (by decide) (by decide)
      (by decide) (by decide)⟩

theorem shares_address_iff {addr next : Nat} {n : vmrange} (h1 : addr < next)
    (h2 : n.start < n.end_) :
    shares_address addr next n ↔ (next > n.start ∧ addr < n.end_) := by
  constructor
  · rintro ⟨x, a1, a2, a3, a4⟩
    omega
  · intro h
    refine ⟨max addr n.start, le_max_left _ _, ?_, le_max_right _ _, ?_⟩
    · exact max_lt h1 h.1
    · exact max_lt h.2 h2

theorem check_range_default (data : task_data)
    (walk_data : snapshot_walk_data) (addr next : Nat)
    (hb : ¬ next < walk_data.next_blocked_address)
    (ha : ¬ next < walk_data.next_allowed_address)
    (hcov : ∀ r ∈ data.blocklist, ¬ (r.start ≤ addr ∧ next ≤ r.end_)) :
    ((∃ n ∈ data.allowlist, next > n.start ∧ addr < n.end_) →
      (snapshot_walk_check_range data walk_data addr next).1 =
        page_walk_action.ACTION_SUBTREE) ∧
    ((¬ ∃ n ∈ data.allowlist, next > n.start ∧ addr < n.end_) → data.config.block = true →
      (snapshot_walk_check_range data walk_data addr next).1 =
        page_walk_action.ACTION_CONTINUE) ∧
    ((¬ ∃ n ∈ data.allowlist, next > n.start ∧ addr < n.end_) → data.config.block = false →
      (snapshot_walk_check_range data walk_data addr next).1 =
        page_walk_action.ACTION_SUBTREE) := by
  have hnf : (snapshot_walk_check_range data walk_data addr next).1 =
      match intersect_allowlist data addr next with
      | some _ => page_walk_action.ACTION_SUBTREE
      | none => if data.config.block then page_walk_action.ACTION_CONTINUE
                else page_walk_action.ACTION_SUBTREE := by
    unfold snapshot_walk_check_range
    simp only [hb, ha, if_false]
    cases hi : intersect_blocklist data addr next with
    | none =>
      simp only
      cases intersect_allowlist data addr next with
      | some n => rfl
      | none => simp only; split <;> rfl
    | some r =>
      have hm : r ∈ data.blocklist := List.mem_of_find?_eq_some hi
      have := hcov r hm
      simp only [ge_iff_le, this, if_false]
      cases intersect_allowlist data addr next with
      | some n => rfl
      | none => simp only; split <;> rfl
  rw [hnf]
  refine ⟨fun hex => ?_, fun hex hc => ?_, fun hex hc => ?_⟩
  · cases hal : intersect_allowlist data addr next with
    | some n => rfl
    | none =>
      obtain ⟨n, hn, ho⟩ := hex
      have := List.find?_eq_none.1 hal n hn
      simp at this
      omega
  · cases hal : intersect_allowlist data addr next with
    | some n =>
      exact absurd ⟨n, List.mem_of_find?_eq_some hal, by simpa using List.find?_some hal⟩ hex
    | none => simp [hc]
  · cases hal : intersect_allowlist data addr next with
    | some n => rfl
    | none => simp [hc]

/-- C15.  For a non-empty interval `[addr, next)` not answered by a fast path and
not covered by any block-list entry, with non-empty allow-list ranges:
`snapshot_walk_check_range` returns `ACTION_SUBTREE` when the interval has an
address in common with some allow-list entry; otherwise it returns
`ACTION_CONTINUE` when `BLOCK` is set and `ACTION_SUBTREE` when it is unset. -/
theorem snapshot_walk_check_range_default_policy (data : task_data)
    (walk_data : snapshot_walk_data) (addr next : Nat)
    (hb : ¬ next < walk_data.next_blocked_address)
    (ha : ¬ next < walk_data.next_allowed_address)
    (hne : addr < next)
    (hwf : ∀ n ∈ data.allowlist, n.start < n.end_)
    (hcov : ∀ r ∈ data.blocklist, ¬ (r.start ≤ addr ∧ next ≤ r.end_)) :
    ((∃ n ∈ data.allowlist, shares_address addr next n) →
      (snapshot_walk_check_range data walk_data addr next).1 =
        page_walk_action.ACTION_SUBTREE) ∧
    ((¬ ∃ n ∈ data.allowlist, shares_address addr next n) → data.config.block = true →
      (snapshot_walk_check_range data walk_data addr next).1 =
        page_walk_action.ACTION_CONTINUE) ∧
    ((¬ ∃ n ∈ data.allowlist, shares_address addr next n) → data.config.block = false →
      (snapshot_walk_check_range data walk_data addr next).1 =
        page_walk_action.ACTION_SUBTREE) := by
  have hiff : (∃ n ∈ data.allowlist, shares_address addr next n) ↔
      ∃ n ∈ data.allowlist, next > n.start ∧ addr < n.end_ := by
    constructor
    · rintro ⟨n, hn, h⟩
      exact ⟨n, hn, (shares_address_iff hne (hwf n hn)).1 h⟩
    · rintro ⟨n, hn, h⟩
      exact ⟨n, hn, (shares_address_iff hne (hwf n hn)).2 h⟩
  obtain ⟨d1, d2, d3⟩ := check_range_default data walk_data addr next hb ha hcov
  exact ⟨fun h => d1 (hiff.1 h), fun h => d2 (fun h2 => h (hiff.2 h2)),
    fun h => d3 (fun h2 => h (hiff.2 h2))⟩

/-- C15, witness: allow list `[0x1000, 0x2000)` with `BLOCK` set; the interval
`[0, 0x2000)` overlaps the allowed range in part and is descended into. -/
theorem snapshot_walk_check_range_default_policy_witness :
    (snapshot_walk_check_range (task_allowing 4096 8192 true)
        { next_allowed_address := 0, next_blocked_address := 0 } 0 8192).1 =
      page_walk_action.ACTION_SUBTREE :=
  (snapshot_walk_check_range_default_policy (task_allowing 4096 8192 true)
    { next_allowed_address := 0, next_blocked_address := 0 } 0 8192 (by decide) (by decide)
    (by decide) (by decide) (fun _ h => by cases h)).1
    ⟨{ start := 4096, end_ := 8192 }, List.mem_cons_self _ _, 4096, by decide, by decide,
      by decide, by decide⟩

/-! ## Lookup cache -/

theorem invalidate_task_data_cache_spec (get_task_data : Option Nat → Option Nat)
    (per_cpu : List task_data_cache) (task : Nat) :
    cache_invalidated get_task_data task per_cpu
      (invalidate_task_data_cache per_cpu (some task)) := by
  have h1 : ∀ c ∈ invalidate_task_data_cache per_cpu (some task), c.last_task ≠ some task := by
    intro c hc
    unfold invalidate_task_data_cache at hc
    obtain ⟨o, -, ho⟩ := List.mem_map.1 hc
    by_cases h : o.last_task = some task
    · simp only [h, if_true] at ho
      rw [← ho]
      simp
    · simp only [h, if_false] at ho
      rw [← ho]
      exact h
  refine ⟨h1, ?_, fun cpu => ?_⟩
  · unfold invalidate_task_data_cache
    induction per_cpu with
    | nil => exact List.Forall₂.nil
    | cons o os ih =>
      refine List.Forall₂.cons ⟨fun h => by simp [h], fun h => by simp [h]⟩ ?_
      exact ih (fun c hc => by
        apply h1
        unfold invalidate_task_data_cache
        exact List.mem_cons_of_mem _ hc)
  · unfold get_task_data_with_cache
    have hne : (List.getD (invalidate_task_data_cache per_cpu (some task)) cpu
        { last_task := none, last_task_data := none }).last_task ≠ some task := by
      by_cases hlt : cpu < (invalidate_task_data_cache per_cpu (some task)).length
      · rw [List.getD_eq_getElem _ _ hlt]
        exact h1 _ (List.getElem_mem _)
      · rw [List.getD_eq_default _ _ (by omega)]
        simp
    simp only [hne, if_false]

/-- C16.  After `clean_memory_snapshot` and after `take_memory_snapshot` for a
task, no CPU's slot of the lookup cache names the task: the slots that named it
are cleared in both variables, the others are unchanged, and the next
`get_task_data_with_cache` for the task on any CPU returns what `get_task_data`
returns. -/
theorem lookup_cache_coherent (get_task_data : Option Nat → Option Nat) (k : kernel)
    (mm : mm_struct) (per_cpu : List task_data_cache) (task : Nat) (data : task_data) :
    cache_invalidated get_task_data task per_cpu
      (clean_memory_snapshot per_cpu (some task) data).1 ∧
    cache_invalidated get_task_data task per_cpu
      (take_memory_snapshot_per_cpu k mm per_cpu (some task) data).1 :=
  ⟨invalidate_task_data_cache_spec get_task_data per_cpu task,
    invalidate_task_data_cache_spec get_task_data per_cpu task⟩

/-! ## Allocation failure in the write-fault handler -/

/-- C17, the code at the failing input.  The page at `0x1000` is captured as a
private writable page: its record is not dirty, not linked and has no content
buffer.  A write fault arrives while `kmalloc(PAGE_SIZE)` fails.
`record_dirty_page` logs the failure and returns `NULL`, but it has already set
`dirty` and linked the record: afterwards the record is dirty, in the dirty
list, and owns no buffer. -/
theorem record_dirty_page_alloc_failure_marks_dirty :
    (get_snapshot_page (task_captured ⟨false, false, false⟩) 4096).map
        (fun sp => (sp.page_prot, sp.dirty, sp.in_dirty_list, sp.page_data.isNone)) =
      some (page_kind.priv, false, false, true) ∧
    (task_captured ⟨false, false, false⟩).ss.dirty_pages = [] ∧
    kernel_no_buffer.kmalloc_page_data 4096 = false ∧
    (record_dirty_page kernel_no_buffer (task_captured ⟨false, false, false⟩) 4096
        (page_filled 1)).2.1.isNone = true ∧
    (record_dirty_page kernel_no_buffer (task_captured ⟨false, false, false⟩) 4096
        (page_filled 1)).2.2 = [event.fatal_alloc] ∧
    (get_snapshot_page (task_written_unsaved ⟨false, false, false⟩) 4096).map
        (fun sp => (sp.dirty, sp.in_dirty_list, sp.has_been_copied, sp.page_data.isNone)) =
      some (true, true, false, true) ∧
    (task_written_unsaved ⟨false, false, false⟩).ss.dirty_pages = [4096] := by
  decide

/-! ## Write protection applied by the drain -/

theorem recover_unlink_kind (st : recover_state) (sp : snapshot_page) :
    (∀ b, event.set_wrprotect b ∈ (recover_unlink st sp).trace →
      event.set_wrprotect b ∈ st.trace) ∧
    (∀ ev ∈ st.trace, ev ∈ (recover_unlink st sp).trace) ∧
    (∀ sp0, get_snapshot_page st.data sp.page_base = some sp0 →
      ∃ sp2, get_snapshot_page (recover_unlink st sp).data sp.page_base = some sp2 ∧
        sp2.page_prot = sp.page_prot) := by
  unfold recover_unlink
  refine ⟨fun b hb => ?_, fun ev hev => ?_, fun sp0 h0 => ?_⟩
  · simp only at hb
    split at hb
    · simpa using hb
    · exact hb
  · simp only
    split
    · exact List.mem_append_left _ hev
    · exact hev
  · exact ⟨_, @get_put_same _ _ _ { sp with in_dirty_list := false } h0 rfl, rfl⟩

/-- The effect of one iteration of the drain on the write protection and on the
kind of the entry. -/
theorem recover_page_kind (k : kernel) (st : recover_state) (sp : snapshot_page)
    (hsp : get_snapshot_page st.data sp.page_base = some sp) :
    (∀ ev ∈ st.trace, ev ∈ (recover_page k st sp).trace) ∧
    (∀ b, b ≠ sp.page_base → event.set_wrprotect b ∈ (recover_page k st sp).trace →
      event.set_wrprotect b ∈ st.trace) ∧
    ((sp.dirty = true ∧ sp.has_been_copied = true ∧ k.walk_page_table sp.page_base = true) →
      event.set_wrprotect sp.page_base ∈ (recover_page k st sp).trace ∧
      ∃ sp2, get_snapshot_page (recover_page k st sp).data sp.page_base = some sp2 ∧
        sp2.page_prot = page_kind.priv) ∧
    (¬ (sp.dirty = true ∧ sp.has_been_copied = true ∧ k.walk_page_table sp.page_base = true) →
      (event.set_wrprotect sp.page_base ∈ (recover_page k st sp).trace →
        event.set_wrprotect sp.page_base ∈ st.trace) ∧
      ∃ sp2, get_snapshot_page (recover_page k st sp).data sp.page_base = some sp2 ∧
        sp2.page_prot = sp.page_prot) := by
  unfold recover_page
  split
  · rename_i hdc
    have hd : sp.dirty = true ∧ sp.has_been_copied = true := by
      cases h1 : sp.dirty <;> cases h2 : sp.has_been_copied <;> simp [h1, h2] at hdc ⊢
    simp only [do_recover_page]
    split
    · rename_i hw
      have hw2 : k.walk_page_table sp.page_base = false := by simpa using hw
      refine ⟨fun ev hev => List.mem_append_left _ hev, fun b _ hb => by simpa using hb,
        fun h => ?_, fun _ => ⟨fun hb => by simpa using hb, _, get_put_same hsp rfl, rfl⟩⟩
      rw [hw2] at h
      exact absurd h.2.2 (by decide)
    · rename_i hw
      have hw2 : k.walk_page_table sp.page_base = true := by simpa using hw
      obtain ⟨u1, u2, u3⟩ := recover_unlink_kind
        { st with mem := (match sp.page_data with
                    | some page_data =>
                      Function.update st.mem sp.page_base
                        (copy_page page_data (st.mem sp.page_base) (k.copy_to_user sp.page_base))
                    | none => st.mem),
                  trace := st.trace ++ [event.copy_to_user sp.page_base] ++
                    [event.set_wrprotect sp.page_base,
                     event.flush_tlb sp.page_base (sp.page_base + PAGE_SIZE)] }
        (set_snapshot_page_private { { sp with dirty := false } with has_had_pte := true })
      obtain ⟨sp2, v1, v2⟩ := u3 sp hsp
      refine ⟨fun ev hev => u2 ev (List.mem_append_left _ (List.mem_append_left _ hev)),
        fun b hne hb => ?_, fun _ => ⟨u2 _ (by simp [set_snapshot_page_private]), sp2, v1, v2⟩,
        fun h => absurd ⟨hd.1, hd.2, hw2⟩ h⟩
      simpa [hne] using u1 b hb
  · rename_i hdc
    have hnl : ¬ (sp.dirty = true ∧ sp.has_been_copied = true ∧
        k.walk_page_table sp.page_base = true) := by
      rintro ⟨h1, h2, -⟩
      simp [h1, h2] at hdc
    split
    · obtain ⟨u1, u2, u3⟩ := recover_unlink_kind st sp
      obtain ⟨sp2, v1, v2⟩ := u3 sp hsp
      exact ⟨u2, fun b _ hb => u1 b hb, fun h => absurd h hnl, fun _ => ⟨u1 _, sp2, v1, v2⟩⟩
    · split
      · rename_i hk
        have hkind : sp.page_prot = page_kind.none_pte := by
          simp [is_snapshot_page_none_pte] at hk
          exact hk.1
        obtain ⟨u1, u2, u3⟩ := recover_unlink_kind
          { st with trace := st.trace ++ do_recover_none_pte sp }
          { set_snapshot_page_none_pte sp with has_had_pte := false }
        obtain ⟨sp2, v1, v2⟩ := u3 sp hsp
        have hno : ∀ b, event.set_wrprotect b ∈ st.trace ++ do_recover_none_pte sp →
            event.set_wrprotect b ∈ st.trace := by
          intro b hb
          simpa [do_recover_none_pte] using hb
        exact ⟨fun ev hev => u2 ev (List.mem_append_left _ hev),
          fun b _ hb => hno b (u1 b hb), fun h => absurd h hnl,
          fun _ => ⟨fun hb => hno _ (u1 _ hb), sp2, v1, v2.trans hkind.symm⟩⟩
      · obtain ⟨u1, u2, u3⟩ := recover_unlink_kind st sp
        obtain ⟨sp2, v1, v2⟩ := u3 sp hsp
        exact ⟨u2, fun b _ hb => u1 b hb, fun h => absurd h hnl, fun _ => ⟨u1 _, sp2, v1, v2⟩⟩


theorem recover_pages_other (k : kernel) (a : Nat) (l : List Nat) :
    ∀ st : recover_state, a ∉ l →
      get_snapshot_page (recover_pages k l st).data a = get_snapshot_page st.data a ∧
      (event.set_wrprotect a ∈ (recover_pages k l st).trace →
        event.set_wrprotect a ∈ st.trace) ∧
      (∀ ev ∈ st.trace, ev ∈ (recover_pages k l st).trace) := by
  induction l with
  | nil => intro st _; exact ⟨rfl, fun h => h, fun _ h => h⟩
  | cons b rest ih =>
    intro st ha
    have hab : a ≠ b := fun h => ha (h ▸ List.mem_cons_self _ _)
    have har : a ∉ rest := fun h => ha (List.mem_cons_of_mem _ h)
    unfold recover_pages
    cases hg : get_snapshot_page st.data b with
    | none => exact ih st har
    | some sp =>
      have hb := get_base hg
      subst hb
      obtain ⟨-, p2, -⟩ := recover_page_spec k st sp hg
      obtain ⟨q1, q2, -, -⟩ := recover_page_kind k st sp hg
      obtain ⟨i1, i2, i3⟩ := ih (recover_page k st sp) har
      exact ⟨i1.trans (p2 a (fun h => hab h.symm)).1, fun h => q2 a hab (i2 h),
        fun ev hev => i3 ev (q1 ev hev)⟩

theorem recover_pages_kind (k : kernel) (a : Nat) (sp : snapshot_page) (l : List Nat) :
    ∀ st : recover_state, l.Nodup → a ∈ l → get_snapshot_page st.data a = some sp →
      ((sp.dirty = true ∧ sp.has_been_copied = true ∧ k.walk_page_table a = true) →
        event.set_wrprotect a ∈ (recover_pages k l st).trace ∧
        ∃ sp2, get_snapshot_page (recover_pages k l st).data a = some sp2 ∧
          sp2.page_prot = page_kind.priv) ∧
      (¬ (sp.dirty = true ∧ sp.has_been_copied = true ∧ k.walk_page_table a = true) →
        (event.set_wrprotect a ∈ (recover_pages k l st).trace →
          event.set_wrprotect a ∈ st.trace) ∧
        ∃ sp2, get_snapshot_page (recover_pages k l st).data a = some sp2 ∧
          sp2.page_prot = sp.page_prot) := by
  induction l with
  | nil => intro st _ ha; cases ha
  | cons b rest ih =>
    intro st hnd ha hsp
    obtain ⟨hbr, hnd2⟩ := List.nodup_cons.1 hnd
    unfold recover_pages
    cases hg : get_snapshot_page st.data b with
    | none =>
      have hab : a ≠ b := by
        intro h; rw [h, hg] at hsp; cases hsp
      exact ih st hnd2 ((List.mem_cons.1 ha).resolve_left hab) hsp
    | some spb =>
      have hb := get_base hg
      subst hb
      obtain ⟨-, p2, -⟩ := recover_page_spec k st spb hg
      obtain ⟨q1, q2, q3, q4⟩ := recover_page_kind k st spb hg
      by_cases hab : a = spb.page_base
      · subst hab
        rw [hg] at hsp
        cases hsp
        obtain ⟨i1, i2, i3⟩ := recover_pages_other k sp.page_base rest
          (recover_page k st sp) hbr
        refine ⟨fun h => ?_, fun h => ?_⟩
        · obtain ⟨r1, sp2, r2, r3⟩ := q3 h
          exact ⟨i3 _ r1, sp2, i1.trans r2, r3⟩
        · obtain ⟨r1, sp2, r2, r3⟩ := q4 h
          exact ⟨fun hm => r1 (i2 hm), sp2, i1.trans r2, r3⟩
      · have hsp2 : get_snapshot_page (recover_page k st spb).data a = some sp :=
          (p2 a (fun h => hab h.symm)).1.trans hsp
        obtain ⟨j1, j2⟩ := ih (recover_page k st spb) hnd2
          ((List.mem_cons.1 ha).resolve_left hab) hsp2
        refine ⟨j1, fun h => ?_⟩
        obtain ⟨r1, r2⟩ := j2 h
        exact ⟨fun hm => q2 a hab (r1 hm), r2⟩

theorem restore_vmas_body_no_wrprotect (k : kernel) (all_vmas : List snapshot_vma)
    (s : sweep_state) (a : Nat) (h : event.set_wrprotect a ∉ s.trace) :
    (∀ s2, restore_vmas_body k all_vmas s = Sum.inl s2 → event.set_wrprotect a ∉ s2.trace) ∧
    (∀ r, restore_vmas_body k all_vmas s = Sum.inr r → event.set_wrprotect a ∉ r.2) := by
  constructor
  · intro s2 hs
    unfold restore_vmas_body at hs
    simp only at hs
    repeat' split at hs
    all_goals (cases hs; try simp [sweep_advance, h])
  · intro r hs
    unfold restore_vmas_body at hs
    simp only at hs
    repeat' split at hs
    all_goals (cases hs; try simp [h])

theorem restore_vmas_loop_no_wrprotect (k : kernel) (all_vmas : List snapshot_vma) (a : Nat) :
    ∀ (fuel : Nat) (s : sweep_state) (r : Int × List event),
      event.set_wrprotect a ∉ s.trace → restore_vmas_loop k all_vmas fuel s = some r →
      event.set_wrprotect a ∉ r.2 := by
  intro fuel
  induction fuel with
  | zero =>
    intro s r h hr
    unfold restore_vmas_loop at hr
    split at hr
    · cases hr; exact h
    · cases hr
  | succ n ih =>
    intro s r h hr
    unfold restore_vmas_loop at hr
    split at hr
    · cases hr; exact h
    · obtain ⟨hb1, hb2⟩ := restore_vmas_body_no_wrprotect k all_vmas s a h
      simp only at hr
      split at hr
      · rename_i r2 heq
        cases hr
        exact hb2 _ heq
      · rename_i s2 heq
        exact ih s2 r (hb1 _ heq) hr

/-- C18, counterexample.  The page at `0x1000` is captured through a present,
read-only entry, so its record has kind `cow`; it is written and its content
saved.  `recover_memory_snapshot` returns 0, write-protects the page and leaves
the record with kind `priv`. -/
theorem recover_memory_snapshot_wrprotects_cow_page :
    (get_snapshot_page (take_memory_snapshot kernel_ok (mm_one_page pte_read_only)
        (empty_task ⟨false, false, false⟩)).2.1 4096).map (fun sp => sp.page_prot) =
      some page_kind.cow ∧
    (get_snapshot_page (one_page_written pte_read_only).1 4096).map
        (fun sp => (sp.page_prot, sp.dirty, sp.has_been_copied)) =
      some (page_kind.cow, true, true) ∧
    (one_page_written pte_read_only).1.ss.dirty_pages = [4096] ∧
    (recover_memory_snapshot kernel_ok 0 [] (one_page_written pte_read_only).1
        (one_page_written pte_read_only).2).map
        (fun r => (r.res, r.trace, (get_snapshot_page r.data 4096).map (fun sp => sp.page_prot))) =
      some (0, [event.copy_to_user 4096, event.set_wrprotect 4096, event.flush_tlb 4096 8192],
        some page_kind.priv) := by
  decide

/-- C18, as the code has it.  When `recover_memory_snapshot` returns 0, an entry of
the (duplicate-free) dirty list is write-protected, and its record gets kind
`priv`, exactly when the record is dirty with its content copied and
`walk_page_table` finds an entry for the page, whatever the kind of the record
was; every other entry is not write-protected and keeps its kind. -/
theorem recover_memory_snapshot_wrprotects_restored (k : kernel) (fuel : Nat)
    (mmap : List vm_area_struct) (data : task_data) (mem : user_memory) (r : recover_result)
    (a : Nat) (sp : snapshot_page)
    (hret : recover_memory_snapshot k fuel mmap data mem = some r) (hres : r.res = 0)
    (hnd : data.ss.dirty_pages.Nodup) (ha : a ∈ data.ss.dirty_pages)
    (hsp : get_snapshot_page data a = some sp) :
    ((sp.dirty = true ∧ sp.has_been_copied = true ∧ k.walk_page_table a = true) →
      event.set_wrprotect a ∈ r.trace ∧
      ∃ sp2, get_snapshot_page r.data a = some sp2 ∧ sp2.page_prot = page_kind.priv) ∧
    (¬ (sp.dirty = true ∧ sp.has_been_copied = true ∧ k.walk_page_table a = true) →
      event.set_wrprotect a ∉ r.trace ∧
      ∃ sp2, get_snapshot_page r.data a = some sp2 ∧ sp2.page_prot = sp.page_prot) := by
  unfold recover_memory_snapshot at hret
  simp only at hret
  generalize hpa : (if data.config.mmap = true then restore_vmas k fuel mmap data
    else some (0, [])) = pa at hret
  cases pa with
  | none => cases hret
  | some p =>
    obtain ⟨res, trace⟩ := p
    have htr : event.set_wrprotect a ∉ trace := by
      split at hpa
      · exact restore_vmas_loop_no_wrprotect k data.ss.all_vmas a fuel _ (res, trace)
          (by simp) hpa
      · cases hpa; simp
    simp only at hret
    split at hret
    · rename_i hne
      cases hret
      exact absurd hres hne
    · cases hret
      obtain ⟨j1, j2⟩ := recover_pages_kind k a sp data.ss.dirty_pages
        { data := data, mem := mem, trace := trace } hnd ha hsp
      refine ⟨j1, fun h => ?_⟩
      obtain ⟨r1, r2⟩ := j2 h
      exact ⟨fun hm => htr (r1 hm), r2⟩

/-- C18, witness: the written copy-on-write page at `0x1000`. -/
theorem recover_memory_snapshot_wrprotects_restored_witness :
    event.set_wrprotect 4096 ∈
      (recover_pages kernel_ok [4096]
        { data := (one_page_written pte_read_only).1, mem := (one_page_written pte_read_only).2,
          trace := [] }).trace ∧
    ∃ sp2, get_snapshot_page
        (recover_pages kernel_ok [4096]
          { data := (one_page_written pte_read_only).1,
            mem := (one_page_written pte_read_only).2, trace := [] }).data 4096 = some sp2 ∧
      sp2.page_prot = page_kind.priv :=
  (recover_memory_snapshot_wrprotects_restored kernel_ok 0 []
    (one_page_written pte_read_only).1 (one_page_written pte_read_only).2
    { res := 0,
      data := (recover_pages kernel_ok [4096]
        { data := (one_page_written pte_read_only).1, mem := (one_page_written pte_read_only).2,
          trace := [] }).data,
      mem := (recover_pages kernel_ok [4096]
        { data := (one_page_written pte_read_only).1, mem := (one_page_written pte_read_only).2,
          trace := [] }).mem,
      trace := (recover_pages kernel_ok [4096]
        { data := (one_page_written pte_read_only).1, mem := (one_page_written pte_read_only).2,
          trace := [] }).trace }
    4096 cow_page_written rfl rfl (by decide) (by decide) rfl).1 ⟨rfl, rfl, rfl⟩

/-! ## Records created on demand -/

theorem is_snapshotted_address_loop_iff (a : Nat) (l : List snapshot_vma)
    (h : l.Pairwise (fun x y => x.vm_start ≤ y.vm_start)) :
    is_snapshotted_address_loop a l = true ↔ in_recorded l a := by
  unfold in_recorded covers
  induction l with
  | nil => simp [is_snapshotted_address_loop]
  | cons r rest ih =>
    obtain ⟨h1, h2⟩ := List.pairwise_cons.1 h
    unfold is_snapshotted_address_loop
    by_cases hin : r.vm_start ≤ a ∧ a < r.vm_end
    · simp only [hin, and_self, if_true, true_iff]
      exact ⟨r, List.mem_cons_self _ _, hin⟩
    · by_cases hgt : r.vm_start > a
      · simp only [hin, hgt, if_true, if_false, Bool.false_eq_true, false_iff]
        rintro ⟨x, hx, hx2⟩
        rcases List.mem_cons.1 hx with hx | hx
        · subst hx; exact hin hx2
        · have := h1 x hx
          omega
      · simp only [hin, hgt, if_false]
        rw [ih h2]
        constructor
        · rintro ⟨x, hx, hx2⟩
          exact ⟨x, List.mem_cons_of_mem _ hx, hx2⟩
        · rintro ⟨x, hx, hx2⟩
          rcases List.mem_cons.1 hx with hx | hx
          · subst hx; exact absurd hx2 hin
          · exact ⟨x, hx, hx2⟩

/-- C19.  For a state whose `snapshotted_vmas` list is ascending by start and an
address without a page record: `is_snapshotted_address` is membership of the
address in the union of the snapshotted ranges; for an address outside them the
handler changes nothing; for an address inside them the handler, given the
memory for the record, creates a record of kind `none_pte`, marks it as having
a page-table entry and links it into the dirty list, leaving the other records
alone.  Without the memory the handler writes through the `NULL` result of
`add_snapshot_page`. -/
theorem page_add_new_anon_rmap_hook_on_demand (k : kernel) (data : task_data) (a : Nat)
    (hasc : data.ss.snapshotted_vmas.Pairwise (fun x y => x.vm_start ≤ y.vm_start))
    (hnone : get_snapshot_page data a = none) :
    (is_snapshotted_address data a = true ↔ in_recorded data.ss.snapshotted_vmas a) ∧
    (¬ in_recorded data.ss.snapshotted_vmas a →
      page_add_new_anon_rmap_hook k data a = some (data, [])) ∧
    (in_recorded data.ss.snapshotted_vmas a → k.kmalloc_snapshot_page a = true →
      ∃ d2 sp, page_add_new_anon_rmap_hook k data a = some (d2, []) ∧
        get_snapshot_page d2 a = some sp ∧ sp.page_prot = page_kind.none_pte ∧
        sp.has_had_pte = true ∧ sp.dirty = false ∧ sp.in_dirty_list = true ∧
        d2.ss.dirty_pages = data.ss.dirty_pages ++ [a] ∧
        (∀ b, b ≠ a → get_snapshot_page d2 b = get_snapshot_page data b)) ∧
    (in_recorded data.ss.snapshotted_vmas a → k.kmalloc_snapshot_page a = false →
      page_add_new_anon_rmap_hook k data a = none) := by
  have hiff : is_snapshotted_address data a = true ↔ in_recorded data.ss.snapshotted_vmas a :=
    is_snapshotted_address_loop_iff a _ hasc
  refine ⟨hiff, fun hout => ?_, fun hin halloc => ?_, fun hin halloc => by
    simp [page_add_new_anon_rmap_hook, hnone, hiff.2 hin, add_snapshot_page, halloc]⟩
  · have hf : is_snapshotted_address data a = false := by
      cases h : is_snapshotted_address data a
      · rfl
      · exact absurd (hiff.1 h) hout
    simp [page_add_new_anon_rmap_hook, hnone, hf]
  · have ht := hiff.2 hin
    simp only [page_add_new_anon_rmap_hook, hnone, ht, add_snapshot_page, halloc,
      Bool.not_true, Bool.false_eq_true, if_false, if_true,
      page_add_new_anon_rmap_hook_tail, set_snapshot_page_none_pte, is_snapshot_page_none_pte,
      decide_True]
    refine ⟨_, (⟨a, page_kind.none_pte, none, false, true, false, true⟩ : snapshot_page),
      rfl, ?_, rfl, rfl, rfl, rfl, rfl, fun b hb => ?_⟩
    · simp [get_snapshot_page, put_snapshot_page, write_page, List.find?_cons]
    · have hba : ¬ a = b := fun h => hb h.symm
      simp [get_snapshot_page, put_snapshot_page, write_page, List.find?_cons, hba]

/-- C19, witness: the untouched mapping `[0x1000, 0x2000)` was captured without
a page record; its first page is mapped afterwards. -/
theorem page_add_new_anon_rmap_hook_on_demand_witness :
    ∃ d2 sp, page_add_new_anon_rmap_hook kernel_ok
        (take_memory_snapshot kernel_ok mm_untouched (empty_task ⟨false, false, false⟩)).2.1
        4096 = some (d2, []) ∧
      get_snapshot_page d2 4096 = some sp ∧ sp.page_prot = page_kind.none_pte ∧
      sp.has_had_pte = true ∧ sp.dirty = false ∧ sp.in_dirty_list = true ∧
      d2.ss.dirty_pages =
        (take_memory_snapshot kernel_ok mm_untouched
          (empty_task ⟨false, false, false⟩)).2.1.ss.dirty_pages ++ [4096] ∧
      (∀ b, b ≠ 4096 → get_snapshot_page d2 b =
        get_snapshot_page (take_memory_snapshot kernel_ok mm_untouched
          (empty_task ⟨false, false, false⟩)).2.1 b) :=
  (page_add_new_anon_rmap_hook_on_demand kernel_ok
    (take_memory_snapshot kernel_ok mm_untouched (empty_task ⟨false, false, false⟩)).2.1 4096
    (by decide) rfl).2.2.1 (by unfold in_recorded covers; decide) rfl

/-! ## Order of the snapshotted mappings -/

theorem vma_records_pairwise (k : kernel) (vmas : List vm_area_struct)
    (h : vmas.Pairwise (fun a b => a.vm_start < b.vm_start)) :
    (vma_records k vmas).Pairwise (fun a b => a.vm_start < b.vm_start) := by
  unfold vma_records
  rw [List.pairwise_filterMap]
  refine h.imp ?_
  intro a b hab ra hra rb hrb
  rw [(vma_record_bounds hra).1, (vma_record_bounds hrb).1]
  exact hab

/-- C20, the code at the failing input.  An address space with the two mappings
`[0x1000, 0x2000)` and `[0x3000, 0x4000)` is captured twice.  The second
capture succeeds and appends its records after those of the first, so
`snapshotted_vmas` is no longer ascending by `vm_start`.  What that breaks:
when the first capture saw the mapping `[0x3000, 0x4000)` only, the list is
`0x3000, 0x1000, 0x3000` after the second; the walk of `is_snapshotted_address`
stops at the first record and reports the page `0x1000` of a snapshotted
mapping as not snapshotted, and the new-mapping handler leaves it untracked. -/
theorem take_memory_snapshot_twice_not_ascending :
    (take_memory_snapshot kernel_ok mm_two_mappings
      (take_memory_snapshot kernel_ok mm_two_mappings
        (empty_task ⟨false, false, false⟩)).2.1).1 = 0 ∧
    (take_memory_snapshot kernel_ok mm_two_mappings
      (take_memory_snapshot kernel_ok mm_two_mappings
        (empty_task ⟨false, false, false⟩)).2.1).2.1.ss.snapshotted_vmas.map
          (fun r => r.vm_start) = [4096, 12288, 4096, 12288] ∧
    ¬ ((take_memory_snapshot kernel_ok mm_two_mappings
      (take_memory_snapshot kernel_ok mm_two_mappings
        (empty_task ⟨false, false, false⟩)).2.1).2.1.ss.snapshotted_vmas.Pairwise
          (fun a b => a.vm_start ≤ b.vm_start)) ∧
    (take_memory_snapshot kernel_ok mm_two_mappings
      (take_memory_snapshot kernel_ok mm_high_mapping
        (empty_task ⟨false, false, false⟩)).2.1).1 = 0 ∧
    (take_memory_snapshot kernel_ok mm_two_mappings
      (take_memory_snapshot kernel_ok mm_high_mapping
        (empty_task ⟨false, false, false⟩)).2.1).2.1.ss.snapshotted_vmas.map
          (fun r => (r.vm_start, r.vm_end)) = [(12288, 16384), (4096, 8192), (12288, 16384)] ∧
    is_snapshotted_address (take_memory_snapshot kernel_ok mm_two_mappings
      (take_memory_snapshot kernel_ok mm_high_mapping
        (empty_task ⟨false, false, false⟩)).2.1).2.1 4096 = false ∧
    (page_add_new_anon_rmap_hook kernel_ok (take_memory_snapshot kernel_ok mm_two_mappings
      (take_memory_snapshot kernel_ok mm_high_mapping
        (empty_task ⟨false, false, false⟩)).2.1).2.1 4096).map
          (fun r => (r.1.ss.dirty_pages, r.1.ss.ss_pages.map (fun sp => sp.page_base))) =
      some ([], []) ∧
    (page_add_new_anon_rmap_hook kernel_ok (take_memory_snapshot kernel_ok mm_two_mappings
      (empty_task ⟨false, false, false⟩)).2.1 4096).map
          (fun r => (r.1.ss.dirty_pages, r.1.ss.ss_pages.map (fun sp => sp.page_base))) =
      some ([4096], [4096]) := by
  decide

/-- What a capture does to the order of `snapshotted_vmas`.  A successful
`take_memory_snapshot` on mappings in ascending address order appends to both
lists: if `snapshotted_vmas` was a
subsequence of `all_vmas` before the call it is one afterwards, and when
`snapshotted_vmas` was empty before the call it is ascending by `vm_start`
afterwards. -/
theorem take_memory_snapshot_snapshotted_sublist (k : kernel) (mm : mm_struct)
    (data : task_data) (h : (take_memory_snapshot k mm data).1 = 0)
    (hasc : mm.mmap.Pairwise (fun a b => a.vm_start < b.vm_start)) :
    (data.ss.snapshotted_vmas.Sublist data.ss.all_vmas →
      (take_memory_snapshot k mm data).2.1.ss.snapshotted_vmas.Sublist
        (take_memory_snapshot k mm data).2.1.ss.all_vmas) ∧
    (data.ss.snapshotted_vmas = [] →
      (take_memory_snapshot k mm data).2.1.ss.snapshotted_vmas.Pairwise
        (fun a b => a.vm_start < b.vm_start)) := by
  obtain ⟨visited, rest, e1, -, e2, e3, e4⟩ := take_memory_snapshot_spec k mm data
  have hrest := e4 h
  subst hrest
  rw [List.append_nil] at e1
  rw [e2, e3]
  have hsub : (vma_records k (visited.filter (fun v => !capture_skips mm data v))).Sublist
      (vma_records k visited) :=
    List.Sublist.filterMap _ (List.filter_sublist _)
  refine ⟨fun hs => List.Sublist.append hs hsub, fun hnil => ?_⟩
  rw [hnil, List.nil_append]
  exact (vma_records_pairwise k visited (e1 ▸ hasc)).sublist hsub

/-- The first capture of the two-mapping address space leaves `snapshotted_vmas`
a subsequence of `all_vmas`, ascending by `vm_start`. -/
theorem take_memory_snapshot_snapshotted_sublist_witness :
    (take_memory_snapshot kernel_ok mm_two_mappings
        (empty_task ⟨false, false, false⟩)).2.1.ss.snapshotted_vmas.Sublist
      (take_memory_snapshot kernel_ok mm_two_mappings
        (empty_task ⟨false, false, false⟩)).2.1.ss.all_vmas ∧
    (take_memory_snapshot kernel_ok mm_two_mappings
        (empty_task ⟨false, false, false⟩)).2.1.ss.snapshotted_vmas.Pairwise
      (fun a b => a.vm_start < b.vm_start) :=
  ⟨(take_memory_snapshot_snapshotted_sublist kernel_ok mm_two_mappings
      (empty_task ⟨false, false, false⟩) (by decide) (by decide)).1 (List.Sublist.refl _),
    (take_memory_snapshot_snapshotted_sublist kernel_ok mm_two_mappings
      (empty_task ⟨false, false, false⟩) (by decide) (by decide)).2 rfl⟩

/-! ## Page-store uniqueness -/

theorem write_page_bases (l : List snapshot_page) (sp : snapshot_page) :
    (write_page l sp).map (fun q => q.page_base) = l.map (fun q => q.page_base) := by
  induction l with
  | nil => rfl
  | cons q qs ih =>
    unfold write_page
    by_cases h : q.page_base = sp.page_base
    · simp [h]
    · simp [h, ih]

theorem put_snapshot_page_unique {data : task_data} (sp : snapshot_page)
    (h : page_store_unique data) : page_store_unique (put_snapshot_page data sp) := by
  unfold page_store_unique put_snapshot_page
  simp only [write_page_bases]
  exact h

theorem get_none_not_mem {data : task_data} {a : Nat} (h : get_snapshot_page data a = none) :
    a ∉ data.ss.ss_pages.map (fun sp => sp.page_base) := by
  intro hm
  obtain ⟨sp, hsp, hb⟩ := List.mem_map.1 hm
  have := List.find?_eq_none.1 h sp hsp
  simp [hb] at this

theorem add_snapshot_page_unique (k : kernel) (data : task_data) (a : Nat) (reuse : Bool)
    (hr : reuse = false → get_snapshot_page data a = none)
    (h : page_store_unique data) : page_store_unique (add_snapshot_page k data a reuse).1 := by
  unfold add_snapshot_page
  have hfound : (if reuse = true then get_snapshot_page data a else none) =
      get_snapshot_page data a := by
    cases reuse
    · simp [hr rfl]
    · simp
  simp only [hfound]
  cases hg : get_snapshot_page data a with
  | some sp => exact put_snapshot_page_unique _ h
  | none =>
    simp only
    split
    · unfold page_store_unique
      simp only [List.map_cons, List.nodup_cons]
      exact ⟨get_none_not_mem hg, h⟩
    · exact h

theorem make_snapshot_page_unique (k : kernel) (data : task_data) (a : Nat) (pte : pte_t)
    (h : page_store_unique data) : page_store_unique (make_snapshot_page k data a pte).2.1 := by
  have hadd := add_snapshot_page_unique k data a true (fun h => by cases h) h
  unfold make_snapshot_page
  cases hres : add_snapshot_page k data a true with
  | mk d sp =>
    rw [hres] at hadd
    cases sp with
    | none => exact hadd
    | some sp =>
      simp only
      split
      · exact put_snapshot_page_unique _ hadd
      · split
        · exact put_snapshot_page_unique _ hadd
        · exact put_snapshot_page_unique _ hadd

theorem page_add_new_anon_rmap_hook_tail_unique (data : task_data) (sp : snapshot_page)
    (h : page_store_unique data) :
    page_store_unique (page_add_new_anon_rmap_hook_tail data sp).1 := by
  unfold page_add_new_anon_rmap_hook_tail
  simp only
  split
  · split
    · exact put_snapshot_page_unique _ h
    · exact put_snapshot_page_unique _ h
  · exact put_snapshot_page_unique _ h

theorem page_add_new_anon_rmap_hook_unique (k : kernel) (data : task_data) (a : Nat)
    (h : page_store_unique data) :
    ∀ r, page_add_new_anon_rmap_hook k data a = some r → page_store_unique r.1 := by
  intro r hr
  unfold page_add_new_anon_rmap_hook at hr
  cases hg : get_snapshot_page data a with
  | some sp =>
    simp only [hg, Option.some.injEq] at hr
    rw [← hr]
    exact page_add_new_anon_rmap_hook_tail_unique data sp h
  | none =>
    simp only [hg] at hr
    split at hr
    · cases hr; exact h
    · have hadd := add_snapshot_page_unique k data a false (fun _ => hg) h
      cases hres : add_snapshot_page k data a false with
      | mk d sp =>
        rw [hres] at hadd hr
        cases sp with
        | none => cases hr
        | some sp =>
          simp only [Option.some.injEq] at hr
          rw [← hr]
          exact page_add_new_anon_rmap_hook_tail_unique _ _ (put_snapshot_page_unique _ hadd)


theorem make_snapshot_page_reuses {k : kernel} {data : task_data} {a : Nat} {sp0 : snapshot_page}
    (pte : pte_t) (hg : get_snapshot_page data a = some sp0) :
    (make_snapshot_page k data a pte).1 = 0 ∧
    (make_snapshot_page k data a pte).2.1.ss.ss_pages.map (fun sp => sp.page_base) =
      data.ss.ss_pages.map (fun sp => sp.page_base) ∧
    ∃ sp, get_snapshot_page (make_snapshot_page k data a pte).2.1 a = some sp ∧
      sp.page_data = sp0.page_data := by
  have hb := get_base hg
  have h1 : get_snapshot_page (put_snapshot_page data
      { sp0 with page_prot := page_kind.unset, has_been_copied := false, dirty := false,
                 in_dirty_list := false }) a =
      some { sp0 with page_prot := page_kind.unset, has_been_copied := false, dirty := false,
                      in_dirty_list := false } := get_put_same hg hb
  unfold make_snapshot_page add_snapshot_page
  simp only [hg, if_true]
  cases pte.pte_none <;> cases pte.pte_write <;>
    simp only [if_true, if_false, Bool.false_eq_true] <;>
    refine ⟨trivial, by simp [put_snapshot_page, write_page_bases],
      _, get_put_same h1 (by simp [set_snapshot_page_private, set_snapshot_page_cow,
        set_snapshot_page_none_pte, hb]), ?_⟩ <;>
    simp [set_snapshot_page_private, set_snapshot_page_cow, set_snapshot_page_none_pte]

theorem snapshot_pte_entry_unique (k : kernel) (st : capture_state) (addr next : Nat)
    (pte : pte_t) (h : page_store_unique st.data) :
    page_store_unique (snapshot_pte_entry k st addr next pte).2.data := by
  unfold snapshot_pte_entry
  simp only
  split
  · exact h
  · exact make_snapshot_page_unique k st.data addr pte h

theorem walk_page_vma_unique (k : kernel) (entries : List walk_entry) :
    ∀ (skip : Option Nat) (st : capture_state), page_store_unique st.data →
      page_store_unique (walk_page_vma k entries skip st).2.data := by
  induction entries with
  | nil => intro skip st h; exact h
  | cons e rest ih =>
    intro skip st h
    unfold walk_page_vma
    split
    · exact ih skip st h
    · split
      · exact ih none _ h
      · split
        · exact ih _ _ h
        · simp only
          have hp := snapshot_pte_entry_unique k st e.addr e.next e.pte h
          split
          · exact hp
          · exact ih none _ hp

theorem take_memory_snapshot_loop_unique (k : kernel) (mm : mm_struct)
    (vmas : List vm_area_struct) :
    ∀ st : capture_state, page_store_unique st.data →
      page_store_unique (take_memory_snapshot_loop k mm vmas st).2.data := by
  induction vmas with
  | nil => intro st h; exact h
  | cons pvma rest ih =>
    intro st h
    unfold take_memory_snapshot_loop
    rw [add_snapshot_vma_eq]
    cases hr : vma_record k pvma with
    | none => exact h
    | some r =>
      simp only
      split
      · exact ih _ h
      · have hw := walk_page_vma_unique k (mm.page_table pvma) none
          { st with data := { st.data with ss := { st.data.ss with
              all_vmas := list_add_tail r st.data.ss.all_vmas,
              snapshotted_vmas := list_add_tail r st.data.ss.snapshotted_vmas } } } h
        split
        · exact hw
        · exact ih _ hw

/-- C21.  When the page store holds at most one record per page address, it does
so after `make_snapshot_page`, after a whole `take_memory_snapshot`, and after
the new-mapping handler, whatever the allocator returns.  For an address that
has a record, `make_snapshot_page` succeeds without adding a record, and the
record it leaves has the content buffer of the old one. -/
theorem page_store_unique_preserved (k : kernel) (mm : mm_struct) (data : task_data) (a : Nat)
    (pte : pte_t) (h : page_store_unique data) :
    page_store_unique (make_snapshot_page k data a pte).2.1 ∧
    (∀ sp0, get_snapshot_page data a = some sp0 →
      (make_snapshot_page k data a pte).1 = 0 ∧
      (make_snapshot_page k data a pte).2.1.ss.ss_pages.map (fun sp => sp.page_base) =
        data.ss.ss_pages.map (fun sp => sp.page_base) ∧
      ∃ sp, get_snapshot_page (make_snapshot_page k data a pte).2.1 a = some sp ∧
        sp.page_data = sp0.page_data) ∧
    page_store_unique (take_memory_snapshot k mm data).2.1 ∧
    (∀ r, page_add_new_anon_rmap_hook k data a = some r → page_store_unique r.1) :=
  ⟨make_snapshot_page_unique k data a pte h, fun _ hg => make_snapshot_page_reuses pte hg,
    take_memory_snapshot_loop_unique k mm mm.mmap _ h,
    page_add_new_anon_rmap_hook_unique k data a h⟩

/-- C21, witness: the page at `0x1000`, captured once, is captured again. -/
theorem page_store_unique_preserved_witness :
    page_store_unique (make_snapshot_page kernel_ok (task_written ⟨false, false, false⟩) 4096
      pte_writable).2.1 ∧
    (make_snapshot_page kernel_ok (task_written ⟨false, false, false⟩) 4096 pte_writable).1 = 0 ∧
    (make_snapshot_page kernel_ok (task_written ⟨false, false, false⟩) 4096
        pte_writable).2.1.ss.ss_pages.map (fun sp => sp.page_base) = [4096] :=
  ⟨(page_store_unique_preserved kernel_ok (mm_one_page pte_writable)
      (task_written ⟨false, false, false⟩) 4096 pte_writable
      (by unfold page_store_unique; decide)).1,
    ((page_store_unique_preserved kernel_ok (mm_one_page pte_writable)
      (task_written ⟨false, false, false⟩) 4096 pte_writable
      (by unfold page_store_unique; decide)).2.1
      { page_base := 4096, page_prot := page_kind.priv, page_data := some (page_filled 1),
        has_been_copied := true, has_had_pte := true, dirty := true, in_dirty_list := true }
      rfl).1,
    by decide⟩

/-! ## Classification of a page at capture -/

theorem make_snapshot_page_kinds (k : kernel) (data : task_data) (a : Nat) (pte : pte_t)
    (h : (make_snapshot_page k data a pte).1 = 0) :
    ∃ sp, get_snapshot_page (make_snapshot_page k data a pte).2.1 a = some sp ∧
      sp.dirty = false ∧ sp.in_dirty_list = false ∧ sp.has_been_copied = false ∧
      (pte.pte_none = true →
        sp.page_prot = page_kind.none_pte ∧ sp.has_had_pte = false ∧
        (make_snapshot_page k data a pte).2.2.1 = pte ∧
        event.set_wrprotect a ∉ (make_snapshot_page k data a pte).2.2.2) ∧
      (pte.pte_none = false → pte.pte_write = true →
        sp.page_prot = page_kind.priv ∧ sp.has_had_pte = true ∧
        (make_snapshot_page k data a pte).2.2.1 = { pte with pte_write := false } ∧
        event.set_wrprotect a ∈ (make_snapshot_page k data a pte).2.2.2) ∧
      (pte.pte_none = false → pte.pte_write = false →
        sp.page_prot = page_kind.cow ∧ sp.has_had_pte = true ∧
        (make_snapshot_page k data a pte).2.2.1 = pte ∧
        event.set_wrprotect a ∉ (make_snapshot_page k data a pte).2.2.2) := by
  unfold make_snapshot_page at h ⊢
  rcases add_snapshot_page_spec k data a with hf | ⟨d1, sp1, he, hg, hb, hd, hc, hl, -⟩
  · rw [hf] at h; simp [ENOMEM] at h
  · rw [he]
    simp only
    cases hn : pte.pte_none <;> cases hw : pte.pte_write <;>
      simp only [if_true, if_false, Bool.false_eq_true] <;>
      refine ⟨_, get_put_same hg (by simp [set_snapshot_page_none_pte,
        set_snapshot_page_private, set_snapshot_page_cow, hb]), ?_⟩ <;>
      simp [set_snapshot_page_none_pte, set_snapshot_page_private, set_snapshot_page_cow,
        hd, hc, hl]

theorem make_snapshot_page_succeeds (k : kernel) (data : task_data) (a : Nat) (pte : pte_t) :
    (make_snapshot_page k data a pte).1 = 0 ↔
      ((get_snapshot_page data a).isSome = true ∨ k.kmalloc_snapshot_page a = true) := by
  unfold make_snapshot_page add_snapshot_page
  simp only [if_true]
  cases hg : get_snapshot_page data a with
  | some sp =>
    simp only [Option.isSome_some, true_or, iff_true]
    cases pte.pte_none <;> cases pte.pte_write <;> rfl
  | none =>
    cases hk : k.kmalloc_snapshot_page a
    · simp [ENOMEM]
    · simp only [if_true, Option.isSome_none, Bool.false_eq_true, false_or, iff_true]
      cases pte.pte_none <;> cases pte.pte_write <;> rfl

/-- C23.  `make_snapshot_page` returns 0 exactly when the address has a record or
the record can be allocated.  When it returns 0 the record of the address is
not dirty, not marked as linked and not copied, also when it was reused, and
its kind follows the entry: an empty entry gives `none_pte` with
`has_had_pte = false`; a present writable entry gives `priv` with
`has_had_pte = true` and the entry write-protected; a present entry that is not
writable gives `cow` with `has_had_pte = true`; the entry is left as it was in
the first and the last case. -/
theorem make_snapshot_page_classification (k : kernel) (data : task_data) (a : Nat)
    (pte : pte_t) :
    ((make_snapshot_page k data a pte).1 = 0 ↔
      ((get_snapshot_page data a).isSome = true ∨ k.kmalloc_snapshot_page a = true)) ∧
    ((make_snapshot_page k data a pte).1 = 0 →
      ∃ sp, get_snapshot_page (make_snapshot_page k data a pte).2.1 a = some sp ∧
        sp.dirty = false ∧ sp.in_dirty_list = false ∧ sp.has_been_copied = false ∧
        (pte.pte_none = true →
          sp.page_prot = page_kind.none_pte ∧ sp.has_had_pte = false ∧
          (make_snapshot_page k data a pte).2.2.1 = pte ∧
          event.set_wrprotect a ∉ (make_snapshot_page k data a pte).2.2.2) ∧
        (pte.pte_none = false → pte.pte_write = true →
          sp.page_prot = page_kind.priv ∧ sp.has_had_pte = true ∧
          (make_snapshot_page k data a pte).2.2.1 = { pte with pte_write := false } ∧
          event.set_wrprotect a ∈ (make_snapshot_page k data a pte).2.2.2) ∧
        (pte.pte_none = false → pte.pte_write = false →
          sp.page_prot = page_kind.cow ∧ sp.has_had_pte = true ∧
          (make_snapshot_page k data a pte).2.2.1 = pte ∧
          event.set_wrprotect a ∉ (make_snapshot_page k data a pte).2.2.2)) :=
  ⟨make_snapshot_page_succeeds k data a pte, make_snapshot_page_kinds k data a pte⟩

/-- C23, witness: the written page at `0x1000` is captured again through a
present entry that is not writable. -/
theorem make_snapshot_page_classification_witness :
    ∃ sp, get_snapshot_page (make_snapshot_page kernel_ok (task_written ⟨false, false, false⟩)
        4096 pte_read_only).2.1 4096 = some sp ∧
      sp.dirty = false ∧ sp.in_dirty_list = false ∧ sp.has_been_copied = false ∧
      sp.page_prot = page_kind.cow ∧ sp.has_had_pte = true :=
  match (make_snapshot_page_classification kernel_ok (task_written ⟨false, false, false⟩) 4096
      pte_read_only).2 (by decide) with
  | ⟨sp, h1, h2, h3, h4, _, _, h7⟩ => ⟨sp, h1, h2, h3, h4, (h7 rfl rfl).1, (h7 rfl rfl).2.1⟩

/-! ## New-mapping handler -/

theorem write_page_same {l : List snapshot_page} {a : Nat} {sp : snapshot_page}
    (h : l.find? (fun q => q.page_base == a) = some sp) (hb : sp.page_base = a) :
    write_page l sp = l := by
  induction l with
  | nil => rfl
  | cons q qs ih =>
    unfold write_page
    by_cases hq : q.page_base = a
    · have : q = sp := by simpa [List.find?_cons, hq] using h
      simp [this]
    · have h2 : qs.find? (fun q => q.page_base == a) = some sp := by
        simpa [List.find?_cons, hq] using h
      have hne : ¬ q.page_base = sp.page_base := by rw [hb]; exact hq
      simp [hne, ih h2]

theorem put_snapshot_page_same {data : task_data} {a : Nat} {sp : snapshot_page}
    (h : get_snapshot_page data a = some sp) : put_snapshot_page data sp = data := by
  unfold put_snapshot_page
  rw [write_page_same h (get_base h)]

theorem page_add_new_anon_rmap_hook_again (k : kernel) {data : task_data} {a : Nat}
    {sp : snapshot_page} (hsp : get_snapshot_page data a = some sp)
    (hk : sp.page_prot = page_kind.none_pte) (hp : sp.has_had_pte = true)
    (hl : sp.in_dirty_list = true) :
    page_add_new_anon_rmap_hook k data a =
      some (data, [event.warn_already_in_dirty_list a]) := by
  have hb := get_base hsp
  have heta : { sp with has_had_pte := true } = sp := by
    cases sp
    simp only at hp
    simp [hp]
  unfold page_add_new_anon_rmap_hook
  rw [hsp]
  simp only
  unfold page_add_new_anon_rmap_hook_tail
  simp only [heta]
  simp only [is_snapshot_page_none_pte, hk, decide_True, if_true, hl, put_snapshot_page_same hsp,
    hb]

theorem hook_none_pte_spec (k : kernel) (data : task_data) (a : Nat)
    (sp : snapshot_page) (hsp : get_snapshot_page data a = some sp)
    (hk : sp.page_prot = page_kind.none_pte)
    (hl : sp.in_dirty_list = false) (hnot : a ∉ data.ss.dirty_pages) :
    ∃ d1 sp1, page_add_new_anon_rmap_hook k data a = some (d1, []) ∧
      get_snapshot_page d1 a = some sp1 ∧
      sp1 = { sp with has_had_pte := true, in_dirty_list := true } ∧
      d1.ss.dirty_pages = data.ss.dirty_pages ++ [a] ∧
      d1.ss.dirty_pages.count a = 1 ∧
      (∀ b, b ≠ a → get_snapshot_page d1 b = get_snapshot_page data b) ∧
      d1.ss.all_vmas = data.ss.all_vmas ∧ d1.config = data.config ∧
      ∀ k2, page_add_new_anon_rmap_hook k2 d1 a =
        some (d1, [event.warn_already_in_dirty_list a]) := by
  have hb := get_base hsp
  have hg1 : get_snapshot_page
      (put_snapshot_page { data with ss := { data.ss with
          dirty_pages := list_add_tail a data.ss.dirty_pages } }
        { sp with has_had_pte := true, in_dirty_list := true }) a =
      some { sp with has_had_pte := true, in_dirty_list := true } :=
    get_put_same (by rw [get_with_dirty_pages]; exact hsp) hb
  refine ⟨put_snapshot_page { data with ss := { data.ss with
      dirty_pages := list_add_tail a data.ss.dirty_pages } }
      { sp with has_had_pte := true, in_dirty_list := true },
    { sp with has_had_pte := true, in_dirty_list := true }, ?_, hg1, rfl, rfl, ?_, ?_, rfl, rfl,
    ?_⟩
  · simp [page_add_new_anon_rmap_hook, hsp, page_add_new_anon_rmap_hook_tail,
      is_snapshot_page_none_pte, hk, hl, hb]
  · simp [put_snapshot_page, list_add_tail, List.count_append, List.count_eq_zero_of_not_mem hnot]
  · intro b hba
    rw [get_put_other (by simpa [hb] using fun h => hba h.symm), get_with_dirty_pages]
  · intro k2
    exact page_add_new_anon_rmap_hook_again k2 hg1 hk rfl rfl

/-- C24, counterexample.  The page at `0x1000` is captured through an empty entry:
its record has kind `none_pte` and is neither dirty nor linked.  After the
new-mapping handler ran for the page the record has `has_had_pte` set and is
in the dirty list, but its `dirty` flag is still unset.  The quadruples are
`(kind, dirty, in_dirty_list, has_had_pte)`. -/
theorem page_add_new_anon_rmap_hook_leaves_dirty_unset :
    (get_snapshot_page (take_memory_snapshot kernel_ok (mm_one_page pte_empty)
        (empty_task ⟨false, false, false⟩)).2.1 4096).map
        (fun sp => (sp.page_prot, sp.dirty, sp.in_dirty_list, sp.has_had_pte)) =
      some (page_kind.none_pte, false, false, false) ∧
    (take_memory_snapshot kernel_ok (mm_one_page pte_empty)
        (empty_task ⟨false, false, false⟩)).2.1.ss.dirty_pages = [] ∧
    (page_add_new_anon_rmap_hook kernel_ok (take_memory_snapshot kernel_ok (mm_one_page pte_empty)
        (empty_task ⟨false, false, false⟩)).2.1 4096).map
        (fun r => ((get_snapshot_page r.1 4096).map
          (fun sp => (sp.page_prot, sp.dirty, sp.in_dirty_list, sp.has_had_pte)),
          r.1.ss.dirty_pages)) =
      some (some (page_kind.none_pte, false, true, true), [4096]) := by
  decide

/-- C24, as the code has it.  For a record of kind `none_pte` that is not dirty and
not in the dirty list, the new-mapping handler sets `has_had_pte` and
`in_dirty_list`, leaves `dirty` unset and the other fields and records as they
are, and appends the address to the dirty list, where it then occurs exactly
once; a second run of the handler logs a warning and changes nothing. -/
theorem page_add_new_anon_rmap_hook_none_pte (k : kernel) (data : task_data) (a : Nat)
    (sp : snapshot_page) (hsp : get_snapshot_page data a = some sp)
    (hk : sp.page_prot = page_kind.none_pte) (hd : sp.dirty = false)
    (hl : sp.in_dirty_list = false) (hnot : a ∉ data.ss.dirty_pages) :
    ∃ d1 sp1, page_add_new_anon_rmap_hook k data a = some (d1, []) ∧
      get_snapshot_page d1 a = some sp1 ∧
      sp1 = { sp with has_had_pte := true, in_dirty_list := true } ∧
      sp1.dirty = false ∧
      d1.ss.dirty_pages = data.ss.dirty_pages ++ [a] ∧
      d1.ss.dirty_pages.count a = 1 ∧
      (∀ b, b ≠ a → get_snapshot_page d1 b = get_snapshot_page data b) ∧
      ∀ k2, page_add_new_anon_rmap_hook k2 d1 a =
        some (d1, [event.warn_already_in_dirty_list a]) := by
  obtain ⟨d1, sp1, h1, g1, e1, l1, c1, o1, -, -, s1⟩ :=
    hook_none_pte_spec k data a sp hsp hk hl hnot
  exact ⟨d1, sp1, h1, g1, e1, by rw [e1]; exact hd, l1, c1, o1, s1⟩

/-- C24, witness: the page at `0x1000`, captured through an empty entry, is
mapped. -/
theorem page_add_new_anon_rmap_hook_none_pte_witness :
    ∃ d1 sp1, page_add_new_anon_rmap_hook kernel_ok
        (take_memory_snapshot kernel_ok (mm_one_page pte_empty)
          (empty_task ⟨false, false, false⟩)).2.1 4096 = some (d1, []) ∧
      get_snapshot_page d1 4096 = some sp1 ∧
      sp1 = { page_base := 4096, page_prot := page_kind.none_pte, page_data := none,
              has_been_copied := false, has_had_pte := true, dirty := false,
              in_dirty_list := true } ∧
      sp1.dirty = false ∧
      d1.ss.dirty_pages = [] ++ [4096] ∧
      d1.ss.dirty_pages.count 4096 = 1 ∧
      (∀ b, b ≠ 4096 → get_snapshot_page d1 b =
        get_snapshot_page (take_memory_snapshot kernel_ok (mm_one_page pte_empty)
          (empty_task ⟨false, false, false⟩)).2.1 b) ∧
      ∀ k2, page_add_new_anon_rmap_hook k2 d1 4096 =
        some (d1, [event.warn_already_in_dirty_list 4096]) :=
  page_add_new_anon_rmap_hook_none_pte kernel_ok
    (take_memory_snapshot kernel_ok (mm_one_page pte_empty)
      (empty_task ⟨false, false, false⟩)).2.1 4096
    { page_base := 4096, page_prot := page_kind.none_pte, page_data := none,
      has_been_copied := false, has_had_pte := false, dirty := false, in_dirty_list := false }
    rfl rfl rfl rfl (by decide)

/-! ## Range classifier: the cached boundaries -/

/-- C22, the code at the failing input.  The allow list holds `[0x1000, 0x4000)`,
the block list `[0x2000, 0x3000)`.  Over the walk `[0x1000, 0x4000)`,
`[0x1000, 0x2000)`, `[0x2000, 0x3000)`, `[0x3000, 0x4000)`, started with a fresh
cache, `snapshot_walk_check_range` answers `ACTION_SUBTREE` four times: the
first call caches the end of the allowed range and the fast path answers for
the blocked page.  The rules without the cache, as the specification words them
and as the function itself applies them with a fresh cache, skip the blocked
page.  The same holds with `BLOCK` set, and a capture of the mapping
`[0x1000, 0x4000)` creates a record for the blocked page. -/
theorem snapshot_walk_check_range_cache_unsound :
    ascending_preorder walk_three_pages ∧
    classify_intervals (task_block_inside_allow false)
        { next_allowed_address := 0, next_blocked_address := 0 } walk_three_pages =
      [page_walk_action.ACTION_SUBTREE, page_walk_action.ACTION_SUBTREE,
       page_walk_action.ACTION_SUBTREE, page_walk_action.ACTION_SUBTREE] ∧
    walk_three_pages.map
        (fun p => classifier_rules_uncached (task_block_inside_allow false) p.1 p.2) =
      [page_walk_action.ACTION_SUBTREE, page_walk_action.ACTION_SUBTREE,
       page_walk_action.ACTION_CONTINUE, page_walk_action.ACTION_SUBTREE] ∧
    walk_three_pages.map
        (fun p => (snapshot_walk_check_range (task_block_inside_allow false)
          { next_allowed_address := 0, next_blocked_address := 0 } p.1 p.2).1) =
      [page_walk_action.ACTION_SUBTREE, page_walk_action.ACTION_SUBTREE,
       page_walk_action.ACTION_CONTINUE, page_walk_action.ACTION_SUBTREE] ∧
    classify_intervals (task_block_inside_allow true)
        { next_allowed_address := 0, next_blocked_address := 0 } walk_three_pages =
      [page_walk_action.ACTION_SUBTREE, page_walk_action.ACTION_SUBTREE,
       page_walk_action.ACTION_SUBTREE, page_walk_action.ACTION_SUBTREE] ∧
    walk_three_pages.map
        (fun p => classifier_rules_uncached (task_block_inside_allow true) p.1 p.2) =
      [page_walk_action.ACTION_SUBTREE, page_walk_action.ACTION_SUBTREE,
       page_walk_action.ACTION_CONTINUE, page_walk_action.ACTION_SUBTREE] ∧
    (take_memory_snapshot kernel_ok mm_three_pages (task_block_inside_allow false)).1 = 0 ∧
    (get_snapshot_page
      (take_memory_snapshot kernel_ok mm_three_pages (task_block_inside_allow false)).2.1
      8192).isSome = true := by
  refine ⟨by unfold ascending_preorder; decide, by decide, by decide, by decide, by decide,
    by decide, by decide, by decide⟩

/-! ## New mapping and restore -/

theorem recover_unlink_events (st : recover_state) (sp : snapshot_page) :
    (∃ t, (recover_unlink st sp).trace = st.trace ++ t ∧ ∀ e ∈ t, drain_event sp.page_base e) ∧
    (recover_unlink st sp).data.ss.dirty_pages =
      list_del sp.page_base st.data.ss.dirty_pages := by
  unfold recover_unlink
  refine ⟨?_, rfl⟩
  simp only
  split
  · exact ⟨_, rfl, fun e he => by
      rw [List.mem_singleton.1 he]; exact Or.inr (Or.inr (Or.inr (Or.inr rfl)))⟩
  · exact ⟨[], by simp, fun e he => by cases he⟩

theorem recover_page_events (k : kernel) (st : recover_state) (sp : snapshot_page) :
    (∃ t, (recover_page k st sp).trace = st.trace ++ t ∧ ∀ e ∈ t, drain_event sp.page_base e) ∧
    ((recover_page k st sp).data.ss.dirty_pages = st.data.ss.dirty_pages ∨
      (recover_page k st sp).data.ss.dirty_pages =
        list_del sp.page_base st.data.ss.dirty_pages) := by
  unfold recover_page
  split
  · simp only [do_recover_page]
    split
    · exact ⟨⟨_, rfl, fun e he => by rw [List.mem_singleton.1 he]; exact Or.inl rfl⟩, Or.inl rfl⟩
    · obtain ⟨⟨t, u1, u2⟩, u3⟩ := recover_unlink_events
        { st with mem := (match sp.page_data with
                    | some page_data =>
                      Function.update st.mem sp.page_base
                        (copy_page page_data (st.mem sp.page_base) (k.copy_to_user sp.page_base))
                    | none => st.mem),
                  trace := st.trace ++ [event.copy_to_user sp.page_base] ++
                    [event.set_wrprotect sp.page_base,
                     event.flush_tlb sp.page_base (sp.page_base + PAGE_SIZE)] }
        (set_snapshot_page_private { { sp with dirty := false } with has_had_pte := true })
      refine ⟨⟨[event.copy_to_user sp.page_base] ++ [event.set_wrprotect sp.page_base,
        event.flush_tlb sp.page_base (sp.page_base + PAGE_SIZE)] ++ t,
        u1.trans (by simp only [List.append_assoc]), fun e he => ?_⟩, Or.inr u3⟩
      simp only [List.mem_append, List.mem_cons, List.mem_singleton, List.not_mem_nil,
        or_false] at he
      rcases he with (he | he | he) | he
      · exact Or.inl he
      · exact Or.inr (Or.inl he)
      · exact Or.inr (Or.inr (Or.inl he))
      · exact u2 e he
  · split
    · obtain ⟨u1, u3⟩ := recover_unlink_events st sp
      exact ⟨u1, Or.inr u3⟩
    · split
      · obtain ⟨⟨t, u1, u2⟩, u3⟩ := recover_unlink_events
          { st with trace := st.trace ++ do_recover_none_pte sp }
          { set_snapshot_page_none_pte sp with has_had_pte := false }
        refine ⟨⟨do_recover_none_pte sp ++ t, u1.trans (by simp only [List.append_assoc]),
          fun e he => ?_⟩, Or.inr u3⟩
        simp only [do_recover_none_pte, List.mem_append, List.mem_singleton] at he
        rcases he with he | he
        · exact Or.inr (Or.inr (Or.inr (Or.inl he)))
        · exact u2 e he
      · obtain ⟨u1, u3⟩ := recover_unlink_events st sp
        exact ⟨u1, Or.inr u3⟩

theorem drain_event_other {a base : Nat} {e : event} (h : drain_event base e) (hne : base ≠ a) :
    restores_page a e = false := by
  rcases h with h | h | h | h | h <;> subst h <;> simp [restores_page, hne]

/-- The drain over pages other than `a` leaves the page at `a` alone. -/
theorem recover_pages_frame_at (k : kernel) (a : Nat) (l : List Nat) :
    ∀ st : recover_state, a ∉ l →
      get_snapshot_page (recover_pages k l st).data a = get_snapshot_page st.data a ∧
      (recover_pages k l st).mem a = st.mem a ∧
      (recover_pages k l st).trace.filter (restores_page a) =
        st.trace.filter (restores_page a) ∧
      (recover_pages k l st).data.ss.dirty_pages.count a = st.data.ss.dirty_pages.count a := by
  induction l with
  | nil => intro st _; exact ⟨rfl, rfl, rfl, rfl⟩
  | cons b rest ih =>
    intro st ha
    have hab : b ≠ a := fun h => ha (h ▸ List.mem_cons_self _ _)
    have har : a ∉ rest := fun h => ha (List.mem_cons_of_mem _ h)
    unfold recover_pages
    cases hg : get_snapshot_page st.data b with
    | none => exact ih st har
    | some sp =>
      have hb := get_base hg
      subst hb
      obtain ⟨-, p2, -⟩ := recover_page_spec k st sp hg
      obtain ⟨⟨t, e1, e2⟩, e3⟩ := recover_page_events k st sp
      obtain ⟨i1, i2, i3, i4⟩ := ih (recover_page k st sp) har
      refine ⟨i1.trans (p2 a hab).1, i2.trans (p2 a hab).2, ?_, ?_⟩
      · simp only
        rw [i3, e1, List.filter_append]
        have : t.filter (restores_page a) = [] :=
          List.filter_eq_nil_iff.2 (fun e he => by simp [drain_event_other (e2 e he) hab])
        rw [this, List.append_nil]
      · simp only
        rw [i4]
        rcases e3 with e3 | e3
        · rw [e3]
        · rw [e3]
          exact List.count_erase_of_ne (fun h => hab h.symm) _

theorem recover_pages_append (k : kernel) (l1 l2 : List Nat) :
    ∀ st : recover_state,
      recover_pages k (l1 ++ l2) st = recover_pages k l2 (recover_pages k l1 st) := by
  induction l1 with
  | nil => intro st; rfl
  | cons b rest ih =>
    intro st
    simp only [List.cons_append, recover_pages]
    cases get_snapshot_page st.data b with
    | none => exact ih st
    | some sp => exact ih _


theorem restore_vmas_body_restores_none (k : kernel) (all_vmas : List snapshot_vma)
    (s : sweep_state) (a : Nat) :
    (∀ s2, restore_vmas_body k all_vmas s = Sum.inl s2 →
      s2.trace.filter (restores_page a) = s.trace.filter (restores_page a)) ∧
    (∀ r, restore_vmas_body k all_vmas s = Sum.inr r →
      r.2.filter (restores_page a) = s.trace.filter (restores_page a)) := by
  constructor
  · intro s2 hs
    unfold restore_vmas_body at hs
    simp only at hs
    repeat' split at hs
    all_goals (cases hs; try simp [sweep_advance, restores_page, List.filter_append])
  · intro r hs
    unfold restore_vmas_body at hs
    simp only at hs
    repeat' split at hs
    all_goals (cases hs; try simp [restores_page, List.filter_append])

theorem restore_vmas_loop_restores_none (k : kernel) (all_vmas : List snapshot_vma) (a : Nat) :
    ∀ (fuel : Nat) (s : sweep_state) (r : Int × List event),
      restore_vmas_loop k all_vmas fuel s = some r →
      r.2.filter (restores_page a) = s.trace.filter (restores_page a) := by
  intro fuel
  induction fuel with
  | zero =>
    intro s r hr
    unfold restore_vmas_loop at hr
    split at hr
    · cases hr; rfl
    · cases hr
  | succ n ih =>
    intro s r hr
    unfold restore_vmas_loop at hr
    split at hr
    · cases hr; rfl
    · obtain ⟨hb1, hb2⟩ := restore_vmas_body_restores_none k all_vmas s a
      simp only at hr
      split at hr
      · rename_i r2 heq
        cases hr
        exact hb2 _ heq
      · rename_i s2 heq
        exact (ih s2 r hr).trans (hb1 _ heq)

theorem recover_page_none_pte (k : kernel) (st : recover_state) (sp : snapshot_page)
    (hsp : get_snapshot_page st.data sp.page_base = some sp)
    (hk : sp.page_prot = page_kind.none_pte) (hp : sp.has_had_pte = true)
    (hd : sp.dirty = false) (hl : sp.in_dirty_list = true) :
    (recover_page k st sp).trace =
      st.trace ++ [event.zap_page_range sp.page_base PAGE_SIZE] ∧
    (recover_page k st sp).mem = st.mem ∧
    get_snapshot_page (recover_page k st sp).data sp.page_base =
      some { sp with has_had_pte := false, in_dirty_list := false } ∧
    (recover_page k st sp).data.ss.dirty_pages =
      list_del sp.page_base st.data.ss.dirty_pages := by
  have hset : set_snapshot_page_none_pte sp = sp := by
    cases sp
    simp only at hk
    simp [set_snapshot_page_none_pte, hk]
  have h1 : get_snapshot_page
      (put_snapshot_page st.data { sp with has_had_pte := false, in_dirty_list := false })
      sp.page_base = some { sp with has_had_pte := false, in_dirty_list := false } :=
    get_put_same hsp rfl
  have hrp : recover_page k st sp =
      recover_unlink { st with trace := st.trace ++ do_recover_none_pte sp }
        { sp with has_had_pte := false } := by
    unfold recover_page
    simp [hd, is_snapshot_page_private, is_snapshot_page_none_pte, hk, hp, hset]
  rw [hrp]
  refine ⟨?_, rfl, h1, rfl⟩
  unfold recover_unlink
  simp [hl, do_recover_none_pte]

/-- C25, as the code has it.  A record of kind `none_pte` is in its post-capture
state and not in the dirty list.  The new-mapping handler runs for its address,
and then `recover_memory_snapshot`.  If the sweep of the mappings does not fail
(with `MMAP` unset it is not run), `recover_memory_snapshot` returns 0, the only
event that restores the page is one `zap_page_range` of
`[page_base, page_base + PAGE_SIZE)`, the content of the page is not written,
the record is again the record of the post-capture state, and its address is
not in the dirty list.  A write fault on a record of kind `none_pte` changes
nothing. -/
theorem new_mapping_roundtrip (k k2 : kernel) (fuel : Nat) (mmap : List vm_area_struct)
    (data : task_data) (mem : user_memory) (a : Nat) (sp : snapshot_page)
    (hsp : get_snapshot_page data a = some sp)
    (hk : sp.page_prot = page_kind.none_pte) (hp : sp.has_had_pte = false)
    (hd : sp.dirty = false) (hl : sp.in_dirty_list = false)
    (hnot : a ∉ data.ss.dirty_pages)
    (hsweep : data.config.mmap = true →
      ∃ trace, restore_vmas k2 fuel mmap data = some (0, trace)) :
    (∃ d1, page_add_new_anon_rmap_hook k data a = some (d1, []) ∧
      ∃ r, recover_memory_snapshot k2 fuel mmap d1 mem = some r ∧
        r.res = 0 ∧
        r.trace.filter (restores_page a) = [event.zap_page_range a PAGE_SIZE] ∧
        r.mem a = mem a ∧
        get_snapshot_page r.data a = some sp ∧
        a ∉ r.data.ss.dirty_pages ∧
        (data.ss.dirty_pages = [] → data.config.mmap = false →
          r.trace = [event.zap_page_range a PAGE_SIZE])) ∧
    (∀ (d : task_data) (sp2 : snapshot_page) (c : page_bytes),
      get_snapshot_page d a = some sp2 → sp2.page_prot = page_kind.none_pte →
      record_dirty_page k d a c = (d, none, [])) := by
  refine ⟨?_, fun d sp2 c h2 hk2 => record_dirty_page_of_skip h2 (Or.inr hk2)⟩
  obtain ⟨d1, sp1, h1, g1, e1, l1, c1, -, v1, cf1, -⟩ :=
    hook_none_pte_spec k data a sp hsp hk hl hnot
  have hb : sp.page_base = a := get_base hsp
  have hb1 : sp1.page_base = a := get_base g1
  refine ⟨d1, h1, ?_⟩
  obtain ⟨r, trace, hret, hres, hmem, hdata, htrace, hnil, hrun⟩ :=
    recover_memory_snapshot_of_sweep k2 fuel mmap d1 mem (fun hc => by
      rw [restore_vmas_congr k2 fuel mmap d1 data v1]
      exact hsweep (cf1 ▸ hc))
  have hfil : trace.filter (restores_page a) = [] := by
    cases hc : d1.config.mmap
    · rw [hnil hc]
      rfl
    · exact restore_vmas_loop_restores_none k2 d1.ss.all_vmas a fuel _ (0, trace) (hrun hc)
  refine ⟨r, hret, hres, ?_⟩
  rw [l1, recover_pages_append] at hmem hdata htrace
  obtain ⟨f1, f2, f3, f4⟩ := recover_pages_frame_at k2 a data.ss.dirty_pages
    { data := d1, mem := mem, trace := trace } hnot
  have g2 : get_snapshot_page (recover_pages k2 data.ss.dirty_pages
      { data := d1, mem := mem, trace := trace }).data sp1.page_base = some sp1 := by
    rw [hb1, f1]; exact g1
  have hstep : recover_pages k2 [a] (recover_pages k2 data.ss.dirty_pages
        { data := d1, mem := mem, trace := trace }) =
      recover_page k2 (recover_pages k2 data.ss.dirty_pages
        { data := d1, mem := mem, trace := trace }) sp1 := by
    rw [hb1] at g2
    simp only [recover_pages, g2]
  rw [hstep] at hmem hdata htrace
  obtain ⟨q1, q2, q3, q4⟩ := recover_page_none_pte k2 _ sp1 g2
    (by rw [e1]; exact hk) (by rw [e1]) (by rw [e1]; exact hd) (by rw [e1])
  have hsp1 : ({ sp1 with has_had_pte := false, in_dirty_list := false } : snapshot_page) = sp := by
    rw [e1]
    cases sp
    simp only at hp hl
    simp [hp, hl]
  rw [hsp1] at q3
  rw [hb1] at q1 q3 q4
  refine ⟨?_, ?_, ?_, ?_, fun hempty hcfg => ?_⟩
  · rw [htrace, q1, List.filter_append, f3]
    simp [hfil, restores_page]
  · rw [hmem, q2, f2]
  · rw [hdata, q3]
  · rw [hdata, q4]
    intro hmem2
    have hcount : (list_del a (recover_pages k2 data.ss.dirty_pages
        { data := d1, mem := mem, trace := trace }).data.ss.dirty_pages).count a = 0 := by
      unfold list_del
      rw [List.count_erase_self, f4]
      simp only
      rw [c1]
    exact (List.count_pos_iff.2 hmem2).ne' hcount
  · have ht : trace = [] := hnil (cf1.symm ▸ hcfg)
    rw [htrace, q1, hempty, ht]
    rfl

/-- C25, witness: with `MMAP` set, the page at `0x1000` is captured through an
empty entry, then mapped, then the snapshot is recovered while the mapping
`[0x1000, 0x2000)` is in place: the sweep makes no call, and
`recover_memory_snapshot` returns 0 after the one `zap_page_range`. -/
theorem new_mapping_roundtrip_witness :
    restore_vmas kernel_ok 4 (mm_one_page pte_empty).mmap
        (take_memory_snapshot kernel_ok (mm_one_page pte_empty)
          (empty_task ⟨true, false, false⟩)).2.1 = some (0, []) ∧
    ∃ d1, page_add_new_anon_rmap_hook kernel_ok
        (take_memory_snapshot kernel_ok (mm_one_page pte_empty)
          (empty_task ⟨true, false, false⟩)).2.1 4096 = some (d1, []) ∧
      ∃ r, recover_memory_snapshot kernel_ok 4 (mm_one_page pte_empty).mmap d1 memory_ones =
          some r ∧
        r.res = 0 ∧
        r.trace.filter (restores_page 4096) = [event.zap_page_range 4096 PAGE_SIZE] ∧
        r.mem 4096 = memory_ones 4096 ∧
        get_snapshot_page r.data 4096 =
          some { page_base := 4096, page_prot := page_kind.none_pte, page_data := none,
                 has_been_copied := false, has_had_pte := false, dirty := false,
                 in_dirty_list := false } ∧
        4096 ∉ r.data.ss.dirty_pages :=
  ⟨by decide,
    match (new_mapping_roundtrip kernel_ok kernel_ok 4 (mm_one_page pte_empty).mmap
      (take_memory_snapshot kernel_ok (mm_one_page pte_empty)
        (empty_task ⟨true, false, false⟩)).2.1 memory_ones 4096
      { page_base := 4096, page_prot := page_kind.none_pte, page_data := none,
        has_been_copied := false, has_had_pte := false, dirty := false, in_dirty_list := false }
      rfl rfl rfl rfl rfl (by decide) (fun _ => ⟨[], by decide⟩)).1 with
    | ⟨d1, h1, r, h2, h3, h4, h5, h6, h7, _⟩ => ⟨d1, h1, r, h2, h3, h4, h5, h6, h7⟩⟩

/-- C25, counterexample.  With `MMAP` set, the page at `0x1000` is captured
through an empty entry and then mapped: the new-mapping handler links its
record.  The process has since mapped `[0x3000, 0x4000)`, and the `vm_munmap` of
that range is interrupted.  `recover_memory_snapshot` returns `-EINTR` without
draining: no `zap_page_range` is issued, and the record still has `has_had_pte`
set and is still in the dirty list.  The quadruple is `(kind, dirty,
in_dirty_list, has_had_pte)`. -/
theorem new_mapping_not_undone_when_sweep_fails :
    ((page_add_new_anon_rmap_hook kernel_ok
        (take_memory_snapshot kernel_ok (mm_one_page pte_empty)
          (empty_task ⟨true, false, false⟩)).2.1 4096).bind
      (fun d1 => recover_memory_snapshot kernel_munmap_fails 6 mm_two_mappings.mmap d1.1
        memory_ones)).map (fun r => (r.res, r.trace, r.data.ss.dirty_pages)) =
      some (-4, [event.munmap 12288 4096, event.fatal_munmap 12288 16384], [4096]) ∧
    (((page_add_new_anon_rmap_hook kernel_ok
        (take_memory_snapshot kernel_ok (mm_one_page pte_empty)
          (empty_task ⟨true, false, false⟩)).2.1 4096).bind
      (fun d1 => recover_memory_snapshot kernel_munmap_fails 6 mm_two_mappings.mmap d1.1
        memory_ones)).bind (fun r => get_snapshot_page r.data 4096)).map
        (fun sp => (sp.page_prot, sp.dirty, sp.in_dirty_list, sp.has_had_pte)) =
      some (page_kind.none_pte, false, true, true) := by
  decide

/-! ## Restore: the trajectory of the sweep -/

theorem restore_vmas_states_ne_nil (k : kernel) (all_vmas : List snapshot_vma) (fuel : Nat)
    (s : sweep_state) : restore_vmas_states k all_vmas fuel s ≠ [] := by
  unfold restore_vmas_states
  split
  · simp
  · cases fuel with
    | zero => simp
    | succ n =>
      simp only
      split <;> simp

theorem restore_vmas_states_head (k : kernel) (all_vmas : List snapshot_vma) (fuel : Nat)
    (s : sweep_state) : (restore_vmas_states k all_vmas fuel s).head? = some s := by
  unfold restore_vmas_states
  split
  · rfl
  · cases fuel with
    | zero => rfl
    | succ n =>
      simp only
      split <;> rfl

theorem sweep_not_done {s : sweep_state} (h : ¬ (s.vma_iter = [] ∧ s.ss_vma_iter = [])) :
    (s.vma_iter.isEmpty && s.ss_vma_iter.isEmpty) = false := by
  cases hv : s.vma_iter <;> cases hs : s.ss_vma_iter <;> simp_all

theorem sweep_done {s : sweep_state} (h : s.vma_iter = [] ∧ s.ss_vma_iter = []) :
    (s.vma_iter.isEmpty && s.ss_vma_iter.isEmpty) = true := by
  simp [h.1, h.2]

/-- The number of states of the loop is at most the measure of the first state
plus one, whatever the fuel and whatever the kernel calls return, when they
leave the mappings as they are. -/
theorem restore_vmas_states_length (k : kernel) (hs : keeps_mappings k)
    (all_vmas : List snapshot_vma) :
    ∀ (fuel : Nat) (s : sweep_state), sweep_bounded s →
      (restore_vmas_states k all_vmas fuel s).length ≤ sweep_measure s + 1 := by
  intro fuel
  induction fuel with
  | zero =>
    intro s _
    unfold restore_vmas_states
    split <;> simp
  | succ n ih =>
    intro s hb
    unfold restore_vmas_states
    by_cases hdone : s.vma_iter = [] ∧ s.ss_vma_iter = []
    · simp [sweep_done hdone]
    · simp only [sweep_not_done hdone, Bool.false_eq_true, if_false]
      cases hbody : restore_vmas_body k all_vmas s with
      | inr r => simp
      | inl s2 =>
        obtain ⟨res, trace, hs2⟩ := restore_vmas_body_inl hs hbody
        have hb2 : sweep_bounded { s with res := res, trace := trace } := hb
        have hstep := sweep_next_bounded all_vmas { s with res := res, trace := trace } hb2 hdone
        have hm2 : sweep_measure { s with res := res, trace := trace } = sweep_measure s := rfl
        have := ih s2 (hs2 ▸ hstep.1)
        rw [hs2] at this
        simp only [List.length_cons]
        rw [hs2]
        omega

theorem restore_vmas_body_inl_zero {k : kernel} {all_vmas : List snapshot_vma}
    {s s2 : sweep_state} (hs : keeps_mappings k)
    (h : restore_vmas_body k all_vmas s = Sum.inl s2) (hres : s.res = 0) :
    ∃ trace, s2 = sweep_next all_vmas { s with trace := trace } := by
  have hself : ∀ t, ({ s with res := 0, trace := t } : sweep_state) = { s with trace := t } := by
    intro t
    cases s
    simp only at hres
    simp [hres]
  unfold restore_vmas_body at h
  simp only [keeps_mappings_munmap hs, keeps_mappings_mmap hs] at h
  split at h
  · split at h
    · cases h
    · rename_i hz
      have hz2 : k.vm_munmap s.trace s.cursor
          (ulong_sub (min (sweep_next_vma_pos s) (sweep_next_ss_vma_pos s)) s.cursor) = 0 := by
        simpa using hz
      cases h
      rw [hz2, hself]
      exact ⟨_, rfl⟩
  · split at h
    · split at h
      · split at h
        · cases h
        · cases h; exact ⟨_, rfl⟩
      · cases h; exact ⟨_, rfl⟩
    · cases h; exact ⟨s.trace, rfl⟩

/-- Over ascending sequences of mappings the kernel leaves as they are, the
cursor never decreases from one state of the loop to the next. -/
theorem restore_vmas_states_cursor (k : kernel) (hs : keeps_mappings k)
    {mmap : List vm_area_struct} {all_vmas : List snapshot_vma} (hm : ascending_mappings mmap)
    (hr : ascending_recorded all_vmas) :
    ∀ (fuel : Nat) (s : sweep_state), sweep_inv mmap all_vmas s →
      List.Chain' (fun s t => s.cursor ≤ t.cursor) (restore_vmas_states k all_vmas fuel s) := by
  intro fuel
  induction fuel with
  | zero =>
    intro s _
    unfold restore_vmas_states
    split <;> exact List.chain'_singleton _
  | succ n ih =>
    intro s h
    unfold restore_vmas_states
    by_cases hdone : s.vma_iter = [] ∧ s.ss_vma_iter = []
    · simp only [sweep_done hdone, if_true]
      exact List.chain'_singleton _
    · simp only [sweep_not_done hdone, Bool.false_eq_true, if_false]
      cases hbody : restore_vmas_body k all_vmas s with
      | inr r => exact List.chain'_singleton _
      | inl s2 =>
        obtain ⟨trace, hs2⟩ := restore_vmas_body_inl_zero hs hbody h.2.2.2.2
        have h2 : sweep_inv mmap all_vmas { s with trace := trace } := h
        have hle := sweep_cursor_le_min hm hr h2 hdone
        have hinv := sweep_inv_next hm hr h2 hdone
        simp only
        rw [List.chain'_cons']
        refine ⟨fun y hy => ?_, ih s2 (hs2 ▸ hinv)⟩
        rw [restore_vmas_states_head] at hy
        cases hy
        rw [hs2, sweep_next_cursor]
        exact hle

theorem sweep_completed_tail {s : sweep_state} {l : List sweep_state} (hl : l ≠ [])
    (h : sweep_completed (s :: l)) : sweep_completed l := by
  obtain ⟨t, ht, hd⟩ := h
  refine ⟨t, ?_, hd⟩
  cases l with
  | nil => exact absurd rfl hl
  | cons x xs => simpa [List.getLast?_cons_cons] using ht

/-- When the loop runs to its end over mappings the kernel leaves as they are,
the cursor takes the value of every boundary that either side has still to
pass. -/
theorem restore_vmas_states_visit (k : kernel) (hs : keeps_mappings k)
    (all_vmas : List snapshot_vma) :
    ∀ (fuel : Nat) (s : sweep_state), sweep_bounded s → sweep_measure s ≤ fuel →
      sweep_completed (restore_vmas_states k all_vmas fuel s) →
      ∀ b, (b ∈ pending_boundaries vm_area_struct.vm_start vm_area_struct.vm_end
              s.in_vmas s.vma_iter ∨
            b ∈ pending_boundaries snapshot_vma.vm_start snapshot_vma.vm_end
              s.in_ss_vmas s.ss_vma_iter) →
        ∃ t ∈ restore_vmas_states k all_vmas fuel s, t.cursor = b := by
  intro fuel
  induction fuel with
  | zero =>
    intro s hb hmeas _ b hmem
    by_cases hdone : s.vma_iter = [] ∧ s.ss_vma_iter = []
    · simp [pending_boundaries, hdone.1, hdone.2] at hmem
    · have := (sweep_next_bounded all_vmas s hb hdone).2
      omega
  | succ n ih =>
    intro s hb hmeas hcomp b hmem
    by_cases hdone : s.vma_iter = [] ∧ s.ss_vma_iter = []
    · simp [pending_boundaries, hdone.1, hdone.2] at hmem
    · unfold restore_vmas_states at hcomp ⊢
      simp only [sweep_not_done hdone, Bool.false_eq_true, if_false] at hcomp ⊢
      cases hbody : restore_vmas_body k all_vmas s with
      | inr r =>
        rw [hbody] at hcomp
        obtain ⟨t, ht, hd⟩ := hcomp
        simp only [List.getLast?_singleton, Option.some.injEq] at ht
        subst ht
        exact absurd hd hdone
      | inl s2 =>
        rw [hbody] at hcomp
        simp only at hcomp ⊢
        obtain ⟨res, trace, hs2⟩ := restore_vmas_body_inl hs hbody
        have hb2 : sweep_bounded { s with res := res, trace := trace } := hb
        have hstep := sweep_next_bounded all_vmas { s with res := res, trace := trace } hb2 hdone
        have hm2 : sweep_measure { s with res := res, trace := trace } = sweep_measure s := rfl
        have hlt := sweep_min_lt hb2 hdone
        have hvs := sweep_next_vma_side all_vmas { s with res := res, trace := trace } hlt
        have hrs := sweep_next_ss_side all_vmas { s with res := res, trace := trace } hlt
        rw [← hs2] at hstep hvs hrs
        have hcur : s2.cursor = min (sweep_next_vma_pos { s with res := res, trace := trace })
            (sweep_next_ss_vma_pos { s with res := res, trace := trace }) := by
          rw [hs2]; rfl
        have hrec := ih s2 hstep.1 (by omega)
          (sweep_completed_tail (restore_vmas_states_ne_nil k all_vmas n s2) hcomp)
        have hhead : s2 ∈ restore_vmas_states k all_vmas n s2 :=
          List.mem_of_mem_head? (restore_vmas_states_head k all_vmas n s2 ▸ rfl)
        have hlater : ∀ b, (b ∈ pending_boundaries vm_area_struct.vm_start vm_area_struct.vm_end
              s2.in_vmas s2.vma_iter ∨
            b ∈ pending_boundaries snapshot_vma.vm_start snapshot_vma.vm_end
              s2.in_ss_vmas s2.ss_vma_iter) →
            ∃ t ∈ s :: restore_vmas_states k all_vmas n s2, t.cursor = b := by
          intro b hb3
          obtain ⟨t, ht, hc⟩ := hrec b hb3
          exact ⟨t, List.mem_cons_of_mem _ ht, hc⟩
        have hnow : ∃ t ∈ s :: restore_vmas_states k all_vmas n s2, t.cursor = s2.cursor :=
          ⟨s2, List.mem_cons_of_mem _ hhead, rfl⟩
        rcases hmem with hmem | hmem
        · rcases hvs with ⟨e0, v, vs, e, ⟨a1, a2, a3, a4⟩ | ⟨a1, a2, a3, a4⟩⟩ | ⟨-, a1, a2⟩
          · have e' : s.vma_iter = v :: vs := e
            have a1' : s.in_vmas = false := a1
            simp only [pending_boundaries, e', a1', Bool.false_eq_true, if_false, List.map_cons,
              List.mem_append, List.mem_cons] at hmem
            rcases hmem with (hmem | hmem) | hmem
            · rw [hmem, ← a2, ← e0, ← hcur]; exact hnow
            · exact hlater b (Or.inl (by simp [pending_boundaries, a3, a4, hmem]))
            · exact hlater b (Or.inl (by
                simp only [pending_boundaries, a3, a4, List.map_cons, List.mem_append,
                  List.mem_cons]
                exact Or.inr hmem))
          · have e' : s.vma_iter = v :: vs := e
            have a1' : s.in_vmas = true := a1
            simp only [pending_boundaries, e', a1', if_true, List.tail_cons, List.map_cons,
              List.mem_append, List.mem_cons] at hmem
            rcases hmem with hmem | hmem | hmem
            · exact hlater b (Or.inl (by simp [pending_boundaries, a3, a4, hmem]))
            · rw [hmem, ← a2, ← e0, ← hcur]; exact hnow
            · exact hlater b (Or.inl (by simp [pending_boundaries, a3, a4, hmem]))
          · have a1' : s2.in_vmas = s.in_vmas := a1
            have a2' : s2.vma_iter = s.vma_iter := a2
            exact hlater b (Or.inl (by rw [a1', a2']; exact hmem))
        · rcases hrs with ⟨e0, v, vs, e, ⟨a1, a2, a3, a4⟩ | ⟨a1, a2, a3, a4⟩⟩ | ⟨-, a1, a2⟩
          · have e' : s.ss_vma_iter = v :: vs := e
            have a1' : s.in_ss_vmas = false := a1
            simp only [pending_boundaries, e', a1', Bool.false_eq_true, if_false, List.map_cons,
              List.mem_append, List.mem_cons] at hmem
            rcases hmem with (hmem | hmem) | hmem
            · rw [hmem, ← a2, ← e0, ← hcur]; exact hnow
            · exact hlater b (Or.inr (by simp [pending_boundaries, a3, a4, hmem]))
            · exact hlater b (Or.inr (by
                simp only [pending_boundaries, a3, a4, List.map_cons, List.mem_append,
                  List.mem_cons]
                exact Or.inr hmem))
          · have e' : s.ss_vma_iter = v :: vs := e
            have a1' : s.in_ss_vmas = true := a1
            simp only [pending_boundaries, e', a1', if_true, List.tail_cons, List.map_cons,
              List.mem_append, List.mem_cons] at hmem
            rcases hmem with hmem | hmem | hmem
            · exact hlater b (Or.inr (by simp [pending_boundaries, a3, a4, hmem]))
            · rw [hmem, ← a2, ← e0, ← hcur]; exact hnow
            · exact hlater b (Or.inr (by simp [pending_boundaries, a3, a4, hmem]))
          · have a1' : s2.in_ss_vmas = s.in_ss_vmas := a1
            have a2' : s2.ss_vma_iter = s.ss_vma_iter := a2
            exact hlater b (Or.inr (by rw [a1', a2']; exact hmem))

/-- A result of the loop of `restore_vmas` does not change when more fuel is
given. -/
theorem restore_vmas_loop_fuel (k : kernel) (all_vmas : List snapshot_vma) :
    ∀ (fuel extra : Nat) (s : sweep_state) (r : Int × List event),
      restore_vmas_loop k all_vmas fuel s = some r →
      restore_vmas_loop k all_vmas (fuel + extra) s = some r := by
  intro fuel
  induction fuel with
  | zero =>
    intro extra s r h
    unfold restore_vmas_loop at h ⊢
    split at h
    · rename_i hd
      simp only [hd, if_true]
      exact h
    · cases h
  | succ n ih =>
    intro extra s r h
    have hadd : n + 1 + extra = (n + extra) + 1 := by omega
    rw [hadd]
    unfold restore_vmas_loop at h ⊢
    split at h
    · rename_i hd
      simp only [hd, if_true]
      exact h
    · rename_i hd
      simp only [hd, Bool.false_eq_true, if_false]
      simp only at h
      cases hbody : restore_vmas_body k all_vmas s with
      | inr r2 =>
        rw [hbody] at h
        exact h
      | inl s2 =>
        rw [hbody] at h
        exact ih extra s2 r h

/-- The sweep over mappings that stay in place.  For current mappings and
recorded mappings with all bounds below `ULONG_MAX`, `n` and `m` of them, and a
kernel whose calls leave the mappings as they are: the loop of `restore_vmas`
returns within `2 (n + m)` iterations whatever the calls return, more fuel does
not change its result, and it passes through at most `2 (n + m) + 1` states;
over ascending sequences the cursor never decreases from one state to the
next; and when the loop runs to its end, the start and the end of every mapping
and of every record is a value the cursor takes, also after the other sequence
is exhausted. -/
theorem restore_vmas_linear (k : kernel) (hs : keeps_mappings k) (mmap : List vm_area_struct)
    (data : task_data)
    (hm : ∀ v ∈ mmap, v.vm_start < ULONG_MAX ∧ v.vm_end < ULONG_MAX)
    (hr : ∀ r ∈ data.ss.all_vmas, r.vm_start < ULONG_MAX ∧ r.vm_end < ULONG_MAX) :
    (∃ r, restore_vmas k (2 * (mmap.length + data.ss.all_vmas.length)) mmap data = some r ∧
      ∀ extra, restore_vmas k (2 * (mmap.length + data.ss.all_vmas.length) + extra) mmap data =
        some r) ∧
    (∀ fuel, (restore_vmas_trajectory k fuel mmap data).length ≤
      2 * (mmap.length + data.ss.all_vmas.length) + 1) ∧
    (ascending_mappings mmap → ascending_recorded data.ss.all_vmas →
      ∀ fuel, List.Chain' (fun s t => s.cursor ≤ t.cursor)
        (restore_vmas_trajectory k fuel mmap data)) ∧
    (∀ fuel, 2 * (mmap.length + data.ss.all_vmas.length) ≤ fuel →
      sweep_completed (restore_vmas_trajectory k fuel mmap data) →
      (∀ v ∈ mmap, (∃ t ∈ restore_vmas_trajectory k fuel mmap data, t.cursor = v.vm_start) ∧
        ∃ t ∈ restore_vmas_trajectory k fuel mmap data, t.cursor = v.vm_end) ∧
      (∀ r ∈ data.ss.all_vmas,
        (∃ t ∈ restore_vmas_trajectory k fuel mmap data, t.cursor = r.vm_start) ∧
        ∃ t ∈ restore_vmas_trajectory k fuel mmap data, t.cursor = r.vm_end)) := by
  have hb := sweep_bounded_init hm hr
  have hmeas : sweep_measure
      { vma_iter := mmap, ss_vma_iter := data.ss.all_vmas, cursor := 0, in_ss_vmas := false,
        in_vmas := false, res := 0, trace := [] } =
      2 * (mmap.length + data.ss.all_vmas.length) := by
    simp only [sweep_measure, Bool.false_eq_true, if_false]
    omega
  refine ⟨?_, fun fuel => ?_, fun ham har fuel => ?_, fun fuel hfuel hcomp => ?_⟩
  · obtain ⟨r, hret⟩ := restore_vmas_terminates k hs _ mmap data hm hr (le_refl _)
    exact ⟨r, hret, fun extra => restore_vmas_loop_fuel k _ _ extra _ r hret⟩
  · have := restore_vmas_states_length k hs data.ss.all_vmas fuel _ hb
    rw [hmeas] at this
    exact this
  · exact restore_vmas_states_cursor k hs ham har fuel _ sweep_inv_init
  · have hv := restore_vmas_states_visit k hs data.ss.all_vmas fuel _ hb
      (by rw [hmeas]; exact hfuel)
      hcomp
    refine ⟨fun v hv2 => ⟨hv _ (Or.inl ?_), hv _ (Or.inl ?_)⟩,
      fun r hr2 => ⟨hv _ (Or.inr ?_), hv _ (Or.inr ?_)⟩⟩
    · simp only [pending_boundaries, Bool.false_eq_true, if_false, List.mem_append, List.mem_map]
      exact Or.inl ⟨v, hv2, rfl⟩
    · simp only [pending_boundaries, Bool.false_eq_true, if_false, List.mem_append, List.mem_map]
      exact Or.inr ⟨v, hv2, rfl⟩
    · simp only [pending_boundaries, Bool.false_eq_true, if_false, List.mem_append, List.mem_map]
      exact Or.inl ⟨r, hr2, rfl⟩
    · simp only [pending_boundaries, Bool.false_eq_true, if_false, List.mem_append, List.mem_map]
      exact Or.inr ⟨r, hr2, rfl⟩

/-! ## Restore: the sweep over mappings the kernel changes -/

/-- What the loop of `restore_vmas` returns is decided in the last state of its
trajectory: there both iterators are exhausted and the result is 0 with the
trace of that state, or the iteration from that state returns from inside the
loop. -/
theorem restore_vmas_loop_last (k : kernel) (all_vmas : List snapshot_vma) :
    ∀ (fuel : Nat) (s : sweep_state) (r : Int × List event),
      restore_vmas_loop k all_vmas fuel s = some r →
      ∃ t, (restore_vmas_states k all_vmas fuel s).getLast? = some t ∧
        ((t.vma_iter = [] ∧ t.ss_vma_iter = [] ∧ r = (0, t.trace)) ∨
          restore_vmas_body k all_vmas t = Sum.inr r) := by
  intro fuel
  induction fuel with
  | zero =>
    intro s r h
    unfold restore_vmas_loop at h
    unfold restore_vmas_states
    split at h
    · rename_i hd
      simp only [hd, if_true, List.getLast?_singleton]
      cases h
      simp only [Bool.and_eq_true, List.isEmpty_iff] at hd
      exact ⟨s, rfl, Or.inl ⟨hd.1, hd.2, rfl⟩⟩
    · cases h
  | succ n ih =>
    intro s r h
    unfold restore_vmas_loop at h
    unfold restore_vmas_states
    split at h
    · rename_i hd
      simp only [hd, if_true, List.getLast?_singleton]
      cases h
      simp only [Bool.and_eq_true, List.isEmpty_iff] at hd
      exact ⟨s, rfl, Or.inl ⟨hd.1, hd.2, rfl⟩⟩
    · rename_i hd
      simp only [hd, Bool.false_eq_true, if_false]
      simp only at h
      cases hbody : restore_vmas_body k all_vmas s with
      | inr r2 =>
        rw [hbody] at h
        cases h
        exact ⟨s, by simp, Or.inr hbody⟩
      | inl s2 =>
        rw [hbody] at h
        obtain ⟨t, ht, hr⟩ := ih s2 r h
        refine ⟨t, ?_, hr⟩
        simp only
        have hne := restore_vmas_states_ne_nil k all_vmas n s2
        cases hl : restore_vmas_states k all_vmas n s2 with
        | nil => exact absurd hl hne
        | cons x xs =>
          rw [hl] at ht
          rw [List.getLast?_cons_cons]
          exact ht

theorem restore_vmas_states_cons {k : kernel} {all_vmas : List snapshot_vma}
    {s s2 : sweep_state} {l : List sweep_state} (fuel : Nat)
    (hrest : restore_vmas_states k all_vmas fuel s2 = l)
    (hne : (s.vma_iter.isEmpty && s.ss_vma_iter.isEmpty) = false)
    (hb : restore_vmas_body k all_vmas s = Sum.inl s2) :
    restore_vmas_states k all_vmas (fuel + 1) s = s :: l := by
  unfold restore_vmas_states
  simp only [hne, Bool.false_eq_true, if_false, hb, hrest]

theorem restore_vmas_states_done {k : kernel} {all_vmas : List snapshot_vma} {s : sweep_state}
    (fuel : Nat) (hd : (s.vma_iter.isEmpty && s.ss_vma_iter.isEmpty) = true) :
    restore_vmas_states k all_vmas fuel s = [s] := by
  unfold restore_vmas_states
  simp only [hd, if_true]

theorem restore_vmas_loop_cons {k : kernel} {all_vmas : List snapshot_vma}
    {s t : sweep_state} {r : Option (Int × List event)} (fuel : Nat)
    (hrest : restore_vmas_loop k all_vmas fuel t = r)
    (hne : (s.vma_iter.isEmpty && s.ss_vma_iter.isEmpty) = false)
    (hb : restore_vmas_body k all_vmas s = Sum.inl t) :
    restore_vmas_loop k all_vmas (fuel + 1) s = r := by
  unfold restore_vmas_loop
  simp only [hne, Bool.false_eq_true, if_false, hb, hrest]

theorem restore_vmas_loop_done {k : kernel} {all_vmas : List snapshot_vma} {s : sweep_state}
    (fuel : Nat) (hd : (s.vma_iter.isEmpty && s.ss_vma_iter.isEmpty) = true) :
    restore_vmas_loop k all_vmas fuel s = some (0, s.trace) := by
  unfold restore_vmas_loop
  simp only [hd, if_true]

theorem restore_vmas_loop_out {k : kernel} {all_vmas : List snapshot_vma} {s : sweep_state}
    (hne : (s.vma_iter.isEmpty && s.ss_vma_iter.isEmpty) = false) :
    restore_vmas_loop k all_vmas 0 s = none := by
  unfold restore_vmas_loop
  simp only [hne, Bool.false_eq_true, if_false]

/-- The states of the sweep over the current mapping `[0, 0x3000)` and the
recorded mappings `[0, 0x1000)` and `[0x2000, 0x3000)`, one iteration after the
other. -/
theorem restore_vmas_trajectory_one_hole :
    restore_vmas_trajectory kernel_ok 6 mmap_one_block task_two_recorded =
      [⟨[⟨0, 12288, 3, true⟩], [⟨0, 4096, 7, true⟩, ⟨8192, 12288, 7, true⟩], 0, false, false,
         0, []⟩,
       ⟨[⟨0, 12288, 3, true⟩], [⟨0, 4096, 7, true⟩, ⟨8192, 12288, 7, true⟩], 0, true, true,
         0, []⟩,
       ⟨[⟨0, 12288, 3, true⟩], [⟨8192, 12288, 7, true⟩], 4096, false, true, 0, []⟩,
       ⟨[⟨0, 4096, 3, true⟩, ⟨8192, 12288, 3, true⟩], [⟨8192, 12288, 7, true⟩], 8192, true, true,
         0, [event.munmap 4096 4096]⟩,
       ⟨[⟨8192, 12288, 3, true⟩], [⟨8192, 12288, 7, true⟩], 4096, true, false, 0,
         [event.munmap 4096 4096]⟩,
       ⟨[⟨8192, 12288, 3, true⟩], [⟨8192, 12288, 7, true⟩], 8192, true, true, 0,
         [event.munmap 4096 4096, event.mmap 4096 4096 7 1048578]⟩,
       ⟨[], [], 12288, false, false, 0,
         [event.munmap 4096 4096, event.mmap 4096 4096 7 1048578]⟩] :=
  restore_vmas_states_cons 5 (restore_vmas_states_cons 4 (restore_vmas_states_cons 3
    (restore_vmas_states_cons 2 (restore_vmas_states_cons 1 (restore_vmas_states_cons 0
      (restore_vmas_states_done 0 rfl) rfl rfl) rfl rfl) rfl rfl) rfl rfl) rfl rfl) rfl rfl

/-- The states of the sweep over the current mapping `[0, 0x5000)` and the
recorded mappings `[0, 0x1000)`, `[0x2000, 0x3000)` and `[0x4000, 0x5000)`. -/
theorem restore_vmas_trajectory_two_holes :
    restore_vmas_trajectory kernel_ok 10 mmap_one_long_block task_three_recorded =
      [⟨[⟨0, 20480, 3, true⟩],
         [⟨0, 4096, 7, true⟩, ⟨8192, 12288, 7, true⟩, ⟨16384, 20480, 7, true⟩], 0, false, false,
         0, []⟩,
       ⟨[⟨0, 20480, 3, true⟩],
         [⟨0, 4096, 7, true⟩, ⟨8192, 12288, 7, true⟩, ⟨16384, 20480, 7, true⟩], 0, true, true,
         0, []⟩,
       ⟨[⟨0, 20480, 3, true⟩], [⟨8192, 12288, 7, true⟩, ⟨16384, 20480, 7, true⟩], 4096, false,
         true, 0, []⟩,
       ⟨[⟨0, 4096, 3, true⟩, ⟨8192, 20480, 3, true⟩],
         [⟨8192, 12288, 7, true⟩, ⟨16384, 20480, 7, true⟩], 8192, true, true, 0,
         [event.munmap 4096 4096]⟩,
       ⟨[⟨8192, 20480, 3, true⟩], [⟨8192, 12288, 7, true⟩, ⟨16384, 20480, 7, true⟩], 4096, true,
         false, 0, [event.munmap 4096 4096]⟩,
       ⟨[⟨8192, 20480, 3, true⟩], [⟨8192, 12288, 7, true⟩, ⟨16384, 20480, 7, true⟩], 8192, true,
         true, 0, [event.munmap 4096 4096, event.mmap 4096 4096 7 1048578]⟩,
       ⟨[⟨8192, 20480, 3, true⟩], [⟨16384, 20480, 7, true⟩], 12288, false, true, 0,
         [event.munmap 4096 4096, event.mmap 4096 4096 7 1048578]⟩,
       ⟨[⟨8192, 12288, 3, true⟩, ⟨16384, 20480, 3, true⟩], [⟨16384, 20480, 7, true⟩], 16384, true,
         true, 0,
         [event.munmap 4096 4096, event.mmap 4096 4096 7 1048578, event.munmap 12288 4096]⟩,
       ⟨[⟨16384, 20480, 3, true⟩], [⟨16384, 20480, 7, true⟩], 12288, true, false, 0,
         [event.munmap 4096 4096, event.mmap 4096 4096 7 1048578, event.munmap 12288 4096]⟩,
       ⟨[⟨16384, 20480, 3, true⟩], [⟨16384, 20480, 7, true⟩], 16384, true, true, 0,
         [event.munmap 4096 4096, event.mmap 4096 4096 7 1048578, event.munmap 12288 4096,
          event.mmap 12288 4096 7 1048578]⟩,
       ⟨[], [], 20480, false, false, 0,
         [event.munmap 4096 4096, event.mmap 4096 4096 7 1048578, event.munmap 12288 4096,
          event.mmap 12288 4096 7 1048578]⟩] :=
  restore_vmas_states_cons 9 (restore_vmas_states_cons 8 (restore_vmas_states_cons 7
    (restore_vmas_states_cons 6 (restore_vmas_states_cons 5 (restore_vmas_states_cons 4
      (restore_vmas_states_cons 3 (restore_vmas_states_cons 2 (restore_vmas_states_cons 1
        (restore_vmas_states_cons 0 (restore_vmas_states_done 0 rfl) rfl rfl) rfl rfl) rfl rfl)
        rfl rfl) rfl rfl) rfl rfl) rfl rfl) rfl rfl) rfl rfl) rfl rfl

/-- After eight iterations the sweep over the current mapping `[0, 0x5000)` and
the three recorded mappings has not come to its end. -/
theorem restore_vmas_two_holes_out :
    restore_vmas kernel_ok 8 mmap_one_long_block task_three_recorded = none :=
  restore_vmas_loop_cons 7
    (t := ⟨[⟨0, 20480, 3, true⟩],
      [⟨0, 4096, 7, true⟩, ⟨8192, 12288, 7, true⟩, ⟨16384, 20480, 7, true⟩], 0, true, true,
      0, []⟩)
    (restore_vmas_loop_cons 6
      (t := ⟨[⟨0, 20480, 3, true⟩], [⟨8192, 12288, 7, true⟩, ⟨16384, 20480, 7, true⟩], 4096,
        false, true, 0, []⟩)
      (restore_vmas_loop_cons 5
        (t := ⟨[⟨0, 4096, 3, true⟩, ⟨8192, 20480, 3, true⟩],
          [⟨8192, 12288, 7, true⟩, ⟨16384, 20480, 7, true⟩], 8192, true, true, 0,
          [event.munmap 4096 4096]⟩)
        (restore_vmas_loop_cons 4
          (t := ⟨[⟨8192, 20480, 3, true⟩], [⟨8192, 12288, 7, true⟩, ⟨16384, 20480, 7, true⟩],
            4096, true, false, 0, [event.munmap 4096 4096]⟩)
          (restore_vmas_loop_cons 3
            (t := ⟨[⟨8192, 20480, 3, true⟩], [⟨8192, 12288, 7, true⟩, ⟨16384, 20480, 7, true⟩],
              8192, true, true, 0, [event.munmap 4096 4096, event.mmap 4096 4096 7 1048578]⟩)
            (restore_vmas_loop_cons 2
              (t := ⟨[⟨8192, 20480, 3, true⟩], [⟨16384, 20480, 7, true⟩], 12288, false, true, 0,
                [event.munmap 4096 4096, event.mmap 4096 4096 7 1048578]⟩)
              (restore_vmas_loop_cons 1
                (t := ⟨[⟨8192, 12288, 3, true⟩, ⟨16384, 20480, 3, true⟩],
                  [⟨16384, 20480, 7, true⟩], 16384, true, true, 0,
                  [event.munmap 4096 4096, event.mmap 4096 4096 7 1048578,
                   event.munmap 12288 4096]⟩)
                (restore_vmas_loop_cons 0
                  (t := ⟨[⟨16384, 20480, 3, true⟩], [⟨16384, 20480, 7, true⟩], 12288, true,
                    false, 0,
                    [event.munmap 4096 4096, event.mmap 4096 4096 7 1048578,
                     event.munmap 12288 4096]⟩)
                  (restore_vmas_loop_out rfl) rfl rfl) rfl rfl) rfl rfl) rfl rfl) rfl rfl)
        rfl rfl) rfl rfl) rfl rfl

/-- The result of the loop of `restore_vmas`, read off its trajectory. -/
theorem restore_vmas_loop_of_states (k : kernel) (all_vmas : List snapshot_vma) :
    ∀ (fuel : Nat) (s t : sweep_state),
      (restore_vmas_states k all_vmas fuel s).getLast? = some t →
      (t.vma_iter.isEmpty && t.ss_vma_iter.isEmpty) = true →
      restore_vmas_loop k all_vmas fuel s = some (0, t.trace) := by
  intro fuel
  induction fuel with
  | zero =>
    intro s t hl hd
    have h0 : restore_vmas_states k all_vmas 0 s = [s] := by
      unfold restore_vmas_states
      split <;> rfl
    rw [h0] at hl
    simp only [List.getLast?_singleton, Option.some.injEq] at hl
    subst hl
    unfold restore_vmas_loop
    simp only [hd, if_true]
  | succ n ih =>
    intro s t hl hd
    unfold restore_vmas_loop
    unfold restore_vmas_states at hl
    split
    · rename_i hs
      simp only [hs, if_true, List.getLast?_singleton, Option.some.injEq] at hl
      subst hl
      rfl
    · rename_i hs
      simp only [hs, Bool.false_eq_true, if_false] at hl
      cases hb : restore_vmas_body k all_vmas s with
      | inr r =>
        rw [hb] at hl
        simp only [List.getLast?_singleton, Option.some.injEq] at hl
        subst hl
        exact absurd hd hs
      | inl s2 =>
        rw [hb] at hl
        simp only at hl ⊢
        apply ih s2 t _ hd
        have hne := restore_vmas_states_ne_nil k all_vmas n s2
        cases hl2 : restore_vmas_states k all_vmas n s2 with
        | nil => exact absurd hl2 hne
        | cons x xs =>
          rw [hl2, List.getLast?_cons_cons] at hl
          exact hl

/-- C3, the code at the failing input.  The current mapping is `[0, 0x3000)`, the
recorded mappings are `[0, 0x1000)` and `[0x2000, 0x3000)`, anonymous private,
and every kernel call succeeds.  `vm_munmap(0x1000, 0x1000)` cuts the mapping in
two, and the struct `vma_iter` points to keeps the part `[0, 0x1000)`.  The
loop, which is inside that mapping, reads its end again, takes the cursor back
to `0x1000`, finds `[0x1000, 0x2000)` recorded and not mapped, and maps it
again: the trace of `restore_vmas` is the unmap followed by a `vm_mmap` of the
range just unmapped.  The call of the third iteration changes what the loop
reads afterwards; over the same mappings left as they are the trace is the
single unmap. -/
theorem restore_vmas_maps_hole_again :
    munmap_vmas 4096 4096 mmap_one_block =
      [{ vm_start := 0, vm_end := 4096, vm_flags := 3, anonymous := true },
       { vm_start := 8192, vm_end := 12288, vm_flags := 3, anonymous := true }] ∧
    restore_vmas kernel_ok 6 mmap_one_block task_two_recorded =
      some (0, [event.munmap 4096 4096,
                event.mmap 4096 4096 7 (MAP_PRIVATE ||| MAP_FIXED_NOREPLACE)]) ∧
    (∃ s ∈ restore_vmas_trajectory kernel_ok 6 mmap_one_block task_two_recorded,
      s.cursor = 4096 ∧ s.in_vmas = true ∧ s.in_ss_vmas = false ∧
      ¬ walk_kept kernel_ok task_two_recorded.ss.all_vmas s) ∧
    restore_vmas (keep_mappings kernel_ok) 6 mmap_one_block task_two_recorded =
      some (0, [event.munmap 4096 4096]) := by
  refine ⟨by decide, ?_, ?_, by decide⟩
  · have h := restore_vmas_trajectory_one_hole
    unfold restore_vmas_trajectory at h
    exact restore_vmas_loop_of_states kernel_ok task_two_recorded.ss.all_vmas 6 _
      ⟨[], [], 12288, false, false, 0,
        [event.munmap 4096 4096, event.mmap 4096 4096 7 1048578]⟩ (by rw [h]; rfl) rfl
  · rw [restore_vmas_trajectory_one_hole]
    exact ⟨_, List.mem_cons_of_mem _ (List.mem_cons_of_mem _ (List.mem_cons_self _ _)),
      rfl, rfl, rfl, by decide⟩

/-- C26, the code at the failing inputs.  First: current mapping `[0, 0x3000)`,
recorded mappings `[0, 0x1000)` and `[0x2000, 0x3000)`, every kernel call
succeeding.  After `vm_munmap(0x1000, 0x1000)` the loop reads the end of the
mapping it is inside again, which is `0x1000` now, and the cursor goes from
`0x2000` back to `0x1000`.  Second: current mapping `[0, 0x5000)`, recorded
mappings `[0, 0x1000)`, `[0x2000, 0x3000)` and `[0x4000, 0x5000)`, so
`2 (n + m) = 8`; the loop has not returned after 8 iterations and returns
after 10. -/
theorem restore_vmas_cursor_goes_back :
    (restore_vmas_trajectory kernel_ok 6 mmap_one_block task_two_recorded).map
        (fun s => s.cursor) = [0, 0, 4096, 8192, 4096, 8192, 12288] ∧
    ¬ List.Chain' (fun s t => s.cursor ≤ t.cursor)
        (restore_vmas_trajectory kernel_ok 6 mmap_one_block task_two_recorded) ∧
    2 * (mmap_one_long_block.length + task_three_recorded.ss.all_vmas.length) = 8 ∧
    restore_vmas kernel_ok 8 mmap_one_long_block task_three_recorded = none ∧
    (restore_vmas kernel_ok 10 mmap_one_long_block task_three_recorded).map
        (fun r => r.1) = some 0 ∧
    (restore_vmas_trajectory kernel_ok 10 mmap_one_long_block task_three_recorded).map
        (fun s => s.cursor) =
      [0, 0, 4096, 8192, 4096, 8192, 12288, 16384, 12288, 16384, 20480] := by
  refine ⟨?_, ?_, rfl, restore_vmas_two_holes_out, ?_, ?_⟩
  · rw [restore_vmas_trajectory_one_hole]
    rfl
  · rw [restore_vmas_trajectory_one_hole]
    intro h
    simp at h
  · have h := restore_vmas_trajectory_two_holes
    unfold restore_vmas_trajectory at h
    have hr : restore_vmas kernel_ok 10 mmap_one_long_block task_three_recorded =
        some (0, [event.munmap 4096 4096, event.mmap 4096 4096 7 1048578,
          event.munmap 12288 4096, event.mmap 12288 4096 7 1048578]) :=
      restore_vmas_loop_of_states kernel_ok task_three_recorded.ss.all_vmas 10 _
        ⟨[], [], 20480, false, false, 0,
          [event.munmap 4096 4096, event.mmap 4096 4096 7 1048578, event.munmap 12288 4096,
           event.mmap 12288 4096 7 1048578]⟩ (by rw [h]; rfl) rfl
    rw [hr]
    rfl
  · rw [restore_vmas_trajectory_two_holes]
    rfl

end Snappy
